import Mathlib

/-!
# Genesis document codec (`consensus/ipbft/types/genesis.go`)

A shallow embedding of the genesis document types, of the translation between the
domain types and the write types, and of the hex-aware JSON codec, followed by the
properties proved about them.

Conventions of the embedding.

* A JSON text is represented by the value it denotes (`JSON`); a byte blob handed to
  `json.Unmarshal` is either not a JSON text or a JSON value (`Blob`). String literals are
  represented by their content, so texts that spell a hex field with escape sequences are
  outside the model, and so are Go strings that are not valid UTF-8.
* `*big.Int` is `Option Nat` (`none` is the nil pointer); negative integers are outside the
  model (the reward and stake quantities are non-negative).
* `uint64` is `Nat`; a value of the Go type is below `2 ^ 64`, which the `Valid` predicates
  record where it matters. A byte is a `Nat` below 256.
* A slice is `Option (List _)`: `none` is the nil slice, `some []` the empty non-nil slice.
* A Go method with a pointer receiver and an `error` result becomes a function from the
  receiver and the input to `Res`: the updated receiver, or the error. The state of the
  receiver after a failed call is not modelled; every caller in this file drops it.
* `common.Address`, `time.Time` and their conversions are collaborators whose code is not part
  of `genesis.go`; they are parameters of the model (`Collab`).
-/

namespace Genesis

/-! ## JSON values and errors -/

/-- A JSON value. An object keeps its members in the order of the text, duplicates included.
A number is kept as the text of its literal: no decoder of this file reads a number, each
either rejects it or skips it. -/
inductive JSON where
  | null
  | bool (b : Bool)
  | num (literal : String)
  | str (s : String)
  | arr (xs : List JSON)
  | obj (kvs : List (String × JSON))

/-- The input of `json.Unmarshal`: bytes that are not a JSON text, or the value of the text. -/
inductive Blob where
  | invalid
  | valid (j : JSON)

/-- Error values. `new msg` is `errors.New(msg)` of `genesis.go`; the others are raised by the
libraries (`encoding/json`, `hexutil`, `time`). -/
inductive Err where
  | new (msg : String)
  | invalidJSON
  | typeMismatch
  | nonString
  | missing0x
  | emptyNumber
  | leadingZero
  | badDigit
  | uint64Range
  | badTime
  | badAddress
  | marshalTime
  deriving DecidableEq, Repr

/-- A value or an error. -/
inductive Res (α : Type) where
  | ok (a : α)
  | err (e : Err)
  deriving DecidableEq, Repr

/-- Sequencing of fallible steps. -/
def Res.bind {α β : Type} (r : Res α) (f : α → Res β) : Res β :=
  match r with
  | .ok a => f a
  | .err e => .err e

/-! ## Bytes of a string and hexadecimal digits -/

/-- The UTF-8 bytes of a code point: a Go string is its byte sequence. -/
def utf8Bytes (c : Char) : List Nat :=
  let n := c.toNat
  if n < 0x80 then [n]
  else if n < 0x800 then [0xC0 + n / 64, 0x80 + n % 64]
  else if n < 0x10000 then [0xE0 + n / 4096, 0x80 + n / 64 % 64, 0x80 + n % 64]
  else [0xF0 + n / 262144, 0x80 + n / 4096 % 64, 0x80 + n / 64 % 64, 0x80 + n % 64]

/-- The bytes of a Go string. -/
def goBytes (s : String) : List Nat :=
  (s.data.map utf8Bytes).flatten

/-- The value of a hexadecimal digit byte (`0-9`, `a-f`, `A-F`), or `none`. -/
def decodeNibble (b : Nat) : Option Nat :=
  if 48 ≤ b ∧ b ≤ 57 then some (b - 48)
  else if 65 ≤ b ∧ b ≤ 70 then some (b - 55)
  else if 97 ≤ b ∧ b ≤ 102 then some (b - 87)
  else none

/-- The lower-case digit of a nibble. -/
def lowerDigit (d : Nat) : Char :=
  "0123456789abcdef".data.getD d '0'

/-- The upper-case digit of a nibble. -/
def upperDigit (d : Nat) : Char :=
  "0123456789ABCDEF".data.getD d '0'

/-- The byte of the lower-case digit of a nibble. -/
def lowerByte (d : Nat) : Nat :=
  if d < 10 then 48 + d else 87 + d

/-- The byte of the upper-case digit of a nibble. -/
def upperByte (d : Nat) : Nat :=
  if d < 10 then 48 + d else 55 + d

/-- Digits of `n` in base 16, most significant first, in front of `acc`; `fuel` bounds the
number of digits produced. -/
def hexDigitsAux : Nat → Nat → List Nat → List Nat
  | 0, _, acc => acc
  | fuel + 1, n, acc =>
    if n < 16 then n :: acc else hexDigitsAux fuel (n / 16) (n % 16 :: acc)

/-- The minimal base-16 digits of `n`, most significant first (`[0]` for zero). -/
def hexDigits (n : Nat) : List Nat :=
  hexDigitsAux (n + 1) n []

/-- The number denoted by a sequence of digit bytes, or `none` at a byte that is no digit. -/
def decodeNibbles : List Nat → Nat → Option Nat
  | [], acc => some acc
  | b :: rest, acc =>
    match decodeNibble b with
    | some d => decodeNibbles rest (acc * 16 + d)
    | none => none

/-- Bytes of the pairs of digits of `src`, up to the first pair that holds a byte that is no
digit (`encoding/hex.DecodeString` returns the bytes decoded before the error, and `Hex2Bytes`
drops the error). -/
def hexDecodePairs : List Nat → List Nat
  | a :: b :: rest =>
    match decodeNibble a, decodeNibble b with
    | some x, some y => (x * 16 + y) :: hexDecodePairs rest
    | _, _ => []
  | _ => []

/-- Modelled from the spec: `common.FromHex`, the generic hex decoder that strips a `0x`
prefix if present (package `common` is not among the sources). It returns bytes only, as the
call sites in `genesis.go` show; a string of odd length is read with a leading `0`. -/
def FromHex (s : String) : List Nat :=
  let b := goBytes s
  let b := match b with
    | 48 :: 120 :: rest => rest
    | 48 :: 88 :: rest => rest
    | _ => b
  let b := if b.length % 2 = 1 then 48 :: b else b
  hexDecodePairs b

/-- The bytes after a `0x` or `0X` prefix, or all the bytes when there is none: the first
step of `FromHex`. -/
def strip0x (b : List Nat) : List Nat :=
  match b with
  | 48 :: 120 :: rest => rest
  | 48 :: 88 :: rest => rest
  | _ => b

/-- The bytes behind a leading `0` when their number is odd: the second step of `FromHex`. -/
def padOdd (b : List Nat) : List Nat :=
  if b.length % 2 = 1 then 48 :: b else b

/-- A string of hexadecimal digits: each of its bytes is a digit `0-9`, `a-f` or `A-F`. -/
def hexDigitString (s : String) : Prop :=
  ∀ b ∈ goBytes s, (decodeNibble b).isSome = true

/-- Modelled from the spec: `hexutil` number syntax (`checkNumberText`; package `hexutil` is
not among the sources). The digits after the `0x` prefix; the empty text is allowed and has
no digits; a number has at least one digit and no leading zero. -/
def checkNumberText (input : List Nat) : Res (List Nat) :=
  match input with
  | [] => .ok []
  | 48 :: 120 :: raw | 48 :: 88 :: raw =>
    match raw with
    | [] => .err .emptyNumber
    | [d] => .ok [d]
    | d :: ds => if d = 48 then .err .leadingZero else .ok (d :: ds)
  | _ => .err .missing0x

/-- Modelled from the spec: decoding of an arbitrary-precision integer from its hex string
(`hexutil.Big.UnmarshalText`). -/
def decodeBigText (s : String) : Res Nat :=
  (checkNumberText (goBytes s)).bind fun raw =>
    match decodeNibbles raw 0 with
    | some n => .ok n
    | none => .err .badDigit

/-- Modelled from the spec: decoding of a 64-bit counter from its hex string
(`hexutil.Uint64.UnmarshalText`): at most 16 digits. -/
def decodeUint64Text (s : String) : Res Nat :=
  (checkNumberText (goBytes s)).bind fun raw =>
    if raw.length > 16 then .err .uint64Range
    else match decodeNibbles raw 0 with
      | some n => .ok n
      | none => .err .badDigit

/-- Modelled from the spec: the hex string of an integer or counter, lower case, prefixed
`0x`, minimal digits, `0x0` for zero (`hexutil.Big.MarshalText`, `hexutil.Uint64.MarshalText`). -/
def encodeHex (n : Nat) : String :=
  String.mk ('0' :: 'x' :: (hexDigits n).map lowerDigit)

/-- The two digits of each byte. -/
def hexOfBytes : List Nat → List Char
  | [] => []
  | b :: rest => upperDigit (b / 16) :: upperDigit (b % 16) :: hexOfBytes rest

/-- Modelled from the spec: `KeyString` of a BLS key, the hex string of the raw key bytes
(package `go-crypto` is not among the sources); upper case with the `0x` prefix, as the keys
of the built-in genesis texts are written. -/
def blsKeyString (key : List Nat) : String :=
  String.mk ('0' :: 'x' :: hexOfBytes key)

/-- Go's `copy(dst, src)`: the first bytes of `dst` are overwritten by those of `src`. -/
def copyBytes (dst src : List Nat) : List Nat :=
  src.take dst.length ++ dst.drop src.length

/-! ## Decoding of struct fields by `encoding/json` -/

/-- Case folding of a key character: ASCII letters, and the two non-ASCII characters that
fold to `s` and `k`. -/
def foldRune (c : Char) : Char :=
  if c = Char.ofNat 0x17F then 's' else if c = Char.ofNat 0x212A then 'k' else c.toLower

/-- Whether the object key `key` selects the struct field tagged `name`: the same text, or
the same text under case folding. -/
def fieldMatch (name key : String) : Bool :=
  decide (key = name) || decide (key.data.map foldRune = name.data.map foldRune)

/-- What decoding one JSON value into one field does: the field is assigned (`set`), an
error is remembered and decoding goes on with the field unchanged (`soft`, the decoder's
`saveError`), or decoding stops with the error an unmarshaler returned (`hard`). -/
inductive FieldRes (α : Type) where
  | set (a : α)
  | soft (e : Err)
  | hard (e : Err)

/-- The result of a field decoder, stored into the enclosing struct. -/
def FieldRes.map {α β : Type} (f : α → β) : FieldRes α → FieldRes β
  | .set a => .set (f a)
  | .soft e => .soft e
  | .hard e => .hard e

/-- An unmarshaler's result as a field result. -/
def FieldRes.ofRes {α : Type} : Res α → FieldRes α
  | .ok a => .set a
  | .err e => .hard e

/-- A JSON value decoded into a field of type `string` holding `cur`: `null` is a no-op. -/
def decodeString (cur : String) : JSON → FieldRes String
  | .null => .set cur
  | .str s => .set s
  | _ => .soft .typeMismatch

/-- A JSON value decoded into a field of type `*hexutil.Big`: `null` gives the nil pointer,
anything else goes to `hexutil.Big.UnmarshalJSON`, which wants a string. -/
def decodeBigPtr : JSON → FieldRes (Option Nat)
  | .null => .set none
  | .str s => FieldRes.ofRes ((decodeBigText s).bind fun n => .ok (some n))
  | _ => .hard .nonString

/-- A JSON value decoded into a field of type `hexutil.Uint64`: every value, `null`
included, goes to `hexutil.Uint64.UnmarshalJSON`, which wants a string. -/
def decodeUint64 : JSON → FieldRes Nat
  | .str s => FieldRes.ofRes (decodeUint64Text s)
  | _ => .hard .nonString

/-- The elements of a JSON array decoded in order by the element type's `UnmarshalJSON`;
the first error stops the decoding. -/
def decodeElems {α : Type} (elem : JSON → Res α) : List JSON → Res (List α)
  | [] => .ok []
  | x :: xs => (elem x).bind fun a => (decodeElems elem xs).bind fun rest => .ok (a :: rest)

/-- A JSON value decoded into a field of slice type: `null` gives the nil slice, an array a
non-nil slice (empty for `[]`), anything else is a type error. -/
def decodeSlice {α : Type} (elem : JSON → Res α) : JSON → FieldRes (Option (List α))
  | .null => .set none
  | .arr xs => FieldRes.ofRes ((decodeElems elem xs).bind fun l => .ok (some l))
  | _ => .soft .typeMismatch

/-- The members of an object decoded in order into the struct `dec`; `member` decodes one
member. `saved` is the first remembered error. -/
def decodeMembers {σ : Type} (member : σ → String → JSON → FieldRes σ) :
    σ → Option Err → List (String × JSON) → Res (σ × Option Err)
  | dec, saved, [] => .ok (dec, saved)
  | dec, saved, (k, v) :: rest =>
    match member dec k v with
    | .set dec1 => decodeMembers member dec1 saved rest
    | .soft e => decodeMembers member dec (some (saved.getD e)) rest
    | .hard e => .err e

/-- The call `json.Unmarshal(input, &dec)` for a struct `dec`: `null` is a no-op, an object is
decoded member by member, anything else is a type error. A remembered error is returned at
the end. -/
def unmarshalStruct {σ : Type} (member : σ → String → JSON → FieldRes σ) (dec : σ) :
    JSON → Res σ
  | .null => .ok dec
  | .obj kvs =>
    match decodeMembers member dec none kvs with
    | .ok (dec1, none) => .ok dec1
    | .ok (_, some e) => .err e
    | .err e => .err e
  | _ => .err .typeMismatch

/-- The value an object gives for the field tagged `name`: that of the last member whose key
selects the field. -/
def lastMember (name : String) : List (String × JSON) → Option JSON
  | [] => none
  | (k, v) :: rest =>
    match lastMember name rest with
    | some w => some w
    | none => if fieldMatch name k then some v else none

/-- The object has no member for the field tagged `name`, or the value it gives is `null`. -/
def absentOrNull (name : String) (kvs : List (String × JSON)) : Prop :=
  lastMember name kvs = none ∨ lastMember name kvs = some .null

/-- The value of one field after the members of an object were decoded without error: the
field decoder `fd` runs on each member that selects the field, from the value `a`; `none` if
one of these runs is not an assignment. -/
def runField {α : Type} (fd : α → JSON → FieldRes α) (name : String) :
    α → List (String × JSON) → Option α
  | a, [] => some a
  | a, (k, v) :: rest =>
    if fieldMatch name k then
      match fd a v with
      | .set a1 => runField fd name a1 rest
      | _ => none
    else runField fd name a rest

/-! ## The collaborators -/

/-- The address and time operations `genesis.go` calls; their code is elsewhere. -/
structure Collab (Address Time : Type) where
  /-- The zero value of `common.Address`. -/
  zeroAddress : Address
  /-- The method `common.Address.String`. -/
  addressString : Address → String
  /-- The function `common.StringToAddress`. -/
  stringToAddress : String → Address
  /-- A JSON value decoded into a field of type `common.Address` holding the given address. -/
  addressUnmarshal : Address → JSON → FieldRes Address
  /-- The zero value of `time.Time`. -/
  zeroTime : Time
  /-- The method `time.Time.UnmarshalJSON` on a JSON string; `none` when it returns an error. -/
  timeUnmarshal : String → Option Time
  /-- The method `time.Time.MarshalJSON`, giving a JSON string; `none` when it returns an error. -/
  timeMarshal : Time → Option String

/-- A JSON value decoded into a field of type `time.Time` holding `cur`: `null` is a no-op,
a string is parsed, anything else is an error of `time.Time.UnmarshalJSON`. -/
def decodeTime {Address Time : Type} (c : Collab Address Time) (cur : Time) :
    JSON → FieldRes Time
  | .null => .set cur
  | .str s =>
    match c.timeUnmarshal s with
    | some t => .set t
    | none => .hard .badTime
  | _ => .hard .badTime

/-! ## The data model -/

/-- A value of the interface type `crypto.PubKey`: the nil interface, a BLS key (an array of
128 bytes), or a key of another implementation, known by what its `KeyString` returns. -/
inductive CryptoPubKey where
  | nil
  | bls (key : List Nat)
  | other (keyString : String)
  deriving DecidableEq, Repr

/-- Go type `GenesisValidator`. -/
structure GenesisValidator (Address : Type) where
  EthAccount : Address
  PubKey : CryptoPubKey
  Amount : Option Nat
  Name : String
  RemainingEpoch : Nat
  deriving DecidableEq, Repr

/-- Go type `OneEpochDoc`. -/
structure OneEpochDoc (Address : Type) where
  Number : Nat
  RewardPerBlock : Option Nat
  StartBlock : Nat
  EndBlock : Nat
  Status : Int
  Validators : Option (List (GenesisValidator Address))
  deriving DecidableEq, Repr

/-- Go type `RewardSchemeDoc`. -/
structure RewardSchemeDoc where
  TotalReward : Option Nat
  RewardFirstYear : Option Nat
  EpochNumberPerYear : Nat
  TotalYear : Nat
  deriving DecidableEq, Repr

/-- Go type `GenesisDoc`. -/
structure GenesisDoc (Address Time : Type) where
  ChainID : String
  Consensus : String
  GenesisTime : Time
  RewardScheme : RewardSchemeDoc
  CurrentEpoch : OneEpochDoc Address
  deriving DecidableEq, Repr

/-- Go type `GenesisValidatorWrite`. -/
structure GenesisValidatorWrite where
  EthAccount : String
  PubKey : CryptoPubKey
  Amount : Option Nat
  Name : String
  RemainingEpoch : Nat
  deriving DecidableEq, Repr

/-- Go type `OneEpochDocWrite`. -/
structure OneEpochDocWrite where
  Number : Nat
  RewardPerBlock : Option Nat
  StartBlock : Nat
  EndBlock : Nat
  Status : Int
  Validators : Option (List GenesisValidatorWrite)
  deriving DecidableEq, Repr

/-- Go type `GenesisDocWrite`. -/
structure GenesisDocWrite (Time : Type) where
  ChainID : String
  Consensus : String
  GenesisTime : Time
  RewardScheme : RewardSchemeDoc
  CurrentEpoch : OneEpochDocWrite
  deriving DecidableEq, Repr

/-- The zero value `RewardSchemeDoc{}`. -/
def RewardSchemeDoc.zero : RewardSchemeDoc :=
  { TotalReward := none, RewardFirstYear := none, EpochNumberPerYear := 0, TotalYear := 0 }

/-- The zero value `GenesisValidator{}`. -/
def GenesisValidator.zero {Address Time : Type} (c : Collab Address Time) :
    GenesisValidator Address :=
  { EthAccount := c.zeroAddress, PubKey := .nil, Amount := none, Name := "",
    RemainingEpoch := 0 }

/-- The zero value `GenesisValidatorWrite{}`. -/
def GenesisValidatorWrite.zero : GenesisValidatorWrite :=
  { EthAccount := "", PubKey := .nil, Amount := none, Name := "", RemainingEpoch := 0 }

/-- The zero value `OneEpochDoc{}`. -/
def OneEpochDoc.zero {Address : Type} : OneEpochDoc Address :=
  { Number := 0, RewardPerBlock := none, StartBlock := 0, EndBlock := 0, Status := 0,
    Validators := none }

/-- The zero value `OneEpochDocWrite{}`. -/
def OneEpochDocWrite.zero : OneEpochDocWrite :=
  { Number := 0, RewardPerBlock := none, StartBlock := 0, EndBlock := 0, Status := 0,
    Validators := none }

/-- The zero value `GenesisDoc{}`. -/
def GenesisDoc.zero {Address Time : Type} (c : Collab Address Time) : GenesisDoc Address Time :=
  { ChainID := "", Consensus := "", GenesisTime := c.zeroTime,
    RewardScheme := RewardSchemeDoc.zero, CurrentEpoch := OneEpochDoc.zero }

/-- The zero value `GenesisDocWrite{}`. -/
def GenesisDocWrite.zero {Address Time : Type} (c : Collab Address Time) : GenesisDocWrite Time :=
  { ChainID := "", Consensus := "", GenesisTime := c.zeroTime,
    RewardScheme := RewardSchemeDoc.zero, CurrentEpoch := OneEpochDocWrite.zero }

/-! ## The local wire structs of the codec -/

/-- The local type `hexValidator` of the validator codecs; `A` is the type of its `Address`
field (`common.Address` for `GenesisValidator`, `string` for `GenesisValidatorWrite`). -/
structure hexValidator (A : Type) where
  Address : A
  PubKey : String
  Amount : Option Nat
  Name : String
  RemainingEpoch : Nat
  deriving DecidableEq, Repr

/-- The local type `hexEpoch` of the epoch codecs; `V` is the validator type of its
`Validators` field. -/
structure hexEpoch (V : Type) where
  Number : Nat
  RewardPerBlock : Option Nat
  StartBlock : Nat
  EndBlock : Nat
  Validators : Option (List V)
  deriving DecidableEq, Repr

/-- The local type `hexRewardScheme` of the reward scheme codec. -/
structure hexRewardScheme where
  TotalReward : Option Nat
  RewardFirstYear : Option Nat
  EpochNumberPerYear : Nat
  TotalYear : Nat
  deriving DecidableEq, Repr

/-- The zero value of `hexValidator`. -/
def hexValidator.zero {A : Type} (a : A) : hexValidator A :=
  { Address := a, PubKey := "", Amount := none, Name := "", RemainingEpoch := 0 }

/-- The zero value of `hexEpoch`. -/
def hexEpoch.zero {V : Type} : hexEpoch V :=
  { Number := 0, RewardPerBlock := none, StartBlock := 0, EndBlock := 0, Validators := none }

/-- The zero value of `hexRewardScheme`. -/
def hexRewardScheme.zero : hexRewardScheme :=
  { TotalReward := none, RewardFirstYear := none, EpochNumberPerYear := 0, TotalYear := 0 }

/-- One object member decoded into a `hexValidator`, by the `json` tags of its fields; a key
that selects no field is skipped. `addr` decodes the `Address` field. -/
def hexValidator.member {A : Type} (addr : A → JSON → FieldRes A) (dec : hexValidator A)
    (k : String) (v : JSON) : FieldRes (hexValidator A) :=
  if fieldMatch "address" k then (addr dec.Address v).map fun a => { dec with Address := a }
  else if fieldMatch "pub_key" k then
    (decodeString dec.PubKey v).map fun s => { dec with PubKey := s }
  else if fieldMatch "amount" k then (decodeBigPtr v).map fun a => { dec with Amount := a }
  else if fieldMatch "name" k then (decodeString dec.Name v).map fun s => { dec with Name := s }
  else if fieldMatch "epoch" k then
    (decodeUint64 v).map fun n => { dec with RemainingEpoch := n }
  else .set dec

/-- One object member decoded into a `hexEpoch`; `elem` is the `UnmarshalJSON` of the
validator type, run on each element of the `validators` array. -/
def hexEpoch.member {V : Type} (elem : JSON → Res V) (dec : hexEpoch V)
    (k : String) (v : JSON) : FieldRes (hexEpoch V) :=
  if fieldMatch "number" k then (decodeUint64 v).map fun n => { dec with Number := n }
  else if fieldMatch "reward_per_block" k then
    (decodeBigPtr v).map fun a => { dec with RewardPerBlock := a }
  else if fieldMatch "start_block" k then
    (decodeUint64 v).map fun n => { dec with StartBlock := n }
  else if fieldMatch "end_block" k then (decodeUint64 v).map fun n => { dec with EndBlock := n }
  else if fieldMatch "validators" k then
    (decodeSlice elem v).map fun l => { dec with Validators := l }
  else .set dec

/-- One object member decoded into a `hexRewardScheme`. -/
def hexRewardScheme.member (dec : hexRewardScheme) (k : String) (v : JSON) :
    FieldRes hexRewardScheme :=
  if fieldMatch "total_reward" k then (decodeBigPtr v).map fun a => { dec with TotalReward := a }
  else if fieldMatch "reward_first_year" k then
    (decodeBigPtr v).map fun a => { dec with RewardFirstYear := a }
  else if fieldMatch "epoch_no_per_year" k then
    (decodeUint64 v).map fun n => { dec with EpochNumberPerYear := n }
  else if fieldMatch "total_year" k then (decodeUint64 v).map fun n => { dec with TotalYear := n }
  else .set dec

/-! ## The decoders of `genesis.go` -/

/-- The zero value of `crypto.BLSPubKey`, an array of 128 bytes. -/
def zeroBLSPubKey : List Nat :=
  List.replicate 128 0

/-- The call `json.Unmarshal(input, &dec)` of `GenesisValidator.UnmarshalJSON`. -/
def GenesisValidator.decodeWire {Address Time : Type} (c : Collab Address Time) (input : JSON) :
    Res (hexValidator Address) :=
  unmarshalStruct (hexValidator.member c.addressUnmarshal) (hexValidator.zero c.zeroAddress) input

/-- The call `json.Unmarshal(input, &dec)` of `GenesisValidatorWrite.UnmarshalJSON`. -/
def GenesisValidatorWrite.decodeWire (input : JSON) : Res (hexValidator String) :=
  unmarshalStruct (hexValidator.member decodeString) (hexValidator.zero "") input

/-- Method `(gv *GenesisValidator) UnmarshalJSON`. -/
def GenesisValidator.UnmarshalJSON {Address Time : Type} (c : Collab Address Time)
    (gv : GenesisValidator Address) (input : JSON) : Res (GenesisValidator Address) :=
  (GenesisValidator.decodeWire c input).bind fun dec =>
  let gv := { gv with EthAccount := dec.Address }
  let pubkeyBytes := FromHex dec.PubKey
  if dec.PubKey = "" ∨ pubkeyBytes.length ≠ 128 then
    .err (.new "wrong format of required field 'pub_key' for Genesis/epoch/validators")
  else
    let blsPK := copyBytes zeroBLSPubKey pubkeyBytes
    let gv := { gv with PubKey := .bls blsPK }
    match dec.Amount with
    | none => .err (.new "missing required field 'amount' for Genesis/epoch/validators")
    | some amount =>
      .ok { gv with Amount := some amount, Name := dec.Name,
                    RemainingEpoch := dec.RemainingEpoch }

/-- Method `(gv *GenesisValidatorWrite) UnmarshalJSON`. -/
def GenesisValidatorWrite.UnmarshalJSON (gv : GenesisValidatorWrite) (input : JSON) :
    Res GenesisValidatorWrite :=
  (GenesisValidatorWrite.decodeWire input).bind fun dec =>
  let gv := { gv with EthAccount := dec.Address }
  let pubkeyBytes := FromHex dec.PubKey
  if dec.PubKey = "" ∨ pubkeyBytes.length ≠ 128 then
    .err (.new "wrong format of required field 'pub_key' for Genesis/epoch/validators")
  else
    let blsPK := copyBytes zeroBLSPubKey pubkeyBytes
    let gv := { gv with PubKey := .bls blsPK }
    match dec.Amount with
    | none => .err (.new "missing required field 'amount' for Genesis/epoch/validators")
    | some amount =>
      .ok { gv with Amount := some amount, Name := dec.Name,
                    RemainingEpoch := dec.RemainingEpoch }

/-- The call `json.Unmarshal(input, &dec)` of `OneEpochDoc.UnmarshalJSON`. The elements of
`validators` are decoded by `GenesisValidator.UnmarshalJSON` into fresh elements. -/
def OneEpochDoc.decodeWire {Address Time : Type} (c : Collab Address Time) (input : JSON) :
    Res (hexEpoch (GenesisValidator Address)) :=
  unmarshalStruct (hexEpoch.member (GenesisValidator.UnmarshalJSON c (GenesisValidator.zero c)))
    hexEpoch.zero input

/-- The call `json.Unmarshal(input, &dec)` of `OneEpochDocWrite.UnmarshalJSON`. The elements
of `validators` are decoded by `GenesisValidatorWrite.UnmarshalJSON` into fresh elements. -/
def OneEpochDocWrite.decodeWire (input : JSON) : Res (hexEpoch GenesisValidatorWrite) :=
  unmarshalStruct
    (hexEpoch.member (GenesisValidatorWrite.UnmarshalJSON GenesisValidatorWrite.zero))
    hexEpoch.zero input

/-- The call `json.Unmarshal(input, &dec)` of `RewardSchemeDoc.UnmarshalJSON`. -/
def RewardSchemeDoc.decodeWire (input : JSON) : Res hexRewardScheme :=
  unmarshalStruct hexRewardScheme.member hexRewardScheme.zero input

/-- Method `(ep *OneEpochDoc) UnmarshalJSON`. -/
def OneEpochDoc.UnmarshalJSON {Address Time : Type} (c : Collab Address Time)
    (ep : OneEpochDoc Address) (input : JSON) : Res (OneEpochDoc Address) :=
  (OneEpochDoc.decodeWire c input).bind fun dec =>
  let ep := { ep with Number := dec.Number, RewardPerBlock := dec.RewardPerBlock,
                      StartBlock := dec.StartBlock, EndBlock := dec.EndBlock }
  match dec.Validators with
  | none => .err (.new "missing required field 'validators' for Genesis/epoch")
  | some validators => .ok { ep with Validators := some validators }

/-- Method `(ep *OneEpochDocWrite) UnmarshalJSON`. -/
def OneEpochDocWrite.UnmarshalJSON (ep : OneEpochDocWrite) (input : JSON) :
    Res OneEpochDocWrite :=
  (OneEpochDocWrite.decodeWire input).bind fun dec =>
  let ep := { ep with Number := dec.Number, RewardPerBlock := dec.RewardPerBlock,
                      StartBlock := dec.StartBlock, EndBlock := dec.EndBlock }
  match dec.Validators with
  | none => .err (.new "missing required field 'validators' for Genesis/epoch")
  | some validators => .ok { ep with Validators := some validators }

/-- Method `(rs *RewardSchemeDoc) UnmarshalJSON`. -/
def RewardSchemeDoc.UnmarshalJSON (rs : RewardSchemeDoc) (input : JSON) : Res RewardSchemeDoc :=
  (RewardSchemeDoc.decodeWire input).bind fun dec =>
  match dec.TotalReward with
  | none => .err (.new "missing required field 'total_reward' for Genesis/reward_scheme")
  | some totalReward =>
    let rs := { rs with TotalReward := some totalReward }
    match dec.RewardFirstYear with
    | none => .err (.new "missing required field 'reward_first_year' for Genesis/reward_scheme")
    | some rewardFirstYear =>
      let rs := { rs with RewardFirstYear := some rewardFirstYear }
      .ok { rs with EpochNumberPerYear := dec.EpochNumberPerYear, TotalYear := dec.TotalYear }

/-- One object member decoded into a `GenesisDocWrite`, by the `json` tags of its fields; the
reward scheme and the epoch are decoded by their `UnmarshalJSON`, whatever the JSON value. -/
def GenesisDocWrite.member {Address Time : Type} (c : Collab Address Time)
    (w : GenesisDocWrite Time) (k : String) (v : JSON) : FieldRes (GenesisDocWrite Time) :=
  if fieldMatch "chain_id" k then (decodeString w.ChainID v).map fun s => { w with ChainID := s }
  else if fieldMatch "consensus" k then
    (decodeString w.Consensus v).map fun s => { w with Consensus := s }
  else if fieldMatch "genesis_time" k then
    (decodeTime c w.GenesisTime v).map fun t => { w with GenesisTime := t }
  else if fieldMatch "reward_scheme" k then
    (FieldRes.ofRes (RewardSchemeDoc.UnmarshalJSON w.RewardScheme v)).map
      fun rs => { w with RewardScheme := rs }
  else if fieldMatch "current_epoch" k then
    (FieldRes.ofRes (OneEpochDocWrite.UnmarshalJSON w.CurrentEpoch v)).map
      fun ep => { w with CurrentEpoch := ep }
  else .set w

/-- The call `json.Unmarshal(jsonBlob, &genDocWrite)` on the nil pointer `genDocWrite`
(`GenesisDocFromJSON`, lines 142-143): `null` leaves the pointer nil (`none`) without an
error; any other value allocates the struct. -/
def unmarshalGenesisDocWrite {Address Time : Type} (c : Collab Address Time) :
    Blob → Res (Option (GenesisDocWrite Time))
  | .invalid => .err .invalidJSON
  | .valid .null => .ok none
  | .valid j =>
    (unmarshalStruct (GenesisDocWrite.member c) (GenesisDocWrite.zero c) j).bind
      fun w => .ok (some w)

/-- The validator the loop of `GenesisDocFromJSON` stores for the validator `v` of the write
shape (lines 163-169). -/
def GenesisValidatorWrite.toValidator {Address Time : Type} (c : Collab Address Time)
    (v : GenesisValidatorWrite) : GenesisValidator Address :=
  { EthAccount := c.stringToAddress v.EthAccount
    PubKey := v.PubKey
    Amount := v.Amount
    Name := v.Name
    RemainingEpoch := v.RemainingEpoch }

/-- The translation of the write shape to the domain document (`GenesisDocFromJSON`, lines
148-170): `make` gives a non-nil slice of the length of the write shape's validators, and the
loop fills it index by index. -/
def GenesisDocWrite.toDoc {Address Time : Type} (c : Collab Address Time)
    (genDocWrite : GenesisDocWrite Time) : GenesisDoc Address Time :=
  { ChainID := genDocWrite.ChainID
    Consensus := genDocWrite.Consensus
    GenesisTime := genDocWrite.GenesisTime
    RewardScheme := genDocWrite.RewardScheme
    CurrentEpoch :=
      { Number := genDocWrite.CurrentEpoch.Number
        RewardPerBlock := genDocWrite.CurrentEpoch.RewardPerBlock
        StartBlock := genDocWrite.CurrentEpoch.StartBlock
        EndBlock := genDocWrite.CurrentEpoch.EndBlock
        Status := genDocWrite.CurrentEpoch.Status
        Validators := some ((genDocWrite.CurrentEpoch.Validators.getD []).map
          (GenesisValidatorWrite.toValidator c)) } }

/-- What a call of `GenesisDocFromJSON` does: it returns a document and an error (`none` is
the nil error), or it dereferences a nil pointer and never returns. -/
inductive Outcome (D : Type) where
  | returned (genDoc : D) (err : Option Err)
  | nilDereference
  deriving DecidableEq, Repr

/-- Function `GenesisDocFromJSON`. -/
def GenesisDocFromJSON {Address Time : Type} (c : Collab Address Time) (jsonBlob : Blob) :
    Outcome (GenesisDoc Address Time) :=
  match unmarshalGenesisDocWrite c jsonBlob with
  | .err e => .returned (GenesisDoc.zero c) (some e)
  | .ok none => .nilDereference
  | .ok (some genDocWrite) => .returned (genDocWrite.toDoc c) none

/-! ## The encoders of `genesis.go` and `SaveAs` -/

/-- What an encoding step does: a value, an error, or the dereference of a nil pointer, after
which nothing returns. -/
inductive Run (α : Type) where
  | ok (a : α)
  | err (e : Err)
  | nilDereference

/-- Sequencing of encoding steps. -/
def Run.bind {α β : Type} (r : Run α) (f : α → Run β) : Run β :=
  match r with
  | .ok a => f a
  | .err e => .err e
  | .nilDereference => .nilDereference

/-- Method `KeyString` of `crypto.PubKey`; `none` when it is called on the nil interface. -/
def CryptoPubKey.KeyString : CryptoPubKey → Option String
  | .nil => none
  | .bls key => some (blsKeyString key)
  | .other keyString => some keyString

/-- A field of type `*hexutil.Big` encoded: the nil pointer is the explicit `null`. -/
def encodeBigPtr : Option Nat → JSON
  | none => .null
  | some n => .str (encodeHex n)

/-- Method `(gv GenesisValidatorWrite) MarshalJSON`. -/
def GenesisValidatorWrite.MarshalJSON (gv : GenesisValidatorWrite) : Run JSON :=
  match gv.PubKey.KeyString with
  | none => .nilDereference
  | some keyString =>
    .ok (.obj [
      ("address", .str gv.EthAccount),
      ("pub_key", .str keyString),
      ("amount", encodeBigPtr gv.Amount),
      ("name", .str gv.Name),
      ("epoch", .str (encodeHex gv.RemainingEpoch))])

/-- The elements of a slice encoded in order by their `MarshalJSON`. -/
def encodeElems {α : Type} (elem : α → Run JSON) : List α → Run (List JSON)
  | [] => .ok []
  | x :: xs => (elem x).bind fun j => (encodeElems elem xs).bind fun rest => .ok (j :: rest)

/-- A field of slice type encoded: the nil slice is `null`. -/
def encodeSlice {α : Type} (elem : α → Run JSON) : Option (List α) → Run JSON
  | none => .ok .null
  | some l => (encodeElems elem l).bind fun js => .ok (.arr js)

/-- Method `(ep OneEpochDocWrite) MarshalJSON`. -/
def OneEpochDocWrite.MarshalJSON (ep : OneEpochDocWrite) : Run JSON :=
  let enc : hexEpoch GenesisValidatorWrite :=
    { Number := ep.Number, RewardPerBlock := ep.RewardPerBlock, StartBlock := ep.StartBlock,
      EndBlock := ep.EndBlock,
      Validators := match ep.Validators with
        | some validators => some validators
        | none => none }
  (encodeSlice GenesisValidatorWrite.MarshalJSON enc.Validators).bind fun validators =>
    .ok (.obj [
      ("number", .str (encodeHex enc.Number)),
      ("reward_per_block", encodeBigPtr enc.RewardPerBlock),
      ("start_block", .str (encodeHex enc.StartBlock)),
      ("end_block", .str (encodeHex enc.EndBlock)),
      ("validators", validators)])

/-- Method `(rs RewardSchemeDoc) MarshalJSON`. -/
def RewardSchemeDoc.MarshalJSON (rs : RewardSchemeDoc) : Run JSON :=
  .ok (.obj [
    ("total_reward", encodeBigPtr rs.TotalReward),
    ("reward_first_year", encodeBigPtr rs.RewardFirstYear),
    ("epoch_no_per_year", .str (encodeHex rs.EpochNumberPerYear)),
    ("total_year", .str (encodeHex rs.TotalYear))])

/-- The call `json.MarshalIndent(genDocWrite, "", "\t")` (`SaveAs`, line 124): the fields of
`GenesisDocWrite` in their order, each under its `json` tag. -/
def marshalGenesisDocWrite {Address Time : Type} (c : Collab Address Time)
    (genDocWrite : GenesisDocWrite Time) : Run JSON :=
  match c.timeMarshal genDocWrite.GenesisTime with
  | none => .err .marshalTime
  | some genesisTime =>
    (RewardSchemeDoc.MarshalJSON genDocWrite.RewardScheme).bind fun rewardScheme =>
    (OneEpochDocWrite.MarshalJSON genDocWrite.CurrentEpoch).bind fun currentEpoch =>
      .ok (.obj [
        ("chain_id", .str genDocWrite.ChainID),
        ("consensus", .str genDocWrite.Consensus),
        ("genesis_time", .str genesisTime),
        ("reward_scheme", rewardScheme),
        ("current_epoch", currentEpoch)])

/-- The validator the loop of `SaveAs` stores for the validator `v` of the document (lines
115-121). -/
def GenesisValidator.toWrite {Address Time : Type} (c : Collab Address Time)
    (v : GenesisValidator Address) : GenesisValidatorWrite :=
  { EthAccount := c.addressString v.EthAccount
    PubKey := v.PubKey
    Amount := v.Amount
    Name := v.Name
    RemainingEpoch := v.RemainingEpoch }

/-- The translation of the domain document to the write shape (`SaveAs`, lines 100-122):
`make` gives a non-nil slice of the length of the document's validators, and the loop fills
it index by index. -/
def GenesisDoc.toWrite {Address Time : Type} (c : Collab Address Time)
    (genDoc : GenesisDoc Address Time) : GenesisDocWrite Time :=
  { ChainID := genDoc.ChainID
    Consensus := genDoc.Consensus
    GenesisTime := genDoc.GenesisTime
    RewardScheme := genDoc.RewardScheme
    CurrentEpoch :=
      { Number := genDoc.CurrentEpoch.Number
        RewardPerBlock := genDoc.CurrentEpoch.RewardPerBlock
        StartBlock := genDoc.CurrentEpoch.StartBlock
        EndBlock := genDoc.CurrentEpoch.EndBlock
        Status := genDoc.CurrentEpoch.Status
        Validators := some ((genDoc.CurrentEpoch.Validators.getD []).map
          (GenesisValidator.toWrite c)) } }

/-- Go's `make([]T, n)`: a slice of `n` zero values. -/
def makeSlice {α : Type} (zero : α) (n : Nat) : List α :=
  List.replicate n zero

/-- The loop `for i, v := range src { dst[i] = f(v) }`, from the index `i` on: the element
at each index of `src` is assigned to the same index of `dst`. -/
def rangeAssign {α β : Type} (f : α → β) : List α → Nat → List β → List β
  | [], _, dst => dst
  | v :: rest, i, dst => rangeAssign f rest (i + 1) (dst.set i (f v))

/-- The write shape as `SaveAs` builds it (lines 100-122), statement by statement: the struct
literal whose validators are `make` of the length of the document's validators (0 for the nil
slice), then the loop over the document's validators. -/
def GenesisDoc.writeShapeByLoop {Address Time : Type} (c : Collab Address Time)
    (genDoc : GenesisDoc Address Time) : GenesisDocWrite Time :=
  let validators := genDoc.CurrentEpoch.Validators.getD []
  let genDocWrite : GenesisDocWrite Time :=
    { ChainID := genDoc.ChainID
      Consensus := genDoc.Consensus
      GenesisTime := genDoc.GenesisTime
      RewardScheme := genDoc.RewardScheme
      CurrentEpoch :=
        { Number := genDoc.CurrentEpoch.Number
          RewardPerBlock := genDoc.CurrentEpoch.RewardPerBlock
          StartBlock := genDoc.CurrentEpoch.StartBlock
          EndBlock := genDoc.CurrentEpoch.EndBlock
          Status := genDoc.CurrentEpoch.Status
          Validators := some (makeSlice GenesisValidatorWrite.zero validators.length) } }
  { genDocWrite with
    CurrentEpoch :=
      { genDocWrite.CurrentEpoch with
        Validators := some (rangeAssign (GenesisValidator.toWrite c) validators 0
          (genDocWrite.CurrentEpoch.Validators.getD [])) } }

/-- The values an object has under the key `key`, in the order of its members. -/
def valuesUnder (key : String) (kvs : List (String × JSON)) : List JSON :=
  (kvs.filter fun kv => kv.1 = key).map Prod.snd

/-- What a call of `SaveAs` that returns has done: the bytes it handed to `WriteFile` (`none`
is the empty buffer, otherwise the JSON text of the value) and the error it returned. -/
structure Saved where
  written : Option JSON
  err : Option Err

/-- Method `(genDoc *GenesisDoc) SaveAs`. `WriteFile` is the file writer, given the path and
the bytes; an encoding error is printed and the empty buffer is written. `none` when the
encoding dereferences a nil pointer. -/
def GenesisDoc.SaveAs {Address Time : Type} (c : Collab Address Time)
    (WriteFile : String → Option JSON → Option Err) (genDoc : GenesisDoc Address Time)
    (file : String) : Option Saved :=
  let genDocWrite := genDoc.toWrite c
  match marshalGenesisDocWrite c genDocWrite with
  | .ok genDocBytes => some { written := some genDocBytes, err := WriteFile file (some genDocBytes) }
  | .err _ => some { written := none, err := WriteFile file none }
  | .nilDereference => none

/-! ## Valid documents -/

/-- A BLS public key as the Go type has it: an array of 128 bytes. -/
def IsBLSKey (pk : CryptoPubKey) : Prop :=
  ∃ key, pk = .bls key ∧ key.length = 128 ∧ ∀ b ∈ key, b < 256

/-- A valid validator: a non-nil amount and a BLS key of 128 bytes; its counter is a
`uint64`. -/
def GenesisValidator.Valid {Address : Type} (v : GenesisValidator Address) : Prop :=
  v.Amount ≠ none ∧ IsBLSKey v.PubKey ∧ v.RemainingEpoch < 2 ^ 64

/-- A valid document: non-nil `TotalReward`, `RewardFirstYear`, `RewardPerBlock` and
validators, every validator valid; its counters are `uint64`. The status is free. -/
def GenesisDoc.Valid {Address Time : Type} (d : GenesisDoc Address Time) : Prop :=
  d.RewardScheme.TotalReward ≠ none ∧ d.RewardScheme.RewardFirstYear ≠ none
  ∧ d.CurrentEpoch.RewardPerBlock ≠ none
  ∧ (∃ vs, d.CurrentEpoch.Validators = some vs ∧ ∀ v ∈ vs, v.Valid)
  ∧ d.RewardScheme.EpochNumberPerYear < 2 ^ 64 ∧ d.RewardScheme.TotalYear < 2 ^ 64
  ∧ d.CurrentEpoch.Number < 2 ^ 64 ∧ d.CurrentEpoch.StartBlock < 2 ^ 64
  ∧ d.CurrentEpoch.EndBlock < 2 ^ 64

/-- The collaborators keep the time and the addresses of the document `d`: its time is
encoded to a string that decodes to it, and the string form of each validator address parses
to the address. -/
def Collab.RoundTrips {Address Time : Type} (c : Collab Address Time)
    (d : GenesisDoc Address Time) : Prop :=
  (∃ s, c.timeMarshal d.GenesisTime = some s ∧ c.timeUnmarshal s = some d.GenesisTime)
  ∧ ∀ vs, d.CurrentEpoch.Validators = some vs →
      ∀ v ∈ vs, c.stringToAddress (c.addressString v.EthAccount) = v.EthAccount

/-! ## Agreement of two runs -/

/-- Two field results agree up to `R`: both assign, to values related by `R`, or both
remember the same error, or both stop with the same error. -/
def FieldRes.Rel {α β : Type} (R : α → β → Prop) : FieldRes α → FieldRes β → Prop
  | .set a, .set b => R a b
  | .soft e, .soft e1 => e = e1
  | .hard e, .hard e1 => e = e1
  | _, _ => False

/-- Two results agree up to `R`: both are values, related by `R`, or both are the same error. -/
def Res.Rel {α β : Type} (R : α → β → Prop) : Res α → Res β → Prop
  | .ok a, .ok b => R a b
  | .err e, .err e1 => e = e1
  | _, _ => False

/-- Two `pub_key` strings that the validator decoders cannot tell apart: `FromHex` gives the
same bytes for both, and both pass or both fail the test of line 400. -/
def sameKey (p q : String) : Prop :=
  FromHex p = FromHex q
    ∧ ((p = "" ∨ (FromHex p).length ≠ 128) ↔ (q = "" ∨ (FromHex q).length ≠ 128))

/-- Two wire validators that agree up to `RA` on the address and up to `sameKey` on the key
string, and have the same amount, name and counter. -/
def hexValidator.Rel {A B : Type} (RA : A → B → Prop) (d1 : hexValidator A)
    (d2 : hexValidator B) : Prop :=
  RA d1.Address d2.Address ∧ sameKey d1.PubKey d2.PubKey ∧ d1.Amount = d2.Amount
    ∧ d1.Name = d2.Name ∧ d1.RemainingEpoch = d2.RemainingEpoch

/-- Two wire epochs with the same counters and reward, and validators related by `RV`. -/
def hexEpoch.Rel {V W : Type} (RV : Option (List V) → Option (List W) → Prop)
    (d1 : hexEpoch V) (d2 : hexEpoch W) : Prop :=
  d1.Number = d2.Number ∧ d1.RewardPerBlock = d2.RewardPerBlock ∧ d1.StartBlock = d2.StartBlock
    ∧ d1.EndBlock = d2.EndBlock ∧ RV d1.Validators d2.Validators

/-- Both validator decoders decode the JSON value `v` into their `address` field, whatever
the field held. -/
def addressParses {Address Time : Type} (c : Collab Address Time) (v : JSON) : Prop :=
  (∀ cur, ∃ a, c.addressUnmarshal cur v = .set a) ∧ (∀ cur, ∃ s, decodeString cur v = .set s)

/-- Both validator decoders decode every `address` member of the object. -/
def addressesParse {Address Time : Type} (c : Collab Address Time)
    (kvs : List (String × JSON)) : Prop :=
  ∀ kv ∈ kvs, fieldMatch "address" kv.1 = true → addressParses c kv.2

/-- Both validator decoders decode every `address` member of the element `x` of a
`validators` array; an element that is no object has none. -/
def elementParses {Address Time : Type} (c : Collab Address Time) : JSON → Prop
  | .obj kvs => addressesParse c kvs
  | _ => True

/-- Both validator decoders decode every `address` member of every element of every
`validators` array of the epoch object. -/
def epochElementsParse {Address Time : Type} (c : Collab Address Time)
    (kvs : List (String × JSON)) : Prop :=
  ∀ kv ∈ kvs, fieldMatch "validators" kv.1 = true →
    ∀ xs, kv.2 = .arr xs → ∀ x ∈ xs, elementParses c x

/-- A validator of the domain model and one of the write shape with the same key, amount,
name and counter. -/
def sameValidator {Address : Type} (v : GenesisValidator Address) (w : GenesisValidatorWrite) :
    Prop :=
  v.PubKey = w.PubKey ∧ v.Amount = w.Amount ∧ v.Name = w.Name
    ∧ v.RemainingEpoch = w.RemainingEpoch

/-- Two validator slices that are both nil, or both non-nil of the same length with
validators that agree index by index. -/
def sameValidators {Address : Type} :
    Option (List (GenesisValidator Address)) → Option (List GenesisValidatorWrite) → Prop
  | some l1, some l2 => List.Forall₂ sameValidator l1 l2
  | none, none => True
  | _, _ => False

/-- An epoch of the domain model and one of the write shape with the same number, reward per
block, start block and end block, and validators that agree. -/
def sameEpoch {Address : Type} (e : OneEpochDoc Address) (w : OneEpochDocWrite) : Prop :=
  e.Number = w.Number ∧ e.RewardPerBlock = w.RewardPerBlock ∧ e.StartBlock = w.StartBlock
    ∧ e.EndBlock = w.EndBlock ∧ sameValidators e.Validators w.Validators

/-! ## The built-in genesis texts -/

/-- The value of the JSON text `MainnetGenesisJSON`. -/
def MainnetGenesisJSON : JSON :=
  .obj [
    ("chain_id", .str "intchain"),
    ("consensus", .str "ipbft"),
    ("genesis_time", .str "2020-05-12T11:46:26.899977+08:00"),
    ("reward_scheme", .obj [
      ("total_reward", .str "0xa56fa5b99019a5c8000000"),
      ("reward_first_year", .str "0x108b2a2c28029094000000"),
      ("epoch_no_per_year", .str "0x111c"),
      ("total_year", .str "0xa")]),
    ("current_epoch", .obj [
      ("number", .str "0x0"),
      ("reward_per_block", .str "0x8cd1dc18de05834"),
      ("start_block", .str "0x0"),
      ("end_block", .str "0x1c20"),
      ("validators", .arr [
        .obj [
          ("address", .str "INT3DvvQnnBNcUUeMJfiRi6GKFRjhwaw"),
          ("pub_key", .str "0x0604F4712EF4A29EB44CA3F8254BDCD7E9EF8F4A9EE8EABE218D280F3BEC98B6691B8C82A1EE29ED4CB18CC89F77A6CF503A04E3D246FCFEE14696DD1D85FB9B628A846037FAD2074F23F0D0B1F20A8027E0DB8436100BA4C0BCF9FBEB4A96D846945A10F20D0007E42BCC18B745965332FBEBD9FCB5F9F9FA405C5353BAE674"),
          ("amount", .str "0x54b40b1f852bda000000"),
          ("name", .str ""),
          ("epoch", .str "0x0")]])])]

/-! ## A concrete instance of the collaborators -/

/-- Collaborators for concrete runs: an address is the string that denotes it, a time is the
string that denotes it, and every string denotes one. -/
def textCollab : Collab String String :=
  { zeroAddress := ""
    addressString := fun a => a
    stringToAddress := fun s => s
    addressUnmarshal := decodeString
    zeroTime := ""
    timeUnmarshal := fun s => some s
    timeMarshal := fun t => some t }

/-- A validator of concrete runs: a BLS key of 128 bytes and a stake. -/
def sampleValidator : GenesisValidator String :=
  { EthAccount := "INT3DvvQnnBNcUUeMJfiRi6GKFRjhwaw", PubKey := .bls (List.replicate 128 171),
    Amount := some 400000000000000000000000, Name := "v0", RemainingEpoch := 2 }

/-- A document of concrete runs, with epoch status `status`. -/
def sampleDoc (status : Int) : GenesisDoc String String :=
  { ChainID := "intchain", Consensus := "ipbft", GenesisTime := "2020-05-12T11:46:26+08:00",
    RewardScheme := { TotalReward := some 200000000000000000000000000,
                      RewardFirstYear := some 20000000000000000000000000,
                      EpochNumberPerYear := 4380, TotalYear := 10 },
    CurrentEpoch := { Number := 0, RewardPerBlock := some 634195839675291700, StartBlock := 0,
                      EndBlock := 7200, Status := status, Validators := some [sampleValidator] } }

/-- The document `GenesisDocFromJSON` returns for the JSON text `{}`. -/
def emptyObjectDoc {Address Time : Type} (c : Collab Address Time) : GenesisDoc Address Time :=
  { GenesisDoc.zero c with
    CurrentEpoch := { (OneEpochDoc.zero : OneEpochDoc Address) with Validators := some [] } }

/-- A JSON text whose `chain_id` is decoded before its `current_epoch` is rejected. -/
def lateFailureJSON : JSON :=
  .obj [("chain_id", .str "intchain"), ("consensus", .str "ipbft"), ("current_epoch", .obj [])]

/-- The hex string of a key of 128 bytes. -/
def sampleKeyHex : String :=
  "0x0F1C02F6CEEF2967E8C255D10A27E78B02252604F963A573CC20BF3861C4160D22FE984FF94F99666B0EAA3E5891599DCEE0E69D03D6071E685C0ADEAF658056174AAD734EF31BE95BAAC16F7D590EFDA01F0CD4228386D50B2377F377CDC59041E422514ADF3B3ABB1BC4E8851617A55703DA5E409E66D521ABB483F21BDA5E"

/-- The members of a validator object with a key of 128 bytes and an amount, without `name`
and `epoch`. -/
def sampleValidatorMembers : List (String × JSON) :=
  [("address", .str "INT3D5XkATYcApJ8xXqQe1z5K35jj2Tf"), ("pub_key", .str sampleKeyHex),
   ("amount", .str "0x54b40b1f852bda000000")]

/-- The members of a validator object with a key of 128 bytes and a `null` amount. -/
def nullAmountMembers : List (String × JSON) :=
  [("address", .str "INT3D5XkATYcApJ8xXqQe1z5K35jj2Tf"), ("pub_key", .str sampleKeyHex),
   ("amount", .null)]

/-- The members of a validator object whose key has two bytes only. -/
def shortKeyMembers : List (String × JSON) :=
  [("pub_key", .str "0x0F1C"), ("amount", .str "0x1")]

/-- Collaborators of concrete runs in which the time of the year 10000 has no JSON encoding:
`time.Time.MarshalJSON` returns an error for a year outside the range 0 to 9999. -/
def yearRangeCollab : Collab String String :=
  { textCollab with
    timeMarshal := fun t => if t = "10000-01-01T00:00:00Z" then none else some t }

/-- A valid document whose genesis time is in the year 10000. -/
def farFutureDoc : GenesisDoc String String :=
  { sampleDoc 0 with GenesisTime := "10000-01-01T00:00:00Z" }

/-- A validator of the write shape with a BLS key of 128 bytes and a nil amount. -/
def nilAmountValidator : GenesisValidatorWrite :=
  { EthAccount := "INT3DvvQnnBNcUUeMJfiRi6GKFRjhwaw", PubKey := .bls (List.replicate 128 171),
    Amount := none, Name := "v0", RemainingEpoch := 2 }

/-- An epoch of the write shape with a nil reward per block and one validator, whose amount
is nil. -/
def nilRewardEpoch : OneEpochDocWrite :=
  { OneEpochDocWrite.zero with Validators := some [nilAmountValidator] }

/-- The 256 hexadecimal digits of a key of 128 bytes. -/
def sampleKeyDigits : String :=
  "0F1C02F6CEEF2967E8C255D10A27E78B02252604F963A573CC20BF3861C4160D22FE984FF94F99666B0EAA3E5891599DCEE0E69D03D6071E685C0ADEAF658056174AAD734EF31BE95BAAC16F7D590EFDA01F0CD4228386D50B2377F377CDC59041E422514ADF3B3ABB1BC4E8851617A55703DA5E409E66D521ABB483F21BDA5E"

/-! ## Hexadecimal letters in either case -/

/-- The hexadecimal letters, lower case and upper case. -/
def hexLetterPairs : List (Char × Char) :=
  [('a', 'A'), ('b', 'B'), ('c', 'C'), ('d', 'D'), ('e', 'E'), ('f', 'F')]

/-- The same character up to the case of a hexadecimal letter. -/
def sameHexChar (a b : Char) : Prop :=
  a = b ∨ (a, b) ∈ hexLetterPairs ∨ (b, a) ∈ hexLetterPairs

/-- The string `t` is `s` with the case of some hexadecimal letters changed. -/
def caseVariant (s t : String) : Prop :=
  List.Forall₂ sameHexChar s.data t.data

/-- The bytes of the hexadecimal letters, lower case and upper case. -/
def hexLetterBytes : List (Nat × Nat) :=
  [(97, 65), (98, 66), (99, 67), (100, 68), (101, 69), (102, 70)]

/-- The same byte up to the case of a hexadecimal letter. -/
def sameHexByte (x y : Nat) : Prop :=
  x = y ∨ (x, y) ∈ hexLetterBytes ∨ (y, x) ∈ hexLetterBytes

/-- The digits after the prefix as `checkNumberText` checks them: at least one digit, and no
leading zero in front of another digit. -/
def checkDigits (raw : List Nat) : Res (List Nat) :=
  match raw with
  | [] => .err .emptyNumber
  | [d] => .ok [d]
  | d :: ds => if d = 48 then .err .leadingZero else .ok (d :: ds)

/-- The value of a hex-encoded field with the case of some hexadecimal letters changed. -/
inductive HexVariant : JSON → JSON → Prop
  | same (j : JSON) : HexVariant j j
  | str (s t : String) (h : caseVariant s t) : HexVariant (.str s) (.str t)

/-- A member of a validator object, changed at most in the case of the hexadecimal letters of
a `pub_key`, `amount` or `epoch` value. -/
inductive ValidatorMemberVariant : String × JSON → String × JSON → Prop
  | same (kv : String × JSON) : ValidatorMemberVariant kv kv
  | hex (k : String) (v1 v2 : JSON)
      (hk : fieldMatch "pub_key" k = true ∨ fieldMatch "amount" k = true
        ∨ fieldMatch "epoch" k = true)
      (hv : HexVariant v1 v2) : ValidatorMemberVariant (k, v1) (k, v2)

/-- A validator value, changed at most in the case of hexadecimal letters of its hex-encoded
fields. -/
inductive ValidatorVariant : JSON → JSON → Prop
  | same (j : JSON) : ValidatorVariant j j
  | obj (kvs1 kvs2 : List (String × JSON))
      (h : List.Forall₂ ValidatorMemberVariant kvs1 kvs2) : ValidatorVariant (.obj kvs1) (.obj kvs2)

/-- A member of an epoch object, changed at most in the case of the hexadecimal letters of a
counter or of `reward_per_block`, or in those of the elements of a `validators` array. -/
inductive EpochMemberVariant : String × JSON → String × JSON → Prop
  | same (kv : String × JSON) : EpochMemberVariant kv kv
  | hex (k : String) (v1 v2 : JSON)
      (hk : fieldMatch "number" k = true ∨ fieldMatch "reward_per_block" k = true
        ∨ fieldMatch "start_block" k = true ∨ fieldMatch "end_block" k = true)
      (hv : HexVariant v1 v2) : EpochMemberVariant (k, v1) (k, v2)
  | validators (k : String) (xs ys : List JSON) (hk : fieldMatch "validators" k = true)
      (h : List.Forall₂ ValidatorVariant xs ys) : EpochMemberVariant (k, .arr xs) (k, .arr ys)

/-- An epoch value, changed at most in the case of hexadecimal letters of its hex-encoded
fields and of those of its validators. -/
inductive EpochVariant : JSON → JSON → Prop
  | same (j : JSON) : EpochVariant j j
  | obj (kvs1 kvs2 : List (String × JSON))
      (h : List.Forall₂ EpochMemberVariant kvs1 kvs2) : EpochVariant (.obj kvs1) (.obj kvs2)

/-- A member of a reward scheme object, changed at most in the case of the hexadecimal
letters of one of its four hex-encoded values. -/
inductive RewardMemberVariant : String × JSON → String × JSON → Prop
  | same (kv : String × JSON) : RewardMemberVariant kv kv
  | hex (k : String) (v1 v2 : JSON)
      (hk : fieldMatch "total_reward" k = true ∨ fieldMatch "reward_first_year" k = true
        ∨ fieldMatch "epoch_no_per_year" k = true ∨ fieldMatch "total_year" k = true)
      (hv : HexVariant v1 v2) : RewardMemberVariant (k, v1) (k, v2)

/-- A reward scheme value, changed at most in the case of hexadecimal letters of its
hex-encoded fields. -/
inductive RewardVariant : JSON → JSON → Prop
  | same (j : JSON) : RewardVariant j j
  | obj (kvs1 kvs2 : List (String × JSON))
      (h : List.Forall₂ RewardMemberVariant kvs1 kvs2) : RewardVariant (.obj kvs1) (.obj kvs2)

/-- A member of a genesis object, changed at most in the case of hexadecimal letters inside
its reward scheme or its epoch. -/
inductive GenesisMemberVariant : String × JSON → String × JSON → Prop
  | same (kv : String × JSON) : GenesisMemberVariant kv kv
  | reward (k : String) (v1 v2 : JSON) (hk : fieldMatch "reward_scheme" k = true)
      (hv : RewardVariant v1 v2) : GenesisMemberVariant (k, v1) (k, v2)
  | epoch (k : String) (v1 v2 : JSON) (hk : fieldMatch "current_epoch" k = true)
      (hv : EpochVariant v1 v2) : GenesisMemberVariant (k, v1) (k, v2)

/-- A genesis value, changed at most in the case of the hexadecimal letters of its hex-encoded
fields: `pub_key`, `amount`, `total_reward`, `reward_first_year`, `reward_per_block` and the
64-bit counters. -/
inductive GenesisVariant : JSON → JSON → Prop
  | same (j : JSON) : GenesisVariant j j
  | obj (kvs1 kvs2 : List (String × JSON))
      (h : List.Forall₂ GenesisMemberVariant kvs1 kvs2) : GenesisVariant (.obj kvs1) (.obj kvs2)

/-- The value of the JSON text `MainnetGenesisJSON` with the letters of its hexadecimal digits
in the other case. -/
def otherCaseGenesisJSON : JSON :=
  .obj [
    ("chain_id", .str "intchain"),
    ("consensus", .str "ipbft"),
    ("genesis_time", .str "2020-05-12T11:46:26.899977+08:00"),
    ("reward_scheme", .obj [
      ("total_reward", .str "0xA56FA5B99019A5C8000000"),
      ("reward_first_year", .str "0x108B2A2C28029094000000"),
      ("epoch_no_per_year", .str "0x111C"),
      ("total_year", .str "0xA")]),
    ("current_epoch", .obj [
      ("number", .str "0x0"),
      ("reward_per_block", .str "0x8CD1DC18DE05834"),
      ("start_block", .str "0x0"),
      ("end_block", .str "0x1C20"),
      ("validators", .arr [
        .obj [
          ("address", .str "INT3DvvQnnBNcUUeMJfiRi6GKFRjhwaw"),
          ("pub_key", .str "0x0604f4712ef4a29eb44ca3f8254bdcd7e9ef8f4a9ee8eabe218d280f3bec98b6691b8c82a1ee29ed4cb18cc89f77a6cf503a04e3d246fcfee14696dd1d85fb9b628a846037fad2074f23f0d0b1f20a8027e0db8436100ba4c0bcf9fbeb4a96d846945a10f20d0007e42bcc18b745965332fbebd9fcb5f9f9fa405c5353bae674"),
          ("amount", .str "0x54B40B1F852BDA000000"),
          ("name", .str ""),
          ("epoch", .str "0x0")]])])]

/-- The members of a validator object whose key is 256 hexadecimal digits followed by two
characters that are no digits. -/
def garbageKeyMembers : List (String × JSON) :=
  [("address", .str "INT3D5XkATYcApJ8xXqQe1z5K35jj2Tf"), ("pub_key", .str (sampleKeyHex ++ "zz")),
   ("amount", .str "0x1")]

/-- The members of a validator object whose amount has a character that is no digit. -/
def garbageAmountMembers : List (String × JSON) :=
  [("address", .str "INT3D5XkATYcApJ8xXqQe1z5K35jj2Tf"), ("pub_key", .str sampleKeyHex),
   ("amount", .str "0x1zz")]

/-- Whether two characters are the same up to the case of a hexadecimal letter can be
computed. -/
instance sameHexChar.decidable (a b : Char) : Decidable (sameHexChar a b) := by
  unfold sameHexChar
  exact inferInstance

/-! ## Properties -/

set_option maxRecDepth 1000000

/-! ### Decoding of object members -/

theorem FieldRes.map_eq_set {α β : Type} {f : α → β} {r : FieldRes α} {b : β}
    (h : r.map f = .set b) : ∃ a, r = .set a ∧ f a = b := by
  cases r with
  | set a => exact ⟨a, rfl, by simpa [FieldRes.map] using h⟩
  | soft e => simp [FieldRes.map] at h
  | hard e => simp [FieldRes.map] at h

theorem fieldMatch_fold {name k : String} (h : fieldMatch name k = true) :
    k.data.map foldRune = name.data.map foldRune := by
  unfold fieldMatch at h
  simp only [Bool.or_eq_true, decide_eq_true_eq] at h
  rcases h with h | h
  · rw [h]
  · exact h

theorem fieldMatch_other {n1 n2 k : String}
    (hne : n1.data.map foldRune ≠ n2.data.map foldRune) (h : fieldMatch n1 k = true) :
    fieldMatch n2 k = false := by
  cases h2 : fieldMatch n2 k with
  | false => rfl
  | true => exact absurd ((fieldMatch_fold h).symm.trans (fieldMatch_fold h2)) hne

theorem decodeMembers_saved {σ : Type} (member : σ → String → JSON → FieldRes σ)
    (kvs : List (String × JSON)) :
    ∀ (dec : σ) (e : Err) (dec1 : σ) (s : Option Err),
      decodeMembers member dec (some e) kvs = .ok (dec1, s) → s ≠ none := by
  induction kvs with
  | nil =>
    intro dec e dec1 s h
    simp only [decodeMembers, Res.ok.injEq, Prod.mk.injEq] at h
    rw [← h.2]; simp
  | cons kv rest ih =>
    intro dec e dec1 s h
    obtain ⟨k, v⟩ := kv
    simp only [decodeMembers] at h
    split at h
    · exact ih _ _ _ _ h
    · exact ih _ _ _ _ h
    · cases h

theorem decodeMembers_runField {σ α : Type} (member : σ → String → JSON → FieldRes σ)
    (π : σ → α) (fd : α → JSON → FieldRes α) (name : String)
    (hsel : ∀ dec k v dec1, fieldMatch name k = true → member dec k v = .set dec1 →
      fd (π dec) v = .set (π dec1))
    (hoth : ∀ dec k v dec1, fieldMatch name k = false → member dec k v = .set dec1 →
      π dec1 = π dec)
    (kvs : List (String × JSON)) :
    ∀ (dec dec1 : σ), decodeMembers member dec none kvs = .ok (dec1, none) →
      runField fd name (π dec) kvs = some (π dec1) := by
  induction kvs with
  | nil =>
    intro dec dec1 h
    simp only [decodeMembers, Res.ok.injEq, Prod.mk.injEq] at h
    simp [runField, h.1]
  | cons kv rest ih =>
    intro dec dec1 h
    obtain ⟨k, v⟩ := kv
    simp only [decodeMembers] at h
    split at h
    · rename_i dec2 hm
      have := ih _ _ h
      cases hk : fieldMatch name k with
      | true => simp only [runField, hk, if_true, hsel _ _ _ _ hk hm]; exact this
      | false => simp only [runField, hk, Bool.false_eq_true, if_false]; rw [← hoth _ _ _ _ hk hm]; exact this
    · exact absurd rfl (decodeMembers_saved member rest _ _ _ _ h)
    · cases h

theorem unmarshalStruct_runField {σ α : Type} (member : σ → String → JSON → FieldRes σ)
    (π : σ → α) (fd : α → JSON → FieldRes α) (name : String)
    (hsel : ∀ dec k v dec1, fieldMatch name k = true → member dec k v = .set dec1 →
      fd (π dec) v = .set (π dec1))
    (hoth : ∀ dec k v dec1, fieldMatch name k = false → member dec k v = .set dec1 →
      π dec1 = π dec)
    (kvs : List (String × JSON)) (dec dec1 : σ)
    (h : unmarshalStruct member dec (.obj kvs) = .ok dec1) :
    runField fd name (π dec) kvs = some (π dec1) := by
  simp only [unmarshalStruct] at h
  split at h
  · rename_i d hd
    injection h with h
    subst h
    exact decodeMembers_runField member π fd name hsel hoth kvs _ _ hd
  · cases h
  · cases h

theorem lastMember_eq_none_iff (name : String) (kvs : List (String × JSON)) :
    lastMember name kvs = none ↔ ∀ kv ∈ kvs, fieldMatch name kv.1 = false := by
  induction kvs with
  | nil => simp [lastMember]
  | cons kv rest ih =>
    obtain ⟨k, v⟩ := kv
    simp only [lastMember, List.mem_cons, forall_eq_or_imp]
    cases hr : lastMember name rest with
    | some w =>
      simp only [false_iff, not_and, reduceCtorEq]
      intro _ hall
      rw [ih.mpr hall] at hr
      cases hr
    | none =>
      cases hk : fieldMatch name k with
      | true => simp
      | false => simpa using ih.mp hr

theorem runField_absent {α : Type} (fd : α → JSON → FieldRes α) (name : String)
    (kvs : List (String × JSON)) :
    ∀ (a x : α), lastMember name kvs = none → runField fd name a kvs = some x → x = a := by
  induction kvs with
  | nil => intro a x _ h; simp [runField] at h; exact h.symm
  | cons kv rest ih =>
    intro a x hl h
    obtain ⟨k, v⟩ := kv
    simp only [lastMember] at hl
    split at hl
    · cases hl
    · rename_i hrest
      split at hl
      · cases hl
      · rename_i hk
        simp only [runField, hk, if_false] at h
        exact ih _ _ hrest h

theorem runField_last {α : Type} (fd : α → JSON → FieldRes α) (name : String)
    (kvs : List (String × JSON)) :
    ∀ (a x : α) (v : JSON), lastMember name kvs = some v → runField fd name a kvs = some x →
      ∃ a1, fd a1 v = .set x := by
  induction kvs with
  | nil => intro a x v hl; simp [lastMember] at hl
  | cons kv rest ih =>
    intro a x v hl h
    obtain ⟨k, w⟩ := kv
    simp only [lastMember] at hl
    split at hl
    · rename_i w1 hrest
      injection hl with hl
      subst hl
      simp only [runField] at h
      split at h
      · split at h
        · exact ih _ _ _ hrest h
        · cases h
      · exact ih _ _ _ hrest h
    · rename_i hrest
      split at hl
      · rename_i hk
        injection hl with hl
        subst hl
        simp only [runField, hk, if_true] at h
        split at h
        · rename_i a1 hfd
          have := runField_absent fd name rest _ _ hrest h
          subst this
          exact ⟨a, hfd⟩
        · cases h
      · cases hl


theorem decodeBigPtr_set {v : JSON} {x : Option Nat} (h : decodeBigPtr v = .set x)
    (hv : v ≠ .null) : ∃ n, x = some n := by
  cases v with
  | null => exact absurd rfl hv
  | str s =>
    simp only [decodeBigPtr, Res.bind] at h
    cases hd : decodeBigText s with
    | ok n =>
      rw [hd] at h
      simp only [FieldRes.ofRes] at h
      injection h with h
      exact ⟨n, h.symm⟩
    | err e =>
      rw [hd] at h
      simp [FieldRes.ofRes] at h
  | bool b => simp [decodeBigPtr] at h
  | num n => simp [decodeBigPtr] at h
  | arr xs => simp [decodeBigPtr] at h
  | obj kvs => simp [decodeBigPtr] at h

theorem bigField_absentOrNull {name : String} {kvs : List (String × JSON)} {x : Option Nat}
    (hr : runField (fun _ v => decodeBigPtr v) name none kvs = some x)
    (ha : absentOrNull name kvs) : x = none := by
  rcases ha with ha | ha
  · exact runField_absent _ _ _ _ _ ha hr
  · obtain ⟨_, h1⟩ := runField_last _ _ _ _ _ _ ha hr
    simp only [decodeBigPtr] at h1
    injection h1 with h1
    exact h1.symm

theorem bigField_present {name : String} {kvs : List (String × JSON)} {x : Option Nat}
    (hr : runField (fun _ v => decodeBigPtr v) name none kvs = some x)
    (ha : ¬ absentOrNull name kvs) : ∃ n, x = some n := by
  cases hl : lastMember name kvs with
  | none => exact absurd (Or.inl hl) ha
  | some v =>
    obtain ⟨_, h1⟩ := runField_last _ _ _ _ _ _ hl hr
    refine decodeBigPtr_set h1 ?_
    intro hv
    subst hv
    exact ha (Or.inr hl)

theorem hexRewardScheme_member_set (dec : hexRewardScheme) (k : String) (v : JSON)
    (dec1 : hexRewardScheme) (h : hexRewardScheme.member dec k v = .set dec1) :
    (if fieldMatch "total_reward" k then decodeBigPtr v = .set dec1.TotalReward
      else dec1.TotalReward = dec.TotalReward)
    ∧ (if fieldMatch "reward_first_year" k then decodeBigPtr v = .set dec1.RewardFirstYear
      else dec1.RewardFirstYear = dec.RewardFirstYear)
    ∧ (if fieldMatch "epoch_no_per_year" k then decodeUint64 v = .set dec1.EpochNumberPerYear
      else dec1.EpochNumberPerYear = dec.EpochNumberPerYear)
    ∧ (if fieldMatch "total_year" k then decodeUint64 v = .set dec1.TotalYear
      else dec1.TotalYear = dec.TotalYear) := by
  unfold hexRewardScheme.member at h
  by_cases h1 : fieldMatch "total_reward" k = true
  · have h2 : fieldMatch "reward_first_year" k = false := fieldMatch_other (by decide) h1
    have h3 : fieldMatch "epoch_no_per_year" k = false := fieldMatch_other (by decide) h1
    have h4 : fieldMatch "total_year" k = false := fieldMatch_other (by decide) h1
    simp only [h1, if_true] at h
    obtain ⟨a, ha, rfl⟩ := FieldRes.map_eq_set h
    simp [h1, h2, h3, h4, ha]
  · by_cases h2 : fieldMatch "reward_first_year" k = true
    · have h3 : fieldMatch "epoch_no_per_year" k = false := fieldMatch_other (by decide) h2
      have h4 : fieldMatch "total_year" k = false := fieldMatch_other (by decide) h2
      simp only [h1, h2, if_true, if_false] at h
      obtain ⟨a, ha, rfl⟩ := FieldRes.map_eq_set h
      simp [h1, h2, h3, h4, ha]
    · by_cases h3 : fieldMatch "epoch_no_per_year" k = true
      · have h4 : fieldMatch "total_year" k = false := fieldMatch_other (by decide) h3
        simp only [h1, h2, h3, if_true, if_false] at h
        obtain ⟨a, ha, rfl⟩ := FieldRes.map_eq_set h
        simp [h1, h2, h3, h4, ha]
      · by_cases h4 : fieldMatch "total_year" k = true
        · simp only [h1, h2, h3, h4, if_true, if_false] at h
          obtain ⟨a, ha, rfl⟩ := FieldRes.map_eq_set h
          simp [h1, h2, h3, h4, ha]
        · simp only [h1, h2, h3, h4, if_false] at h
          injection h with h
          subst h
          simp [h1, h2, h3, h4]


theorem hexEpoch_member_set {V : Type} (elem : JSON → Res V) (dec : hexEpoch V) (k : String)
    (v : JSON) (dec1 : hexEpoch V) (h : hexEpoch.member elem dec k v = .set dec1) :
    (if fieldMatch "number" k then decodeUint64 v = .set dec1.Number
      else dec1.Number = dec.Number)
    ∧ (if fieldMatch "reward_per_block" k then decodeBigPtr v = .set dec1.RewardPerBlock
      else dec1.RewardPerBlock = dec.RewardPerBlock)
    ∧ (if fieldMatch "start_block" k then decodeUint64 v = .set dec1.StartBlock
      else dec1.StartBlock = dec.StartBlock)
    ∧ (if fieldMatch "end_block" k then decodeUint64 v = .set dec1.EndBlock
      else dec1.EndBlock = dec.EndBlock)
    ∧ (if fieldMatch "validators" k then decodeSlice elem v = .set dec1.Validators
      else dec1.Validators = dec.Validators) := by
  unfold hexEpoch.member at h
  by_cases h1 : fieldMatch "number" k = true
  · have h2 : fieldMatch "reward_per_block" k = false := fieldMatch_other (by decide) h1
    have h3 : fieldMatch "start_block" k = false := fieldMatch_other (by decide) h1
    have h4 : fieldMatch "end_block" k = false := fieldMatch_other (by decide) h1
    have h5 : fieldMatch "validators" k = false := fieldMatch_other (by decide) h1
    simp only [h1, if_true] at h
    obtain ⟨a, ha, rfl⟩ := FieldRes.map_eq_set h
    simp [h1, h2, h3, h4, h5, ha]
  · by_cases h2 : fieldMatch "reward_per_block" k = true
    · have h3 : fieldMatch "start_block" k = false := fieldMatch_other (by decide) h2
      have h4 : fieldMatch "end_block" k = false := fieldMatch_other (by decide) h2
      have h5 : fieldMatch "validators" k = false := fieldMatch_other (by decide) h2
      simp only [h1, h2, if_true, if_false] at h
      obtain ⟨a, ha, rfl⟩ := FieldRes.map_eq_set h
      simp [h1, h2, h3, h4, h5, ha]
    · by_cases h3 : fieldMatch "start_block" k = true
      · have h4 : fieldMatch "end_block" k = false := fieldMatch_other (by decide) h3
        have h5 : fieldMatch "validators" k = false := fieldMatch_other (by decide) h3
        simp only [h1, h2, h3, if_true, if_false] at h
        obtain ⟨a, ha, rfl⟩ := FieldRes.map_eq_set h
        simp [h1, h2, h3, h4, h5, ha]
      · by_cases h4 : fieldMatch "end_block" k = true
        · have h5 : fieldMatch "validators" k = false := fieldMatch_other (by decide) h4
          simp only [h1, h2, h3, h4, if_true, if_false] at h
          obtain ⟨a, ha, rfl⟩ := FieldRes.map_eq_set h
          simp [h1, h2, h3, h4, h5, ha]
        · by_cases h5 : fieldMatch "validators" k = true
          · simp only [h1, h2, h3, h4, h5, if_true, if_false] at h
            obtain ⟨a, ha, rfl⟩ := FieldRes.map_eq_set h
            simp [h1, h2, h3, h4, h5, ha]
          · simp only [h1, h2, h3, h4, h5, if_false] at h
            injection h with h
            subst h
            simp [h1, h2, h3, h4, h5]

theorem hexValidator_member_set {A : Type} (addr : A → JSON → FieldRes A)
    (dec : hexValidator A) (k : String) (v : JSON) (dec1 : hexValidator A)
    (h : hexValidator.member addr dec k v = .set dec1) :
    (if fieldMatch "address" k then addr dec.Address v = .set dec1.Address
      else dec1.Address = dec.Address)
    ∧ (if fieldMatch "pub_key" k then decodeString dec.PubKey v = .set dec1.PubKey
      else dec1.PubKey = dec.PubKey)
    ∧ (if fieldMatch "amount" k then decodeBigPtr v = .set dec1.Amount
      else dec1.Amount = dec.Amount)
    ∧ (if fieldMatch "name" k then decodeString dec.Name v = .set dec1.Name
      else dec1.Name = dec.Name)
    ∧ (if fieldMatch "epoch" k then decodeUint64 v = .set dec1.RemainingEpoch
      else dec1.RemainingEpoch = dec.RemainingEpoch) := by
  unfold hexValidator.member at h
  by_cases h1 : fieldMatch "address" k = true
  · have h2 : fieldMatch "pub_key" k = false := fieldMatch_other (by decide) h1
    have h3 : fieldMatch "amount" k = false := fieldMatch_other (by decide) h1
    have h4 : fieldMatch "name" k = false := fieldMatch_other (by decide) h1
    have h5 : fieldMatch "epoch" k = false := fieldMatch_other (by decide) h1
    simp only [h1, if_true] at h
    obtain ⟨a, ha, rfl⟩ := FieldRes.map_eq_set h
    simp [h1, h2, h3, h4, h5, ha]
  · by_cases h2 : fieldMatch "pub_key" k = true
    · have h3 : fieldMatch "amount" k = false := fieldMatch_other (by decide) h2
      have h4 : fieldMatch "name" k = false := fieldMatch_other (by decide) h2
      have h5 : fieldMatch "epoch" k = false := fieldMatch_other (by decide) h2
      simp only [h1, h2, if_true, if_false] at h
      obtain ⟨a, ha, rfl⟩ := FieldRes.map_eq_set h
      simp [h1, h2, h3, h4, h5, ha]
    · by_cases h3 : fieldMatch "amount" k = true
      · have h4 : fieldMatch "name" k = false := fieldMatch_other (by decide) h3
        have h5 : fieldMatch "epoch" k = false := fieldMatch_other (by decide) h3
        simp only [h1, h2, h3, if_true, if_false] at h
        obtain ⟨a, ha, rfl⟩ := FieldRes.map_eq_set h
        simp [h1, h2, h3, h4, h5, ha]
      · by_cases h4 : fieldMatch "name" k = true
        · have h5 : fieldMatch "epoch" k = false := fieldMatch_other (by decide) h4
          simp only [h1, h2, h3, h4, if_true, if_false] at h
          obtain ⟨a, ha, rfl⟩ := FieldRes.map_eq_set h
          simp [h1, h2, h3, h4, h5, ha]
        · by_cases h5 : fieldMatch "epoch" k = true
          · simp only [h1, h2, h3, h4, h5, if_true, if_false] at h
            obtain ⟨a, ha, rfl⟩ := FieldRes.map_eq_set h
            simp [h1, h2, h3, h4, h5, ha]
          · simp only [h1, h2, h3, h4, h5, if_false] at h
            injection h with h
            subst h
            simp [h1, h2, h3, h4, h5]


theorem hexRewardScheme_run (kvs : List (String × JSON)) (dec : hexRewardScheme)
    (h : RewardSchemeDoc.decodeWire (.obj kvs) = .ok dec) :
    runField (fun _ v => decodeBigPtr v) "total_reward" none kvs = some dec.TotalReward
    ∧ runField (fun _ v => decodeBigPtr v) "reward_first_year" none kvs
        = some dec.RewardFirstYear
    ∧ runField (fun _ v => decodeUint64 v) "epoch_no_per_year" 0 kvs
        = some dec.EpochNumberPerYear
    ∧ runField (fun _ v => decodeUint64 v) "total_year" 0 kvs = some dec.TotalYear := by
  refine ⟨?_, ?_, ?_, ?_⟩
  · exact unmarshalStruct_runField hexRewardScheme.member (fun d => d.TotalReward) _ _
      (fun d k v d1 hk hm => by simpa [hk] using (hexRewardScheme_member_set d k v d1 hm).1)
      (fun d k v d1 hk hm => by simpa [hk] using (hexRewardScheme_member_set d k v d1 hm).1)
      kvs hexRewardScheme.zero dec h
  · exact unmarshalStruct_runField hexRewardScheme.member (fun d => d.RewardFirstYear) _ _
      (fun d k v d1 hk hm => by simpa [hk] using (hexRewardScheme_member_set d k v d1 hm).2.1)
      (fun d k v d1 hk hm => by simpa [hk] using (hexRewardScheme_member_set d k v d1 hm).2.1)
      kvs hexRewardScheme.zero dec h
  · exact unmarshalStruct_runField hexRewardScheme.member (fun d => d.EpochNumberPerYear) _ _
      (fun d k v d1 hk hm => by simpa [hk] using (hexRewardScheme_member_set d k v d1 hm).2.2.1)
      (fun d k v d1 hk hm => by simpa [hk] using (hexRewardScheme_member_set d k v d1 hm).2.2.1)
      kvs hexRewardScheme.zero dec h
  · exact unmarshalStruct_runField hexRewardScheme.member (fun d => d.TotalYear) _ _
      (fun d k v d1 hk hm => by simpa [hk] using (hexRewardScheme_member_set d k v d1 hm).2.2.2)
      (fun d k v d1 hk hm => by simpa [hk] using (hexRewardScheme_member_set d k v d1 hm).2.2.2)
      kvs hexRewardScheme.zero dec h

theorem hexEpoch_run {V : Type} (elem : JSON → Res V) (kvs : List (String × JSON))
    (dec : hexEpoch V)
    (h : unmarshalStruct (hexEpoch.member elem) hexEpoch.zero (.obj kvs) = .ok dec) :
    runField (fun _ v => decodeUint64 v) "number" 0 kvs = some dec.Number
    ∧ runField (fun _ v => decodeBigPtr v) "reward_per_block" none kvs
        = some dec.RewardPerBlock
    ∧ runField (fun _ v => decodeUint64 v) "start_block" 0 kvs = some dec.StartBlock
    ∧ runField (fun _ v => decodeUint64 v) "end_block" 0 kvs = some dec.EndBlock
    ∧ runField (fun _ v => decodeSlice elem v) "validators" none kvs = some dec.Validators := by
  refine ⟨?_, ?_, ?_, ?_, ?_⟩
  · exact unmarshalStruct_runField (hexEpoch.member elem) (fun d => d.Number) _ _
      (fun d k v d1 hk hm => by simpa [hk] using (hexEpoch_member_set elem d k v d1 hm).1)
      (fun d k v d1 hk hm => by simpa [hk] using (hexEpoch_member_set elem d k v d1 hm).1)
      kvs hexEpoch.zero dec h
  · exact unmarshalStruct_runField (hexEpoch.member elem) (fun d => d.RewardPerBlock) _ _
      (fun d k v d1 hk hm => by simpa [hk] using (hexEpoch_member_set elem d k v d1 hm).2.1)
      (fun d k v d1 hk hm => by simpa [hk] using (hexEpoch_member_set elem d k v d1 hm).2.1)
      kvs hexEpoch.zero dec h
  · exact unmarshalStruct_runField (hexEpoch.member elem) (fun d => d.StartBlock) _ _
      (fun d k v d1 hk hm => by simpa [hk] using (hexEpoch_member_set elem d k v d1 hm).2.2.1)
      (fun d k v d1 hk hm => by simpa [hk] using (hexEpoch_member_set elem d k v d1 hm).2.2.1)
      kvs hexEpoch.zero dec h
  · exact unmarshalStruct_runField (hexEpoch.member elem) (fun d => d.EndBlock) _ _
      (fun d k v d1 hk hm => by simpa [hk] using (hexEpoch_member_set elem d k v d1 hm).2.2.2.1)
      (fun d k v d1 hk hm => by simpa [hk] using (hexEpoch_member_set elem d k v d1 hm).2.2.2.1)
      kvs hexEpoch.zero dec h
  · exact unmarshalStruct_runField (hexEpoch.member elem) (fun d => d.Validators) _ _
      (fun d k v d1 hk hm => by simpa [hk] using (hexEpoch_member_set elem d k v d1 hm).2.2.2.2)
      (fun d k v d1 hk hm => by simpa [hk] using (hexEpoch_member_set elem d k v d1 hm).2.2.2.2)
      kvs hexEpoch.zero dec h

theorem hexValidator_run {A : Type} (addr : A → JSON → FieldRes A) (a0 : A)
    (kvs : List (String × JSON)) (dec : hexValidator A)
    (h : unmarshalStruct (hexValidator.member addr) (hexValidator.zero a0) (.obj kvs) = .ok dec) :
    runField addr "address" a0 kvs = some dec.Address
    ∧ runField decodeString "pub_key" "" kvs = some dec.PubKey
    ∧ runField (fun _ v => decodeBigPtr v) "amount" none kvs = some dec.Amount
    ∧ runField decodeString "name" "" kvs = some dec.Name
    ∧ runField (fun _ v => decodeUint64 v) "epoch" 0 kvs = some dec.RemainingEpoch := by
  refine ⟨?_, ?_, ?_, ?_, ?_⟩
  · exact unmarshalStruct_runField (hexValidator.member addr) (fun d => d.Address) _ _
      (fun d k v d1 hk hm => by simpa [hk] using (hexValidator_member_set addr d k v d1 hm).1)
      (fun d k v d1 hk hm => by simpa [hk] using (hexValidator_member_set addr d k v d1 hm).1)
      kvs (hexValidator.zero a0) dec h
  · exact unmarshalStruct_runField (hexValidator.member addr) (fun d => d.PubKey) _ _
      (fun d k v d1 hk hm => by simpa [hk] using (hexValidator_member_set addr d k v d1 hm).2.1)
      (fun d k v d1 hk hm => by simpa [hk] using (hexValidator_member_set addr d k v d1 hm).2.1)
      kvs (hexValidator.zero a0) dec h
  · exact unmarshalStruct_runField (hexValidator.member addr) (fun d => d.Amount) _ _
      (fun d k v d1 hk hm => by simpa [hk] using (hexValidator_member_set addr d k v d1 hm).2.2.1)
      (fun d k v d1 hk hm => by simpa [hk] using (hexValidator_member_set addr d k v d1 hm).2.2.1)
      kvs (hexValidator.zero a0) dec h
  · exact unmarshalStruct_runField (hexValidator.member addr) (fun d => d.Name) _ _
      (fun d k v d1 hk hm => by
        simpa [hk] using (hexValidator_member_set addr d k v d1 hm).2.2.2.1)
      (fun d k v d1 hk hm => by
        simpa [hk] using (hexValidator_member_set addr d k v d1 hm).2.2.2.1)
      kvs (hexValidator.zero a0) dec h
  · exact unmarshalStruct_runField (hexValidator.member addr) (fun d => d.RemainingEpoch) _ _
      (fun d k v d1 hk hm => by
        simpa [hk] using (hexValidator_member_set addr d k v d1 hm).2.2.2.2)
      (fun d k v d1 hk hm => by
        simpa [hk] using (hexValidator_member_set addr d k v d1 hm).2.2.2.2)
      kvs (hexValidator.zero a0) dec h


theorem sliceField_absentOrNull {V : Type} {elem : JSON → Res V} {name : String}
    {kvs : List (String × JSON)} {x : Option (List V)}
    (hr : runField (fun _ v => decodeSlice elem v) name none kvs = some x)
    (ha : absentOrNull name kvs) : x = none := by
  rcases ha with ha | ha
  · exact runField_absent _ _ _ _ _ ha hr
  · obtain ⟨_, h1⟩ := runField_last _ _ _ _ _ _ ha hr
    simp only [decodeSlice] at h1
    injection h1 with h1
    exact h1.symm

theorem sliceField_emptyArray {V : Type} {elem : JSON → Res V} {name : String}
    {kvs : List (String × JSON)} {x : Option (List V)}
    (hr : runField (fun _ v => decodeSlice elem v) name none kvs = some x)
    (ha : lastMember name kvs = some (.arr [])) : x = some [] := by
  obtain ⟨_, h1⟩ := runField_last _ _ _ _ _ _ ha hr
  simp only [decodeSlice, decodeElems, Res.bind, FieldRes.ofRes] at h1
  injection h1 with h1
  exact h1.symm

theorem GenesisValidatorWrite_receiver (gv gv1 : GenesisValidatorWrite) (input : JSON) :
    GenesisValidatorWrite.UnmarshalJSON gv input = GenesisValidatorWrite.UnmarshalJSON gv1 input := by
  unfold GenesisValidatorWrite.UnmarshalJSON
  cases GenesisValidatorWrite.decodeWire input with
  | err e => rfl
  | ok dec =>
    simp only [Res.bind]

/-! ### Required fields -/

/-- C3. For every `current_epoch` object that `json.Unmarshal` decodes into the wire struct
(its fields decode), both epoch decoders fail with the error "missing required field
'validators' for Genesis/epoch" when the object has no `validators` member or gives `null`
for it, and succeed with an empty non-nil validator sequence when it gives the empty array. -/
theorem validators_required {Address Time : Type} (c : Collab Address Time)
    (kvs : List (String × JSON)) :
    (∀ (ep : OneEpochDocWrite) (dec : hexEpoch GenesisValidatorWrite),
      OneEpochDocWrite.decodeWire (.obj kvs) = .ok dec →
      (absentOrNull "validators" kvs →
        OneEpochDocWrite.UnmarshalJSON ep (.obj kvs)
          = .err (.new "missing required field 'validators' for Genesis/epoch"))
      ∧ (lastMember "validators" kvs = some (.arr []) →
        ∃ ep1, OneEpochDocWrite.UnmarshalJSON ep (.obj kvs) = .ok ep1
          ∧ ep1.Validators = some []))
    ∧ (∀ (ep : OneEpochDoc Address) (dec : hexEpoch (GenesisValidator Address)),
      OneEpochDoc.decodeWire c (.obj kvs) = .ok dec →
      (absentOrNull "validators" kvs →
        OneEpochDoc.UnmarshalJSON c ep (.obj kvs)
          = .err (.new "missing required field 'validators' for Genesis/epoch"))
      ∧ (lastMember "validators" kvs = some (.arr []) →
        ∃ ep1, OneEpochDoc.UnmarshalJSON c ep (.obj kvs) = .ok ep1
          ∧ ep1.Validators = some [])) := by
  constructor
  · intro ep dec hdec
    have hr := (hexEpoch_run _ kvs dec hdec).2.2.2.2
    constructor
    · intro ha
      have hv := sliceField_absentOrNull hr ha
      simp only [OneEpochDocWrite.UnmarshalJSON, hdec, Res.bind, hv]
    · intro ha
      have hv := sliceField_emptyArray hr ha
      simp only [OneEpochDocWrite.UnmarshalJSON, hdec, Res.bind, hv]
      exact ⟨_, rfl, rfl⟩
  · intro ep dec hdec
    have hr := (hexEpoch_run _ kvs dec hdec).2.2.2.2
    constructor
    · intro ha
      have hv := sliceField_absentOrNull hr ha
      simp only [OneEpochDoc.UnmarshalJSON, hdec, Res.bind, hv]
    · intro ha
      have hv := sliceField_emptyArray hr ha
      simp only [OneEpochDoc.UnmarshalJSON, hdec, Res.bind, hv]
      exact ⟨_, rfl, rfl⟩

/-- C3, at objects without `validators`, with `"validators": null` and with
`"validators": []`. -/
theorem validators_required_witness :
    OneEpochDocWrite.UnmarshalJSON OneEpochDocWrite.zero (.obj [("number", .str "0x1")])
        = .err (.new "missing required field 'validators' for Genesis/epoch")
    ∧ OneEpochDocWrite.UnmarshalJSON OneEpochDocWrite.zero
          (.obj [("number", .str "0x1"), ("validators", .null)])
        = .err (.new "missing required field 'validators' for Genesis/epoch")
    ∧ (∃ ep1, OneEpochDocWrite.UnmarshalJSON OneEpochDocWrite.zero
          (.obj [("number", .str "0x1"), ("validators", .arr [])]) = .ok ep1
        ∧ ep1.Validators = some [])
    ∧ (∃ ep1, OneEpochDoc.UnmarshalJSON textCollab OneEpochDoc.zero
          (.obj [("number", .str "0x1"), ("validators", .arr [])]) = .ok ep1
        ∧ ep1.Validators = some []) :=
  ⟨((validators_required textCollab [("number", .str "0x1")]).1 OneEpochDocWrite.zero
      _ rfl).1 (Or.inl rfl),
   ((validators_required textCollab [("number", .str "0x1"), ("validators", .null)]).1
      OneEpochDocWrite.zero _ rfl).1 (Or.inr rfl),
   ((validators_required textCollab [("number", .str "0x1"), ("validators", .arr [])]).1
      OneEpochDocWrite.zero _ rfl).2 rfl,
   ((validators_required textCollab [("number", .str "0x1"), ("validators", .arr [])]).2
      OneEpochDoc.zero _ rfl).2 rfl⟩


/-- C5. For every `reward_scheme` object, `RewardSchemeDoc.UnmarshalJSON` fails when
`total_reward` or `reward_first_year` is absent or `null`; when `json.Unmarshal` decodes the
object into the wire struct, the failure is the missing-required-field error of the first of
the two that is missing, and when both are present the decoding succeeds, with
`EpochNumberPerYear` equal to 0 if `epoch_no_per_year` is absent and `TotalYear` equal to 0 if
`total_year` is absent. -/
theorem reward_scheme_required (rs : RewardSchemeDoc) (kvs : List (String × JSON)) :
    ((absentOrNull "total_reward" kvs ∨ absentOrNull "reward_first_year" kvs) →
      ∃ e, RewardSchemeDoc.UnmarshalJSON rs (.obj kvs) = .err e)
    ∧ (∀ dec : hexRewardScheme, RewardSchemeDoc.decodeWire (.obj kvs) = .ok dec →
      (absentOrNull "total_reward" kvs →
        RewardSchemeDoc.UnmarshalJSON rs (.obj kvs)
          = .err (.new "missing required field 'total_reward' for Genesis/reward_scheme"))
      ∧ (¬ absentOrNull "total_reward" kvs → absentOrNull "reward_first_year" kvs →
        RewardSchemeDoc.UnmarshalJSON rs (.obj kvs)
          = .err (.new "missing required field 'reward_first_year' for Genesis/reward_scheme"))
      ∧ (¬ absentOrNull "total_reward" kvs → ¬ absentOrNull "reward_first_year" kvs →
        ∃ rs1, RewardSchemeDoc.UnmarshalJSON rs (.obj kvs) = .ok rs1
          ∧ rs1.TotalReward = dec.TotalReward ∧ rs1.TotalReward ≠ none
          ∧ rs1.RewardFirstYear = dec.RewardFirstYear ∧ rs1.RewardFirstYear ≠ none
          ∧ (lastMember "epoch_no_per_year" kvs = none → rs1.EpochNumberPerYear = 0)
          ∧ (lastMember "total_year" kvs = none → rs1.TotalYear = 0))) := by
  have key : ∀ dec : hexRewardScheme, RewardSchemeDoc.decodeWire (.obj kvs) = .ok dec →
      (absentOrNull "total_reward" kvs →
        RewardSchemeDoc.UnmarshalJSON rs (.obj kvs)
          = .err (.new "missing required field 'total_reward' for Genesis/reward_scheme"))
      ∧ (¬ absentOrNull "total_reward" kvs → absentOrNull "reward_first_year" kvs →
        RewardSchemeDoc.UnmarshalJSON rs (.obj kvs)
          = .err (.new "missing required field 'reward_first_year' for Genesis/reward_scheme"))
      ∧ (¬ absentOrNull "total_reward" kvs → ¬ absentOrNull "reward_first_year" kvs →
        ∃ rs1, RewardSchemeDoc.UnmarshalJSON rs (.obj kvs) = .ok rs1
          ∧ rs1.TotalReward = dec.TotalReward ∧ rs1.TotalReward ≠ none
          ∧ rs1.RewardFirstYear = dec.RewardFirstYear ∧ rs1.RewardFirstYear ≠ none
          ∧ (lastMember "epoch_no_per_year" kvs = none → rs1.EpochNumberPerYear = 0)
          ∧ (lastMember "total_year" kvs = none → rs1.TotalYear = 0)) := by
    intro dec hdec
    obtain ⟨h1, h2, h3, h4⟩ := hexRewardScheme_run kvs dec hdec
    refine ⟨?_, ?_, ?_⟩
    · intro ha
      have hv := bigField_absentOrNull h1 ha
      simp only [RewardSchemeDoc.UnmarshalJSON, hdec, Res.bind, hv]
    · intro ha hb
      obtain ⟨n, hn⟩ := bigField_present h1 ha
      have hv := bigField_absentOrNull h2 hb
      simp only [RewardSchemeDoc.UnmarshalJSON, hdec, Res.bind, hn, hv]
    · intro ha hb
      obtain ⟨n, hn⟩ := bigField_present h1 ha
      obtain ⟨m, hm⟩ := bigField_present h2 hb
      simp only [RewardSchemeDoc.UnmarshalJSON, hdec, Res.bind, hn, hm]
      refine ⟨_, rfl, rfl, by simp, rfl, by simp, ?_, ?_⟩
      · intro hl
        exact runField_absent _ _ _ _ _ hl h3
      · intro hl
        exact runField_absent _ _ _ _ _ hl h4
  refine ⟨?_, key⟩
  intro ha
  cases hdec : RewardSchemeDoc.decodeWire (.obj kvs) with
  | err e => exact ⟨e, by simp only [RewardSchemeDoc.UnmarshalJSON, hdec, Res.bind]⟩
  | ok dec =>
    obtain ⟨k1, k2, _⟩ := key dec hdec
    rcases ha with ha | ha
    · exact ⟨_, k1 ha⟩
    · by_cases hb : absentOrNull "total_reward" kvs
      · exact ⟨_, k1 hb⟩
      · exact ⟨_, k2 hb ha⟩

/-- C5, at an object without `total_reward`, at one with a `null` `reward_first_year`, and at
one with both and without the two counters. -/
theorem reward_scheme_required_witness :
    RewardSchemeDoc.UnmarshalJSON RewardSchemeDoc.zero
        (.obj [("reward_first_year", .str "0x2"), ("total_year", .str "0xa")])
      = .err (.new "missing required field 'total_reward' for Genesis/reward_scheme")
    ∧ RewardSchemeDoc.UnmarshalJSON RewardSchemeDoc.zero
        (.obj [("total_reward", .str "0x1"), ("reward_first_year", .null)])
      = .err (.new "missing required field 'reward_first_year' for Genesis/reward_scheme")
    ∧ (∃ rs1, RewardSchemeDoc.UnmarshalJSON RewardSchemeDoc.zero
          (.obj [("total_reward", .str "0x1"), ("reward_first_year", .str "0x2")]) = .ok rs1
        ∧ rs1.TotalReward = some 1 ∧ rs1.TotalReward ≠ none
        ∧ rs1.RewardFirstYear = some 2 ∧ rs1.RewardFirstYear ≠ none
        ∧ (lastMember "epoch_no_per_year"
            [("total_reward", .str "0x1"), ("reward_first_year", .str "0x2")] = none →
              rs1.EpochNumberPerYear = 0)
        ∧ (lastMember "total_year"
            [("total_reward", .str "0x1"), ("reward_first_year", .str "0x2")] = none →
              rs1.TotalYear = 0)) :=
  ⟨((reward_scheme_required RewardSchemeDoc.zero
      [("reward_first_year", .str "0x2"), ("total_year", .str "0xa")]).2 _ rfl).1 (Or.inl rfl),
   ((reward_scheme_required RewardSchemeDoc.zero
      [("total_reward", .str "0x1"), ("reward_first_year", .null)]).2 _ rfl).2.1
      (by rintro (h | h) <;> cases h) (Or.inr rfl),
   ((reward_scheme_required RewardSchemeDoc.zero
      [("total_reward", .str "0x1"), ("reward_first_year", .str "0x2")]).2
      ⟨some 1, some 2, 0, 0⟩ rfl).2.2
      (by rintro (h | h) <;> cases h) (by rintro (h | h) <;> cases h)⟩


theorem copyBytes_full (dst src : List Nat) (h : src.length = dst.length) :
    copyBytes dst src = src := by
  unfold copyBytes
  rw [← h, List.take_length, List.drop_of_length_le (by omega), List.append_nil]

theorem stringField_last {name : String} {kvs : List (String × JSON)} {x s : String}
    (hr : runField decodeString name "" kvs = some x)
    (hl : lastMember name kvs = some (.str s)) : x = s := by
  obtain ⟨_, h1⟩ := runField_last _ _ _ _ _ _ hl hr
  simp only [decodeString] at h1
  injection h1 with h1
  exact h1.symm

/-- C4. For every validator object that `json.Unmarshal` decodes into the wire struct `dec`
and that has a present amount, `GenesisValidatorWrite.UnmarshalJSON` succeeds if and only if
the decoded `pub_key` string is non-empty and `FromHex` gives exactly 128 bytes for it; when it
succeeds the stored key is the BLS key made of exactly those bytes, and when the string is
empty or gives another number of bytes it fails with the error "wrong format of required
field 'pub_key' for Genesis/epoch/validators". The decoded string is empty when the object has
no `pub_key` member, and is `s` when the object gives the string `s` for it. -/
theorem pub_key_format (gv : GenesisValidatorWrite) (kvs : List (String × JSON))
    (dec : hexValidator String)
    (hdec : GenesisValidatorWrite.decodeWire (.obj kvs) = .ok dec)
    (hamount : ¬ absentOrNull "amount" kvs) :
    ((∃ gv1, GenesisValidatorWrite.UnmarshalJSON gv (.obj kvs) = .ok gv1)
        ↔ (dec.PubKey ≠ "" ∧ (FromHex dec.PubKey).length = 128))
    ∧ (∀ gv1, GenesisValidatorWrite.UnmarshalJSON gv (.obj kvs) = .ok gv1 →
        gv1.PubKey = .bls (FromHex dec.PubKey))
    ∧ ((dec.PubKey = "" ∨ (FromHex dec.PubKey).length ≠ 128) →
        GenesisValidatorWrite.UnmarshalJSON gv (.obj kvs)
          = .err (.new "wrong format of required field 'pub_key' for Genesis/epoch/validators"))
    ∧ (lastMember "pub_key" kvs = none → dec.PubKey = "")
    ∧ (∀ s, lastMember "pub_key" kvs = some (.str s) → dec.PubKey = s) := by
  obtain ⟨_, hpk, ham, _, _⟩ := hexValidator_run decodeString "" kvs dec hdec
  obtain ⟨amount, hamt⟩ := bigField_present ham hamount
  have hbad : (dec.PubKey = "" ∨ (FromHex dec.PubKey).length ≠ 128) →
      GenesisValidatorWrite.UnmarshalJSON gv (.obj kvs)
        = .err (.new "wrong format of required field 'pub_key' for Genesis/epoch/validators") := by
    intro hb
    simp only [GenesisValidatorWrite.UnmarshalJSON, hdec, Res.bind, if_pos hb]
  have hgood : (dec.PubKey ≠ "" ∧ (FromHex dec.PubKey).length = 128) →
      ∃ gv1, GenesisValidatorWrite.UnmarshalJSON gv (.obj kvs) = .ok gv1
        ∧ gv1.PubKey = .bls (FromHex dec.PubKey) := by
    intro hg
    have hn : ¬ (dec.PubKey = "" ∨ (FromHex dec.PubKey).length ≠ 128) := by
      rintro (h | h)
      · exact hg.1 h
      · exact h hg.2
    have hc : copyBytes zeroBLSPubKey (FromHex dec.PubKey) = FromHex dec.PubKey :=
      copyBytes_full _ _ (by rw [hg.2]; rfl)
    simp only [GenesisValidatorWrite.UnmarshalJSON, hdec, Res.bind, if_neg hn, hamt, hc]
    exact ⟨_, rfl, rfl⟩
  refine ⟨⟨?_, fun hg => ?_⟩, ?_, hbad, ?_, ?_⟩
  · rintro ⟨gv1, h1⟩
    by_contra hg
    have hb : dec.PubKey = "" ∨ (FromHex dec.PubKey).length ≠ 128 := by
      by_cases h : dec.PubKey = ""
      · exact Or.inl h
      · exact Or.inr (fun hl => hg ⟨h, hl⟩)
    rw [hbad hb] at h1
    cases h1
  · obtain ⟨gv1, h1, _⟩ := hgood hg
    exact ⟨gv1, h1⟩
  · intro gv1 h1
    by_cases hb : dec.PubKey = "" ∨ (FromHex dec.PubKey).length ≠ 128
    · rw [hbad hb] at h1
      cases h1
    · have hg : dec.PubKey ≠ "" ∧ (FromHex dec.PubKey).length = 128 :=
        ⟨fun h => hb (Or.inl h), by_contra fun h => hb (Or.inr h)⟩
      obtain ⟨gv2, h2, h3⟩ := hgood hg
      rw [h1] at h2
      injection h2 with h2
      rw [h2]
      exact h3
  · intro hl
    exact runField_absent _ _ _ _ _ hl hpk
  · intro s hl
    exact stringField_last hpk hl

/-- C4, at a validator object with a key of 128 bytes (accepted) and at one with a key of two
bytes (rejected). -/
theorem pub_key_format_witness :
    (∃ gv1, GenesisValidatorWrite.UnmarshalJSON GenesisValidatorWrite.zero
        (.obj sampleValidatorMembers) = .ok gv1)
    ∧ GenesisValidatorWrite.UnmarshalJSON GenesisValidatorWrite.zero (.obj shortKeyMembers)
        = .err (.new "wrong format of required field 'pub_key' for Genesis/epoch/validators") :=
  ⟨(pub_key_format GenesisValidatorWrite.zero sampleValidatorMembers
      ⟨"INT3D5XkATYcApJ8xXqQe1z5K35jj2Tf", sampleKeyHex, some 0x54b40b1f852bda000000, "", 0⟩
      (by decide) (by rintro (h | h) <;> cases h)).1.mpr ⟨by decide, by decide⟩,
   (pub_key_format GenesisValidatorWrite.zero shortKeyMembers ⟨"", "0x0F1C", some 1, "", 0⟩
      (by decide) (by rintro (h | h) <;> cases h)).2.2.1 (Or.inr (by decide))⟩

/-- C6. For every validator object that `json.Unmarshal` decodes into the wire struct with a
non-empty `pub_key` of exactly 128 bytes, both validator decoders fail with the error "missing
required field 'amount' for Genesis/epoch/validators" when `amount` is absent or `null`, and
when `amount` is present they succeed, with `Name` equal to the empty string if `name` is
absent and `RemainingEpoch` equal to 0 if `epoch` is absent. -/
theorem amount_required {Address Time : Type} (c : Collab Address Time)
    (kvs : List (String × JSON)) :
    (∀ (gv : GenesisValidatorWrite) (dec : hexValidator String),
      GenesisValidatorWrite.decodeWire (.obj kvs) = .ok dec →
      dec.PubKey ≠ "" → (FromHex dec.PubKey).length = 128 →
      (absentOrNull "amount" kvs →
        GenesisValidatorWrite.UnmarshalJSON gv (.obj kvs)
          = .err (.new "missing required field 'amount' for Genesis/epoch/validators"))
      ∧ (¬ absentOrNull "amount" kvs →
        ∃ gv1, GenesisValidatorWrite.UnmarshalJSON gv (.obj kvs) = .ok gv1
          ∧ gv1.Amount = dec.Amount ∧ gv1.Amount ≠ none
          ∧ (lastMember "name" kvs = none → gv1.Name = "")
          ∧ (lastMember "epoch" kvs = none → gv1.RemainingEpoch = 0)))
    ∧ (∀ (gv : GenesisValidator Address) (dec : hexValidator Address),
      GenesisValidator.decodeWire c (.obj kvs) = .ok dec →
      dec.PubKey ≠ "" → (FromHex dec.PubKey).length = 128 →
      (absentOrNull "amount" kvs →
        GenesisValidator.UnmarshalJSON c gv (.obj kvs)
          = .err (.new "missing required field 'amount' for Genesis/epoch/validators"))
      ∧ (¬ absentOrNull "amount" kvs →
        ∃ gv1, GenesisValidator.UnmarshalJSON c gv (.obj kvs) = .ok gv1
          ∧ gv1.Amount = dec.Amount ∧ gv1.Amount ≠ none
          ∧ (lastMember "name" kvs = none → gv1.Name = "")
          ∧ (lastMember "epoch" kvs = none → gv1.RemainingEpoch = 0))) := by
  constructor
  · intro gv dec hdec hne hlen
    obtain ⟨_, _, ham, hname, hepoch⟩ := hexValidator_run decodeString "" kvs dec hdec
    have hn : ¬ (dec.PubKey = "" ∨ (FromHex dec.PubKey).length ≠ 128) := by
      rintro (h | h)
      · exact hne h
      · exact h hlen
    constructor
    · intro ha
      have hv := bigField_absentOrNull ham ha
      simp only [GenesisValidatorWrite.UnmarshalJSON, hdec, Res.bind, if_neg hn, hv]
    · intro ha
      obtain ⟨amount, hamt⟩ := bigField_present ham ha
      simp only [GenesisValidatorWrite.UnmarshalJSON, hdec, Res.bind, if_neg hn, hamt]
      refine ⟨_, rfl, rfl, by simp, ?_, ?_⟩
      · intro hl
        exact runField_absent _ _ _ _ _ hl hname
      · intro hl
        exact runField_absent _ _ _ _ _ hl hepoch
  · intro gv dec hdec hne hlen
    obtain ⟨_, _, ham, hname, hepoch⟩ :=
      hexValidator_run c.addressUnmarshal c.zeroAddress kvs dec hdec
    have hn : ¬ (dec.PubKey = "" ∨ (FromHex dec.PubKey).length ≠ 128) := by
      rintro (h | h)
      · exact hne h
      · exact h hlen
    constructor
    · intro ha
      have hv := bigField_absentOrNull ham ha
      simp only [GenesisValidator.UnmarshalJSON, hdec, Res.bind, if_neg hn, hv]
    · intro ha
      obtain ⟨amount, hamt⟩ := bigField_present ham ha
      simp only [GenesisValidator.UnmarshalJSON, hdec, Res.bind, if_neg hn, hamt]
      refine ⟨_, rfl, rfl, by simp, ?_, ?_⟩
      · intro hl
        exact runField_absent _ _ _ _ _ hl hname
      · intro hl
        exact runField_absent _ _ _ _ _ hl hepoch

/-- C6, at a validator object with a `null` amount and at one with an amount and without
`name` and `epoch`. -/
theorem amount_required_witness :
    GenesisValidatorWrite.UnmarshalJSON GenesisValidatorWrite.zero (.obj nullAmountMembers)
        = .err (.new "missing required field 'amount' for Genesis/epoch/validators")
    ∧ (∃ gv1, GenesisValidator.UnmarshalJSON textCollab (GenesisValidator.zero textCollab)
          (.obj sampleValidatorMembers) = .ok gv1
        ∧ gv1.Amount = some 0x54b40b1f852bda000000 ∧ gv1.Amount ≠ none
        ∧ (lastMember "name" sampleValidatorMembers = none → gv1.Name = "")
        ∧ (lastMember "epoch" sampleValidatorMembers = none → gv1.RemainingEpoch = 0)) :=
  ⟨((amount_required textCollab nullAmountMembers).1 GenesisValidatorWrite.zero
      ⟨"INT3D5XkATYcApJ8xXqQe1z5K35jj2Tf", sampleKeyHex, none, "", 0⟩
      (by decide) (by decide) (by decide)).1 (Or.inr rfl),
   ((amount_required textCollab sampleValidatorMembers).2 (GenesisValidator.zero textCollab)
      ⟨"INT3D5XkATYcApJ8xXqQe1z5K35jj2Tf", sampleKeyHex, some 0x54b40b1f852bda000000, "", 0⟩
      (by decide) (by decide) (by decide)).2 (by rintro (h | h) <;> cases h)⟩

/-! ### Hex strings -/

theorem utf8Bytes_lowerDigit : ∀ d : Nat, d < 16 → utf8Bytes (lowerDigit d) = [lowerByte d] := by
  decide

theorem utf8Bytes_upperDigit : ∀ d : Nat, d < 16 → utf8Bytes (upperDigit d) = [upperByte d] := by
  decide

theorem decodeNibble_lowerByte : ∀ d : Nat, d < 16 → decodeNibble (lowerByte d) = some d := by
  decide

theorem decodeNibble_upperByte : ∀ d : Nat, d < 16 → decodeNibble (upperByte d) = some d := by
  decide

theorem lowerByte_eq_48 : ∀ d : Nat, d < 16 → lowerByte d = 48 → d = 0 := by
  decide

theorem hexDigitsAux_spec (fuel : Nat) :
    ∀ (n : Nat) (acc : List Nat), n < fuel →
      ∃ ds : List Nat, hexDigitsAux fuel n acc = ds ++ acc
        ∧ ds ≠ []
        ∧ (∀ d ∈ ds, d < 16)
        ∧ ds.foldl (fun a d => a * 16 + d) 0 = n
        ∧ (0 < n → ds.head? ≠ some 0)
        ∧ (n < 16 → ds = [n])
        ∧ (∀ k, 0 < k → n < 16 ^ k → ds.length ≤ k) := by
  induction fuel with
  | zero => intro n acc h; omega
  | succ fuel ih =>
    intro n acc hn
    by_cases h16 : n < 16
    · refine ⟨[n], by simp [hexDigitsAux, h16], by simp, by simpa using h16, by simp, ?_,
        fun _ => rfl, ?_⟩
      · intro h0
        simp only [List.head?_cons, ne_eq, Option.some.injEq]
        omega
      · intro k hk _
        simp only [List.length_singleton]
        omega
    · have hlt : n / 16 < fuel := by omega
      obtain ⟨ds, hds, hne, hall, hval, hhead, _, hlen⟩ := ih (n / 16) (n % 16 :: acc) hlt
      refine ⟨ds ++ [n % 16], ?_, by simp, ?_, ?_, ?_, ?_, ?_⟩
      · simp only [hexDigitsAux, h16, if_false, hds, List.append_assoc, List.singleton_append]
      · intro d hd
        simp only [List.mem_append, List.mem_singleton] at hd
        rcases hd with hd | hd
        · exact hall d hd
        · omega
      · simp only [List.foldl_append, List.foldl_cons, List.foldl_nil, hval]
        omega
      · intro _
        have h1 : 0 < n / 16 := by omega
        have := hhead h1
        cases ds with
        | nil => exact absurd rfl hne
        | cons x xs => simpa using this
      · intro h; omega
      · intro k hk hnk
        have hk2 : 1 < k := by
          by_contra hc
          have : k = 1 := by omega
          subst this
          simp at hnk
          omega
        have : n / 16 < 16 ^ (k - 1) := by
          have e : 16 ^ k = 16 ^ (k - 1) * 16 := by
            rw [← pow_succ]; congr 1; omega
          rw [e] at hnk
          exact Nat.div_lt_of_lt_mul (by rw [Nat.mul_comm]; exact hnk)
        have := hlen (k - 1) (by omega) this
        simp only [List.length_append, List.length_singleton]
        omega

theorem hexDigits_spec (n : Nat) :
    hexDigits n ≠ []
      ∧ (∀ d ∈ hexDigits n, d < 16)
      ∧ (hexDigits n).foldl (fun a d => a * 16 + d) 0 = n
      ∧ (0 < n → (hexDigits n).head? ≠ some 0)
      ∧ (n < 16 → hexDigits n = [n])
      ∧ (∀ k, 0 < k → n < 16 ^ k → (hexDigits n).length ≤ k) := by
  obtain ⟨ds, hds, h⟩ := hexDigitsAux_spec (n + 1) n [] (by omega)
  simp only [List.append_nil] at hds
  unfold hexDigits
  rw [hds]
  exact h

theorem goBytes_mk_cons (c : Char) (cs : List Char) :
    goBytes (String.mk (c :: cs)) = utf8Bytes c ++ goBytes (String.mk cs) := by
  simp [goBytes]

theorem goBytes_lowerDigits (ds : List Nat) (h : ∀ d ∈ ds, d < 16) :
    goBytes (String.mk (ds.map lowerDigit)) = ds.map lowerByte := by
  induction ds with
  | nil => simp [goBytes]
  | cons d rest ih =>
    simp only [List.map_cons, goBytes_mk_cons]
    rw [utf8Bytes_lowerDigit d (h d (by simp)), ih (fun x hx => h x (by simp [hx]))]
    rfl

theorem decodeNibbles_lowerBytes (ds : List Nat) (h : ∀ d ∈ ds, d < 16) :
    ∀ acc, decodeNibbles (ds.map lowerByte) acc = some (ds.foldl (fun a d => a * 16 + d) acc) := by
  induction ds with
  | nil => intro acc; simp [decodeNibbles]
  | cons d rest ih =>
    intro acc
    simp only [List.map_cons, decodeNibbles, decodeNibble_lowerByte d (h d (by simp)),
      List.foldl_cons]
    exact ih (fun x hx => h x (by simp [hx])) _

theorem goBytes_encodeHex (n : Nat) :
    goBytes (encodeHex n) = 48 :: 120 :: (hexDigits n).map lowerByte := by
  unfold encodeHex
  rw [goBytes_mk_cons, goBytes_mk_cons, goBytes_lowerDigits _ (hexDigits_spec n).2.1]
  rfl

theorem checkNumberText_encodeHex (n : Nat) :
    checkNumberText (goBytes (encodeHex n)) = .ok ((hexDigits n).map lowerByte) := by
  rw [goBytes_encodeHex]
  obtain ⟨hne, hall, _, hhead, hsmall, _⟩ := hexDigits_spec n
  cases hd : hexDigits n with
  | nil => exact absurd hd hne
  | cons d rest =>
    cases rest with
    | nil => simp [checkNumberText]
    | cons d2 rest2 =>
      have hn : 0 < n := by
        by_contra h0
        have : n = 0 := by omega
        have := hsmall (by omega)
        rw [hd] at this
        simp at this
      have h1 := hhead hn
      rw [hd] at h1
      simp only [List.head?_cons, ne_eq, Option.some.injEq] at h1
      have hd16 : d < 16 := hall d (by rw [hd]; simp)
      have : lowerByte d ≠ 48 := fun h => h1 (lowerByte_eq_48 d hd16 h)
      simp [checkNumberText, this]

theorem decodeBigText_encodeHex (n : Nat) : decodeBigText (encodeHex n) = .ok n := by
  unfold decodeBigText
  rw [checkNumberText_encodeHex]
  simp only [Res.bind]
  rw [decodeNibbles_lowerBytes _ (hexDigits_spec n).2.1, (hexDigits_spec n).2.2.1]

theorem decodeUint64Text_encodeHex (n : Nat) (h : n < 2 ^ 64) :
    decodeUint64Text (encodeHex n) = .ok n := by
  unfold decodeUint64Text
  rw [checkNumberText_encodeHex]
  simp only [Res.bind]
  have hlen : ((hexDigits n).map lowerByte).length ≤ 16 := by
    rw [List.length_map]
    exact (hexDigits_spec n).2.2.2.2.2 16 (by omega) (by
      have : (16 : Nat) ^ 16 = 2 ^ 64 := by norm_num
      omega)
  rw [if_neg (by omega)]
  rw [decodeNibbles_lowerBytes _ (hexDigits_spec n).2.1, (hexDigits_spec n).2.2.1]


theorem goBytes_hexOfBytes (key : List Nat) (h : ∀ b ∈ key, b < 256) :
    goBytes (String.mk (hexOfBytes key))
      = (key.map fun b => [upperByte (b / 16), upperByte (b % 16)]).flatten := by
  induction key with
  | nil => simp [hexOfBytes, goBytes]
  | cons b rest ih =>
    have hb : b < 256 := h b (by simp)
    simp only [hexOfBytes, goBytes_mk_cons, List.map_cons, List.flatten_cons]
    rw [utf8Bytes_upperDigit _ (by omega), utf8Bytes_upperDigit _ (by omega),
      ih (fun x hx => h x (by simp [hx]))]
    rfl

theorem hexDecodePairs_upper (key : List Nat) (h : ∀ b ∈ key, b < 256) :
    hexDecodePairs (key.map fun b => [upperByte (b / 16), upperByte (b % 16)]).flatten = key := by
  induction key with
  | nil => simp [hexDecodePairs]
  | cons b rest ih =>
    have hb : b < 256 := h b (by simp)
    simp only [List.map_cons, List.flatten_cons, List.cons_append, List.nil_append,
      hexDecodePairs, decodeNibble_upperByte _ (show b / 16 < 16 by omega),
      decodeNibble_upperByte _ (show b % 16 < 16 by omega)]
    have e : ([] : List Nat).append
        (List.map (fun b => [upperByte (b / 16), upperByte (b % 16)]) rest).flatten
        = (List.map (fun b => [upperByte (b / 16), upperByte (b % 16)]) rest).flatten := rfl
    rw [e, ih (fun x hx => h x (by simp [hx]))]
    congr 1
    omega

theorem length_flatten_pairs (key : List Nat) :
    ((key.map fun b => [upperByte (b / 16), upperByte (b % 16)]).flatten).length
      = 2 * key.length := by
  induction key with
  | nil => simp
  | cons b rest ih =>
    simp only [List.map_cons, List.flatten_cons, List.length_append, ih, List.length_cons,
      List.length_nil]
    omega

theorem FromHex_blsKeyString (key : List Nat) (h : ∀ b ∈ key, b < 256) :
    FromHex (blsKeyString key) = key := by
  unfold FromHex blsKeyString
  rw [goBytes_mk_cons, goBytes_mk_cons, goBytes_hexOfBytes key h]
  have e1 : utf8Bytes '0' = [48] := by decide
  have e2 : utf8Bytes 'x' = [120] := by decide
  simp only [e1, e2, List.cons_append, List.nil_append]
  have hl := length_flatten_pairs key
  rw [if_neg (by rw [hl]; omega)]
  exact hexDecodePairs_upper key h

theorem blsKeyString_ne_empty (key : List Nat) : blsKeyString key ≠ "" := by
  unfold blsKeyString
  intro h
  have := congrArg String.data h
  simp at this


theorem hexValidator_member_eval {A : Type} (addr : A → JSON → FieldRes A)
    (dec : hexValidator A) (v : JSON) :
    hexValidator.member addr dec "address" v
        = (addr dec.Address v).map (fun a => { dec with Address := a })
    ∧ hexValidator.member addr dec "pub_key" v
        = (decodeString dec.PubKey v).map (fun s => { dec with PubKey := s })
    ∧ hexValidator.member addr dec "amount" v
        = (decodeBigPtr v).map (fun a => { dec with Amount := a })
    ∧ hexValidator.member addr dec "name" v
        = (decodeString dec.Name v).map (fun s => { dec with Name := s })
    ∧ hexValidator.member addr dec "epoch" v
        = (decodeUint64 v).map (fun n => { dec with RemainingEpoch := n }) :=
  ⟨rfl, rfl, rfl, rfl, rfl⟩

theorem hexEpoch_member_eval {V : Type} (elem : JSON → Res V) (dec : hexEpoch V) (v : JSON) :
    hexEpoch.member elem dec "number" v
        = (decodeUint64 v).map (fun n => { dec with Number := n })
    ∧ hexEpoch.member elem dec "reward_per_block" v
        = (decodeBigPtr v).map (fun a => { dec with RewardPerBlock := a })
    ∧ hexEpoch.member elem dec "start_block" v
        = (decodeUint64 v).map (fun n => { dec with StartBlock := n })
    ∧ hexEpoch.member elem dec "end_block" v
        = (decodeUint64 v).map (fun n => { dec with EndBlock := n })
    ∧ hexEpoch.member elem dec "validators" v
        = (decodeSlice elem v).map (fun l => { dec with Validators := l }) :=
  ⟨rfl, rfl, rfl, rfl, rfl⟩

theorem hexRewardScheme_member_eval (dec : hexRewardScheme) (v : JSON) :
    hexRewardScheme.member dec "total_reward" v
        = (decodeBigPtr v).map (fun a => { dec with TotalReward := a })
    ∧ hexRewardScheme.member dec "reward_first_year" v
        = (decodeBigPtr v).map (fun a => { dec with RewardFirstYear := a })
    ∧ hexRewardScheme.member dec "epoch_no_per_year" v
        = (decodeUint64 v).map (fun n => { dec with EpochNumberPerYear := n })
    ∧ hexRewardScheme.member dec "total_year" v
        = (decodeUint64 v).map (fun n => { dec with TotalYear := n }) :=
  ⟨rfl, rfl, rfl, rfl⟩

theorem GenesisDocWrite_member_eval {Address Time : Type} (c : Collab Address Time)
    (w : GenesisDocWrite Time) (v : JSON) :
    GenesisDocWrite.member c w "chain_id" v
        = (decodeString w.ChainID v).map (fun s => { w with ChainID := s })
    ∧ GenesisDocWrite.member c w "consensus" v
        = (decodeString w.Consensus v).map (fun s => { w with Consensus := s })
    ∧ GenesisDocWrite.member c w "genesis_time" v
        = (decodeTime c w.GenesisTime v).map (fun t => { w with GenesisTime := t })
    ∧ GenesisDocWrite.member c w "reward_scheme" v
        = (FieldRes.ofRes (RewardSchemeDoc.UnmarshalJSON w.RewardScheme v)).map
            (fun rs => { w with RewardScheme := rs })
    ∧ GenesisDocWrite.member c w "current_epoch" v
        = (FieldRes.ofRes (OneEpochDocWrite.UnmarshalJSON w.CurrentEpoch v)).map
            (fun ep => { w with CurrentEpoch := ep }) :=
  ⟨rfl, rfl, rfl, rfl, rfl⟩

theorem decodeBigPtr_encodeBigPtr (x : Option Nat) :
    decodeBigPtr (encodeBigPtr x) = .set x := by
  cases x with
  | none => rfl
  | some n => simp [encodeBigPtr, decodeBigPtr, decodeBigText_encodeHex, Res.bind, FieldRes.ofRes]

theorem decodeUint64_encodeHex (n : Nat) (h : n < 2 ^ 64) :
    decodeUint64 (.str (encodeHex n)) = .set n := by
  simp [decodeUint64, decodeUint64Text_encodeHex n h, FieldRes.ofRes]

theorem validatorWrite_round_trip (gv0 : GenesisValidatorWrite) (a : String) (key : List Nat)
    (amount : Nat) (name : String) (epoch : Nat)
    (hlen : key.length = 128) (hkey : ∀ b ∈ key, b < 256) (hepoch : epoch < 2 ^ 64) :
    ∃ j, GenesisValidatorWrite.MarshalJSON
          { EthAccount := a, PubKey := .bls key, Amount := some amount, Name := name,
            RemainingEpoch := epoch } = .ok j
      ∧ GenesisValidatorWrite.UnmarshalJSON gv0 j
          = .ok { EthAccount := a, PubKey := .bls key, Amount := some amount, Name := name,
                  RemainingEpoch := epoch } := by
  refine ⟨_, rfl, ?_⟩
  have hn : ¬ (blsKeyString key = "" ∨ key.length ≠ 128) := by
    rintro (h | h)
    · exact blsKeyString_ne_empty key h
    · exact h hlen
  simp only [GenesisValidatorWrite.UnmarshalJSON, GenesisValidatorWrite.decodeWire,
    unmarshalStruct, decodeMembers, hexValidator_member_eval, decodeString, FieldRes.map,
    decodeBigPtr_encodeBigPtr, decodeUint64_encodeHex epoch hepoch, Res.bind, hexValidator.zero,
    FromHex_blsKeyString key hkey, if_neg hn,
    copyBytes_full zeroBLSPubKey key (by rw [hlen]; rfl), CryptoPubKey.KeyString]


/-! ### The codec round trip -/

theorem validators_round_trip {Address Time : Type} (c : Collab Address Time)
    (vs : List (GenesisValidator Address)) (h : ∀ v ∈ vs, v.Valid) :
    ∃ js, encodeElems GenesisValidatorWrite.MarshalJSON (vs.map (GenesisValidator.toWrite c))
        = .ok js
      ∧ decodeElems (GenesisValidatorWrite.UnmarshalJSON GenesisValidatorWrite.zero) js
        = .ok (vs.map (GenesisValidator.toWrite c)) := by
  induction vs with
  | nil => exact ⟨[], rfl, rfl⟩
  | cons v rest ih =>
    obtain ⟨js, h1, h2⟩ := ih (fun x hx => h x (by simp [hx]))
    obtain ⟨a, pk, am, nm, re⟩ := v
    obtain ⟨ham, ⟨key, hk, hlen, hkey⟩, hre⟩ := h _ (List.mem_cons_self _ _)
    simp only at ham hk hre
    subst hk
    cases am with
    | none => exact absurd rfl ham
    | some amount =>
      obtain ⟨j, hj1, hj2⟩ := validatorWrite_round_trip GenesisValidatorWrite.zero
        (c.addressString a) key amount nm re hlen hkey hre
      refine ⟨j :: js, ?_, ?_⟩
      · simp only [List.map_cons, encodeElems, GenesisValidator.toWrite, hj1, Run.bind, h1]
      · simp only [List.map_cons, decodeElems, GenesisValidator.toWrite, hj2, Res.bind, h2]

theorem rewardScheme_round_trip (tr fy en ty : Nat)
    (hen : en < 2 ^ 64) (hty : ty < 2 ^ 64) :
    ∃ j, RewardSchemeDoc.MarshalJSON
          { TotalReward := some tr, RewardFirstYear := some fy, EpochNumberPerYear := en,
            TotalYear := ty } = .ok j
      ∧ ∀ rs0, RewardSchemeDoc.UnmarshalJSON rs0 j
          = .ok { TotalReward := some tr, RewardFirstYear := some fy, EpochNumberPerYear := en,
                  TotalYear := ty } := by
  refine ⟨_, rfl, fun rs0 => ?_⟩
  simp only [RewardSchemeDoc.UnmarshalJSON, RewardSchemeDoc.decodeWire,
    unmarshalStruct, decodeMembers, hexRewardScheme_member_eval, FieldRes.map,
    decodeBigPtr_encodeBigPtr, decodeUint64_encodeHex en hen, decodeUint64_encodeHex ty hty,
    Res.bind, hexRewardScheme.zero]

theorem epoch_round_trip (num : Nat) (rpb : Option Nat) (sb eb : Nat)
    (st : Int) (ws : List GenesisValidatorWrite) (js : List JSON)
    (hnum : num < 2 ^ 64) (hsb : sb < 2 ^ 64) (heb : eb < 2 ^ 64)
    (h1 : encodeElems GenesisValidatorWrite.MarshalJSON ws = .ok js)
    (h2 : decodeElems (GenesisValidatorWrite.UnmarshalJSON GenesisValidatorWrite.zero) js
      = .ok ws) :
    ∃ j, OneEpochDocWrite.MarshalJSON
          { Number := num, RewardPerBlock := rpb, StartBlock := sb, EndBlock := eb, Status := st,
            Validators := some ws } = .ok j
      ∧ ∀ ep0 : OneEpochDocWrite, OneEpochDocWrite.UnmarshalJSON ep0 j
          = .ok { Number := num, RewardPerBlock := rpb, StartBlock := sb, EndBlock := eb,
                  Status := ep0.Status, Validators := some ws } := by
  have hm : OneEpochDocWrite.MarshalJSON
        { Number := num, RewardPerBlock := rpb, StartBlock := sb, EndBlock := eb, Status := st,
          Validators := some ws }
      = .ok (.obj [("number", .str (encodeHex num)), ("reward_per_block", encodeBigPtr rpb),
          ("start_block", .str (encodeHex sb)), ("end_block", .str (encodeHex eb)),
          ("validators", .arr js)]) := by
    simp only [OneEpochDocWrite.MarshalJSON, encodeSlice, h1, Run.bind]
  refine ⟨_, hm, fun ep0 => ?_⟩
  simp only [OneEpochDocWrite.UnmarshalJSON, OneEpochDocWrite.decodeWire,
    unmarshalStruct, decodeMembers, hexEpoch_member_eval, FieldRes.map, FieldRes.ofRes,
    decodeBigPtr_encodeBigPtr, decodeUint64_encodeHex num hnum, decodeUint64_encodeHex sb hsb,
    decodeUint64_encodeHex eb heb, decodeSlice, h2, Res.bind, hexEpoch.zero]


theorem sampleDoc_valid (status : Int) : (sampleDoc status).Valid := by
  refine ⟨?_, ?_, ?_, ⟨[sampleValidator], rfl, ?_⟩, ?_, ?_, ?_, ?_, ?_⟩ <;>
    try (simp only [sampleDoc]; decide)
  intro v hv
  rw [List.mem_singleton] at hv
  subst hv
  exact ⟨by decide, ⟨List.replicate 128 171, rfl, by decide, by decide⟩, by decide⟩

theorem textCollab_roundTrips (status : Int) : textCollab.RoundTrips (sampleDoc status) :=
  ⟨⟨_, rfl, rfl⟩, fun _ _ _ _ => rfl⟩

/-- C1, as stated, fails on a document whose status is not 0: the document `sampleDoc 3` is
valid, `SaveAs` encodes it, and `GenesisDocFromJSON` decodes the encoding without error to a
document whose status is 0, which is not the document encoded. -/
theorem status_lost_by_codec :
    (sampleDoc 3).Valid ∧ textCollab.RoundTrips (sampleDoc 3)
      ∧ ∃ j, (sampleDoc 3).SaveAs textCollab (fun _ _ => none) "genesis.json"
            = some { written := some j, err := none }
        ∧ GenesisDocFromJSON textCollab (.valid j) = .returned (sampleDoc 0) none
        ∧ GenesisDocFromJSON textCollab (.valid j) ≠ .returned (sampleDoc 3) none :=
  ⟨sampleDoc_valid 3, textCollab_roundTrips 3, _, rfl, by decide, by decide⟩

/-- C1, amended. For every valid document `d` (non-nil `TotalReward`, `RewardFirstYear`,
`RewardPerBlock` and validators, every validator with a non-nil amount and a BLS key of 128
bytes, any status) whose time and addresses the collaborators keep, `SaveAs` encodes `d` and
hands the encoding to the file writer, and `GenesisDocFromJSON` decodes that encoding without
error to the document equal to `d` in every field except `CurrentEpoch.Status`, which is 0;
the result is `d` itself when the status of `d` is 0. -/
theorem codec_round_trip {Address Time : Type} (c : Collab Address Time)
    (d : GenesisDoc Address Time) (hvalid : d.Valid) (hcollab : c.RoundTrips d)
    (WriteFile : String → Option JSON → Option Err) (file : String) :
    ∃ j, d.SaveAs c WriteFile file = some { written := some j, err := WriteFile file (some j) }
      ∧ GenesisDocFromJSON c (.valid j)
        = .returned { d with CurrentEpoch := { d.CurrentEpoch with Status := 0 } } none := by
  obtain ⟨chain, cons, time, ⟨tr, fy, en, ty⟩, ⟨num, rpb, sb, eb, st, vals⟩⟩ := d
  obtain ⟨htr, hfy, hrpb, ⟨vs, hvs, hval⟩, hen, hty, hnum, hsb, heb⟩ := hvalid
  obtain ⟨⟨ts, htm, htu⟩, haddr⟩ := hcollab
  simp only at htr hfy hrpb hvs hen hty hnum hsb heb htm htu haddr
  subst hvs
  cases tr with
  | none => exact absurd rfl htr
  | some tr =>
  cases fy with
  | none => exact absurd rfl hfy
  | some fy =>
  obtain ⟨jr, hr1, hr2⟩ := rewardScheme_round_trip tr fy en ty hen hty
  obtain ⟨js, hv1, hv2⟩ := validators_round_trip c vs hval
  obtain ⟨je, he1, he2⟩ := epoch_round_trip num rpb sb eb st _ js hnum hsb heb hv1 hv2
  have hw : GenesisDoc.toWrite c
      { ChainID := chain, Consensus := cons, GenesisTime := time,
        RewardScheme := { TotalReward := some tr, RewardFirstYear := some fy,
                          EpochNumberPerYear := en, TotalYear := ty },
        CurrentEpoch := { Number := num, RewardPerBlock := rpb, StartBlock := sb,
                          EndBlock := eb, Status := st, Validators := some vs } }
      = { ChainID := chain, Consensus := cons, GenesisTime := time,
          RewardScheme := { TotalReward := some tr, RewardFirstYear := some fy,
                            EpochNumberPerYear := en, TotalYear := ty },
          CurrentEpoch := { Number := num, RewardPerBlock := rpb, StartBlock := sb,
                            EndBlock := eb, Status := st,
                            Validators := some (vs.map (GenesisValidator.toWrite c)) } } := rfl
  refine ⟨.obj [("chain_id", .str chain), ("consensus", .str cons), ("genesis_time", .str ts),
    ("reward_scheme", jr), ("current_epoch", je)], ?_, ?_⟩
  · simp only [GenesisDoc.SaveAs, hw, marshalGenesisDocWrite, htm, hr1, he1, Run.bind]
  · have hback : (vs.map (GenesisValidator.toWrite c)).map
        (GenesisValidatorWrite.toValidator c) = vs := by
      rw [List.map_map]
      conv_rhs => rw [← List.map_id vs]
      apply List.map_congr_left
      intro v hv
      have := haddr vs rfl v hv
      obtain ⟨a, pk, am, nm, re⟩ := v
      simp only at this
      simp [GenesisValidator.toWrite, GenesisValidatorWrite.toValidator, this]
    simp only [GenesisDocFromJSON, unmarshalGenesisDocWrite, unmarshalStruct, decodeMembers,
      GenesisDocWrite_member_eval c, decodeString, decodeTime, htu, FieldRes.map, FieldRes.ofRes,
      hr2, he2, Res.bind, GenesisDocWrite.zero, GenesisDocWrite.toDoc, OneEpochDocWrite.zero,
      Option.getD_some, hback]

/-- C1, amended, at a concrete document of status 3. -/
theorem codec_round_trip_witness :
    ∃ j, (sampleDoc 3).SaveAs textCollab (fun _ _ => none) "genesis.json"
          = some { written := some j, err := none }
      ∧ GenesisDocFromJSON textCollab (.valid j) = .returned (sampleDoc 0) none :=
  codec_round_trip textCollab (sampleDoc 3) (sampleDoc_valid 3) (textCollab_roundTrips 3)
    (fun _ _ => none) "genesis.json"

/-! ### The translator -/

/-- C2. Translator round trip: for every document whose validators are non-nil, the write
shape built as `SaveAs` builds it, translated back as `GenesisDocFromJSON` translates it, is
the document itself, given that parsing the string form of each validator address returns
the address. -/
theorem translator_round_trip {Address Time : Type} (c : Collab Address Time)
    (d : GenesisDoc Address Time) (vs : List (GenesisValidator Address))
    (hvs : d.CurrentEpoch.Validators = some vs)
    (haddr : ∀ v ∈ vs, c.stringToAddress (c.addressString v.EthAccount) = v.EthAccount) :
    (d.toWrite c).toDoc c = d := by
  obtain ⟨chain, cons, time, rs, ep⟩ := d
  obtain ⟨num, rpb, sb, eb, st, vals⟩ := ep
  simp only at hvs
  subst hvs
  simp only [GenesisDoc.toWrite, GenesisDocWrite.toDoc, Option.getD_some, List.map_map]
  congr 3
  conv_rhs => rw [← List.map_id vs]
  apply List.map_congr_left
  intro v hv
  obtain ⟨a, pk, am, nm, re⟩ := v
  have := haddr _ hv
  simp only at this
  simp [GenesisValidator.toWrite, GenesisValidatorWrite.toValidator, this]

/-- C2, at a concrete document. -/
theorem translator_round_trip_witness :
    ((sampleDoc 3).toWrite textCollab).toDoc textCollab = sampleDoc 3 :=
  translator_round_trip textCollab (sampleDoc 3) [sampleValidator] rfl (fun _ _ => rfl)

/-! ### `GenesisDocFromJSON` -/

/-- C9. Whenever `GenesisDocFromJSON` returns an error, the document returned with it is the
empty document `GenesisDoc{}`: its chain id and consensus are empty, its reward scheme and its
epoch are zero values, its validators are nil; no field carries a value of the input. -/
theorem error_returns_empty_document {Address Time : Type} (c : Collab Address Time)
    (jsonBlob : Blob) (genDoc : GenesisDoc Address Time) (e : Err)
    (h : GenesisDocFromJSON c jsonBlob = .returned genDoc (some e)) :
    genDoc = GenesisDoc.zero c
      ∧ genDoc.ChainID = "" ∧ genDoc.Consensus = "" ∧ genDoc.GenesisTime = c.zeroTime
      ∧ genDoc.RewardScheme = RewardSchemeDoc.zero ∧ genDoc.CurrentEpoch = OneEpochDoc.zero
      ∧ genDoc.CurrentEpoch.Validators = none := by
  have hz : genDoc = GenesisDoc.zero c := by
    unfold GenesisDocFromJSON at h
    split at h
    · injection h with h1 _
      exact h1.symm
    · cases h
    · injection h with _ h2
      cases h2
  subst hz
  exact ⟨rfl, rfl, rfl, rfl, rfl, rfl, rfl⟩

/-- C9, at a text that fails in `current_epoch` after `chain_id` and `consensus` were
decoded. -/
theorem error_returns_empty_document_witness :
    ∃ genDoc e, GenesisDocFromJSON textCollab (.valid lateFailureJSON) = .returned genDoc (some e)
      ∧ genDoc = GenesisDoc.zero textCollab
      ∧ genDoc.ChainID = "" ∧ genDoc.Consensus = "" ∧ genDoc.GenesisTime = textCollab.zeroTime
      ∧ genDoc.RewardScheme = RewardSchemeDoc.zero ∧ genDoc.CurrentEpoch = OneEpochDoc.zero
      ∧ genDoc.CurrentEpoch.Validators = none :=
  ⟨GenesisDoc.zero textCollab, .new "missing required field 'validators' for Genesis/epoch",
    by decide,
    error_returns_empty_document textCollab (.valid lateFailureJSON) (GenesisDoc.zero textCollab)
      (.new "missing required field 'validators' for Genesis/epoch") (by decide)⟩

/-- C7. Decoding the built-in text `MainnetGenesisJSON` with `GenesisDocFromJSON` succeeds,
given that the time collaborator parses its timestamp, and yields a document with `ChainID`
equal to "intchain", `Consensus` equal to "ipbft", exactly one validator, and `RewardPerBlock`
equal to the integer 0x8cd1dc18de05834. -/
theorem mainnet_fixture_decodes {Address Time : Type} (c : Collab Address Time) (t : Time)
    (ht : c.timeUnmarshal "2020-05-12T11:46:26.899977+08:00" = some t) :
    ∃ d v, GenesisDocFromJSON c (.valid MainnetGenesisJSON) = .returned d none
      ∧ d.ChainID = "intchain" ∧ d.Consensus = "ipbft" ∧ d.GenesisTime = t
      ∧ d.CurrentEpoch.Validators = some [v]
      ∧ d.CurrentEpoch.RewardPerBlock = some 0x8cd1dc18de05834 := by
  have hc : c = { c with timeUnmarshal := fun x =>
      if x = "2020-05-12T11:46:26.899977+08:00" then some t else c.timeUnmarshal x } := by
    obtain ⟨za, as, sa, au, zt, tu, tm⟩ := c
    simp only [Collab.mk.injEq, true_and, and_true]
    funext x
    by_cases hx : x = "2020-05-12T11:46:26.899977+08:00"
    · simp only [hx, if_true]
      exact ht
    · simp only [hx, if_false]
  rw [hc]
  exact ⟨_, _, rfl, rfl, rfl, rfl, rfl, rfl⟩

/-- C7, with the collaborators of concrete runs. -/
theorem mainnet_fixture_decodes_witness :
    ∃ d v, GenesisDocFromJSON textCollab (.valid MainnetGenesisJSON) = .returned d none
      ∧ d.ChainID = "intchain" ∧ d.Consensus = "ipbft"
      ∧ d.GenesisTime = "2020-05-12T11:46:26.899977+08:00"
      ∧ d.CurrentEpoch.Validators = some [v]
      ∧ d.CurrentEpoch.RewardPerBlock = some 0x8cd1dc18de05834 :=
  mainnet_fixture_decodes textCollab "2020-05-12T11:46:26.899977+08:00" rfl

/-- C10. On the JSON text `null` the call of `json.Unmarshal` returns no error and leaves the
write-shape pointer nil, and `GenesisDocFromJSON` dereferences it: the call does not return. -/
theorem null_text_nil_dereference {Address Time : Type} (c : Collab Address Time) :
    unmarshalGenesisDocWrite c (.valid .null) = .ok none
      ∧ GenesisDocFromJSON c (.valid .null) = .nilDereference :=
  ⟨rfl, rfl⟩

/-- C8. On the JSON text `{}` `GenesisDocFromJSON` returns no error, and the document it
returns has a nil `TotalReward` and a nil `RewardFirstYear`: the required-field checks of the
reward scheme never ran. The sibling inputs that give `reward_scheme` as `{}` or as `null`
are rejected with the missing-required-field error. -/
theorem empty_object_accepted {Address Time : Type} (c : Collab Address Time) :
    GenesisDocFromJSON c (.valid (.obj [])) = .returned (emptyObjectDoc c) none
      ∧ (emptyObjectDoc c).RewardScheme.TotalReward = none
      ∧ (emptyObjectDoc c).RewardScheme.RewardFirstYear = none
      ∧ GenesisDocFromJSON c (.valid (.obj [("reward_scheme", .obj [])]))
          = .returned (GenesisDoc.zero c)
              (some (.new "missing required field 'total_reward' for Genesis/reward_scheme"))
      ∧ GenesisDocFromJSON c (.valid (.obj [("reward_scheme", .null)]))
          = .returned (GenesisDoc.zero c)
              (some (.new "missing required field 'total_reward' for Genesis/reward_scheme")) :=
  ⟨rfl, rfl, rfl, rfl, rfl⟩

/-! ### `SaveAs` and the encoders -/

theorem Run_bind_eq_ok {α β : Type} {r : Run α} {f : α → Run β} {b : β}
    (h : r.bind f = .ok b) : ∃ a, r = .ok a ∧ f a = .ok b := by
  cases r with
  | ok a => exact ⟨a, rfl, h⟩
  | err e => cases h
  | nilDereference => cases h

theorem Res_bind_eq_ok {α β : Type} {r : Res α} {f : α → Res β} {b : β}
    (h : r.bind f = .ok b) : ∃ a, r = .ok a ∧ f a = .ok b := by
  cases r with
  | ok a => exact ⟨a, rfl, h⟩
  | err e => cases h

theorem SaveAs_of_encoding_error {Address Time : Type} (c : Collab Address Time)
    (WriteFile : String → Option JSON → Option Err) (genDoc : GenesisDoc Address Time)
    (file : String) (e : Err)
    (h : marshalGenesisDocWrite c (genDoc.toWrite c) = .err e) :
    genDoc.SaveAs c WriteFile file = some { written := none, err := WriteFile file none } := by
  simp only [GenesisDoc.SaveAs, h]

/-- C11. On a document whose JSON encoding fails (its genesis time is in the year 10000, which
`time.Time.MarshalJSON` rejects) and with a file writer that succeeds, `SaveAs` hands the empty
buffer to the writer and returns the nil error. -/
theorem save_swallows_encoding_error :
    marshalGenesisDocWrite yearRangeCollab (farFutureDoc.toWrite yearRangeCollab)
        = .err .marshalTime
      ∧ farFutureDoc.SaveAs yearRangeCollab (fun _ _ => none) "genesis.json"
        = some { written := none, err := none } :=
  ⟨rfl, rfl⟩

theorem KeyString_of_ne_nil {pk : CryptoPubKey} (h : pk ≠ .nil) :
    ∃ keyString, pk.KeyString = some keyString := by
  cases pk with
  | nil => exact absurd rfl h
  | bls key => exact ⟨_, rfl⟩
  | other keyString => exact ⟨_, rfl⟩

theorem validatorWrite_marshal_ok (gv : GenesisValidatorWrite) (h : gv.PubKey ≠ .nil) :
    ∃ keyString, gv.PubKey.KeyString = some keyString
      ∧ GenesisValidatorWrite.MarshalJSON gv = .ok (.obj [
          ("address", .str gv.EthAccount),
          ("pub_key", .str keyString),
          ("amount", encodeBigPtr gv.Amount),
          ("name", .str gv.Name),
          ("epoch", .str (encodeHex gv.RemainingEpoch))]) := by
  obtain ⟨s, hs⟩ := KeyString_of_ne_nil h
  exact ⟨s, hs, by simp only [GenesisValidatorWrite.MarshalJSON, hs]⟩

theorem encodeElems_marshal_ok (l : List GenesisValidatorWrite)
    (h : ∀ v ∈ l, v.PubKey ≠ .nil) :
    ∃ js, encodeElems GenesisValidatorWrite.MarshalJSON l = .ok js ∧ js.length = l.length := by
  induction l with
  | nil => exact ⟨[], rfl, rfl⟩
  | cons v rest ih =>
    obtain ⟨s, _, hv⟩ := validatorWrite_marshal_ok v (h v (List.mem_cons_self _ _))
    obtain ⟨js, hjs, hlen⟩ := ih (fun w hw => h w (List.mem_cons_of_mem _ hw))
    simp only [encodeElems, hv, hjs, Run.bind]
    exact ⟨_, rfl, by simp only [List.length_cons, hlen]⟩

theorem encodeSlice_marshal_ok (vs : Option (List GenesisValidatorWrite))
    (h : ∀ v ∈ vs.getD [], v.PubKey ≠ .nil) :
    ∃ j, encodeSlice GenesisValidatorWrite.MarshalJSON vs = .ok j := by
  cases vs with
  | none => exact ⟨.null, rfl⟩
  | some l =>
    obtain ⟨js, hjs, _⟩ := encodeElems_marshal_ok l h
    exact ⟨.arr js, by simp only [encodeSlice, hjs, Run.bind]⟩

/-- C12. The reward scheme encoder, the epoch encoder on every epoch whose validators have a
public key, and the validator encoder on every validator that has a public key, return an
object in which each arbitrary-precision integer field (`total_reward`, `reward_first_year`,
`reward_per_block`, `amount`) is written under its key exactly once, whatever the field holds;
the value written for the nil pointer is the explicit `null`. -/
theorem nil_integer_encoded_as_null :
    encodeBigPtr none = .null
    ∧ (∀ rs : RewardSchemeDoc, ∃ kvs, RewardSchemeDoc.MarshalJSON rs = .ok (.obj kvs)
        ∧ valuesUnder "total_reward" kvs = [encodeBigPtr rs.TotalReward]
        ∧ valuesUnder "reward_first_year" kvs = [encodeBigPtr rs.RewardFirstYear])
    ∧ (∀ ep : OneEpochDocWrite, (∀ v ∈ ep.Validators.getD [], v.PubKey ≠ .nil) →
        ∃ kvs, OneEpochDocWrite.MarshalJSON ep = .ok (.obj kvs)
          ∧ valuesUnder "reward_per_block" kvs = [encodeBigPtr ep.RewardPerBlock])
    ∧ (∀ gv : GenesisValidatorWrite, gv.PubKey ≠ .nil →
        ∃ kvs, GenesisValidatorWrite.MarshalJSON gv = .ok (.obj kvs)
          ∧ valuesUnder "amount" kvs = [encodeBigPtr gv.Amount]) := by
  refine ⟨rfl, fun rs => ⟨_, rfl, rfl, rfl⟩, ?_, ?_⟩
  · intro ep h
    obtain ⟨num, rpb, sb, eb, st, vs⟩ := ep
    cases vs with
    | none => exact ⟨_, rfl, rfl⟩
    | some l =>
      obtain ⟨js, hjs, _⟩ := encodeElems_marshal_ok l h
      simp only [OneEpochDocWrite.MarshalJSON, encodeSlice, hjs, Run.bind]
      exact ⟨_, rfl, rfl⟩
  · intro gv h
    obtain ⟨s, _, hs⟩ := validatorWrite_marshal_ok gv h
    exact ⟨_, hs, rfl⟩

/-- C12, at a validator with a key and a nil amount, and at an epoch with a nil reward per
block that holds this validator: both `null` values are in the encoded object. -/
theorem nil_integer_encoded_as_null_witness :
    (∃ kvs, GenesisValidatorWrite.MarshalJSON nilAmountValidator = .ok (.obj kvs)
        ∧ valuesUnder "amount" kvs = [.null])
      ∧ (∃ kvs, OneEpochDocWrite.MarshalJSON nilRewardEpoch = .ok (.obj kvs)
        ∧ valuesUnder "reward_per_block" kvs = [.null])
      ∧ OneEpochDocWrite.MarshalJSON nilRewardEpoch = .ok (.obj [
          ("number", .str "0x0"), ("reward_per_block", .null), ("start_block", .str "0x0"),
          ("end_block", .str "0x0"),
          ("validators", .arr [.obj [
            ("address", .str "INT3DvvQnnBNcUUeMJfiRi6GKFRjhwaw"),
            ("pub_key", .str (blsKeyString (List.replicate 128 171))),
            ("amount", .null), ("name", .str "v0"), ("epoch", .str "0x2")]])]) :=
  ⟨nil_integer_encoded_as_null.2.2.2 nilAmountValidator (by decide),
    nil_integer_encoded_as_null.2.2.1 nilRewardEpoch (by decide), rfl⟩

/-! ### An absent `reward_per_block` -/

/-- C13, as stated, fails: the epoch object with an empty `validators` array and no
`reward_per_block` key is decoded without error, and its `RewardPerBlock` is the nil pointer,
not the integer 0. -/
theorem missing_reward_decodes_to_nil :
    OneEpochDocWrite.UnmarshalJSON OneEpochDocWrite.zero (.obj [("validators", .arr [])])
        = .ok { OneEpochDocWrite.zero with Validators := some [] }
      ∧ ({ OneEpochDocWrite.zero with Validators := some [] } : OneEpochDocWrite).RewardPerBlock
          = none
      ∧ ({ OneEpochDocWrite.zero with Validators := some [] } : OneEpochDocWrite).RewardPerBlock
          ≠ some 0 :=
  ⟨by decide, rfl, by decide⟩

theorem sliceField_array {V : Type} {elem : JSON → Res V} {name : String}
    {kvs : List (String × JSON)} {x : Option (List V)} {xs : List JSON}
    (hr : runField (fun _ v => decodeSlice elem v) name none kvs = some x)
    (ha : lastMember name kvs = some (.arr xs)) : ∃ l, x = some l := by
  obtain ⟨_, h1⟩ := runField_last _ _ _ _ _ _ ha hr
  simp only [decodeSlice] at h1
  cases hd : decodeElems elem xs with
  | ok l =>
    rw [hd] at h1
    simp only [Res.bind, FieldRes.ofRes, FieldRes.set.injEq] at h1
    exact ⟨l, h1.symm⟩
  | err e =>
    rw [hd] at h1
    simp [Res.bind, FieldRes.ofRes] at h1

/-- C13, amended. For every `current_epoch` object that `json.Unmarshal` decodes into the wire
struct, with a `validators` array and no `reward_per_block` key, both epoch decoders return no
error and the decoded `RewardPerBlock` is nil. -/
theorem absent_reward_per_block_is_nil {Address Time : Type} (c : Collab Address Time)
    (kvs : List (String × JSON)) (xs : List JSON)
    (hvals : lastMember "validators" kvs = some (.arr xs))
    (hrpb : lastMember "reward_per_block" kvs = none) :
    (∀ (ep : OneEpochDocWrite) (dec : hexEpoch GenesisValidatorWrite),
      OneEpochDocWrite.decodeWire (.obj kvs) = .ok dec →
      ∃ ep1, OneEpochDocWrite.UnmarshalJSON ep (.obj kvs) = .ok ep1
        ∧ ep1.RewardPerBlock = none)
    ∧ (∀ (ep : OneEpochDoc Address) (dec : hexEpoch (GenesisValidator Address)),
      OneEpochDoc.decodeWire c (.obj kvs) = .ok dec →
      ∃ ep1, OneEpochDoc.UnmarshalJSON c ep (.obj kvs) = .ok ep1
        ∧ ep1.RewardPerBlock = none) := by
  constructor
  · intro ep dec hdec
    obtain ⟨_, h2, _, _, h5⟩ := hexEpoch_run _ kvs dec hdec
    obtain ⟨l, hl⟩ := sliceField_array h5 hvals
    have hn := runField_absent _ _ _ _ _ hrpb h2
    simp only [OneEpochDocWrite.UnmarshalJSON, hdec, Res.bind, hl]
    exact ⟨_, rfl, hn⟩
  · intro ep dec hdec
    obtain ⟨_, h2, _, _, h5⟩ := hexEpoch_run _ kvs dec hdec
    obtain ⟨l, hl⟩ := sliceField_array h5 hvals
    have hn := runField_absent _ _ _ _ _ hrpb h2
    simp only [OneEpochDoc.UnmarshalJSON, hdec, Res.bind, hl]
    exact ⟨_, rfl, hn⟩

/-- C13, amended, at an object with a number and an empty `validators` array. -/
theorem absent_reward_per_block_is_nil_witness :
    ∃ ep1, OneEpochDocWrite.UnmarshalJSON OneEpochDocWrite.zero
        (.obj [("number", .str "0x1"), ("validators", .arr [])]) = .ok ep1
      ∧ ep1.RewardPerBlock = none :=
  (absent_reward_per_block_is_nil textCollab [("number", .str "0x1"), ("validators", .arr [])]
    [] rfl rfl).1 OneEpochDocWrite.zero _ rfl

/-! ### The write shape -/

theorem rangeAssign_length {α β : Type} (f : α → β) (src : List α) :
    ∀ (i : Nat) (dst : List β), (rangeAssign f src i dst).length = dst.length := by
  induction src with
  | nil => intro i dst; rfl
  | cons v rest ih =>
    intro i dst
    simp only [rangeAssign, ih, List.length_set]

theorem rangeAssign_getElem? {α β : Type} (f : α → β) (src : List α) :
    ∀ (i : Nat) (dst : List β) (j : Nat), i + src.length ≤ dst.length →
      (rangeAssign f src i dst)[j]?
        = if i ≤ j ∧ j < i + src.length then (src[j - i]?).map f else dst[j]? := by
  induction src with
  | nil =>
    intro i dst j _
    simp only [rangeAssign, List.length_nil, Nat.add_zero]
    rw [if_neg (by omega)]
  | cons v rest ih =>
    intro i dst j hlen
    simp only [List.length_cons] at hlen
    simp only [rangeAssign, List.length_cons]
    rw [ih (i + 1) (dst.set i (f v)) j (by rw [List.length_set]; omega)]
    by_cases h1 : i + 1 ≤ j ∧ j < i + 1 + rest.length
    · rw [if_pos h1, if_pos (by omega)]
      have : j - i = (j - (i + 1)) + 1 := by omega
      rw [this, List.getElem?_cons_succ]
    · rw [if_neg h1]
      by_cases h2 : j = i
      · subst h2
        rw [if_pos (by omega)]
        simp only [Nat.sub_self, List.getElem?_cons_zero, Option.map_some']
        rw [List.getElem?_set_self (by omega)]
      · rw [if_neg (by omega), List.getElem?_set_ne (by omega)]

theorem rangeAssign_make {α β : Type} (f : α → β) (src : List α) (zero : β) :
    rangeAssign f src 0 (makeSlice zero src.length) = src.map f := by
  apply List.ext_getElem?
  intro j
  rw [rangeAssign_getElem? f src 0 _ j (by simp [makeSlice])]
  by_cases h : j < src.length
  · rw [if_pos (by omega)]
    simp
  · rw [if_neg (by omega)]
    simp only [makeSlice]
    rw [List.getElem?_eq_none (by simp; omega), List.getElem?_eq_none (by simp; omega)]

theorem writeShapeByLoop_eq {Address Time : Type} (c : Collab Address Time)
    (genDoc : GenesisDoc Address Time) : genDoc.writeShapeByLoop c = genDoc.toWrite c := by
  simp only [GenesisDoc.writeShapeByLoop, GenesisDoc.toWrite, Option.getD_some, rangeAssign_make]

/-- C17. The write shape `SaveAs` builds, statement by statement, is the one it encodes; for
every document it has the chain id, consensus, genesis time, reward scheme, number, reward per
block, start block, end block and status of the document, and a non-nil validators slice of the
length of the document's, whose entry at each index has the key, amount, name and counter of
the document's validator at that index and the string form of its address; for a document with
nil validators the slice is empty and non-nil. -/
theorem write_shape_positional {Address Time : Type} (c : Collab Address Time)
    (d : GenesisDoc Address Time) :
    d.toWrite c = d.writeShapeByLoop c
      ∧ (d.writeShapeByLoop c).ChainID = d.ChainID
      ∧ (d.writeShapeByLoop c).Consensus = d.Consensus
      ∧ (d.writeShapeByLoop c).GenesisTime = d.GenesisTime
      ∧ (d.writeShapeByLoop c).RewardScheme = d.RewardScheme
      ∧ (d.writeShapeByLoop c).CurrentEpoch.Number = d.CurrentEpoch.Number
      ∧ (d.writeShapeByLoop c).CurrentEpoch.RewardPerBlock = d.CurrentEpoch.RewardPerBlock
      ∧ (d.writeShapeByLoop c).CurrentEpoch.StartBlock = d.CurrentEpoch.StartBlock
      ∧ (d.writeShapeByLoop c).CurrentEpoch.EndBlock = d.CurrentEpoch.EndBlock
      ∧ (d.writeShapeByLoop c).CurrentEpoch.Status = d.CurrentEpoch.Status
      ∧ (∃ ws, (d.writeShapeByLoop c).CurrentEpoch.Validators = some ws
          ∧ ws.length = (d.CurrentEpoch.Validators.getD []).length
          ∧ ∀ i : Nat, ws[i]? = ((d.CurrentEpoch.Validators.getD [])[i]?).map fun v =>
              ({ EthAccount := c.addressString v.EthAccount, PubKey := v.PubKey,
                 Amount := v.Amount, Name := v.Name, RemainingEpoch := v.RemainingEpoch } :
                GenesisValidatorWrite))
      ∧ (({ d with CurrentEpoch := { d.CurrentEpoch with Validators := none } } :
            GenesisDoc Address Time).writeShapeByLoop c).CurrentEpoch.Validators = some [] := by
  refine ⟨(writeShapeByLoop_eq c d).symm, rfl, rfl, rfl, rfl, rfl, rfl, rfl, rfl, rfl, ?_, rfl⟩
  rw [writeShapeByLoop_eq]
  refine ⟨_, rfl, by simp, ?_⟩
  intro i
  rw [List.getElem?_map]
  rfl

/-! ### Order of validation -/

/-- C18. For every validator object that `json.Unmarshal` decodes into the wire struct, in
which `pub_key` is empty or does not give 128 bytes and `amount` is absent or `null`, the decoder
reports the `pub_key` format error, though the amount is nil too; and for every `reward_scheme`
object in which both `total_reward` and `reward_first_year` are absent or `null`, the decoder
reports the missing `total_reward`. -/
theorem validation_order (kvs : List (String × JSON)) :
    (∀ (gv : GenesisValidatorWrite) (dec : hexValidator String),
      GenesisValidatorWrite.decodeWire (.obj kvs) = .ok dec →
      (dec.PubKey = "" ∨ (FromHex dec.PubKey).length ≠ 128) →
      absentOrNull "amount" kvs →
      dec.Amount = none
        ∧ GenesisValidatorWrite.UnmarshalJSON gv (.obj kvs)
          = .err (.new "wrong format of required field 'pub_key' for Genesis/epoch/validators"))
    ∧ (∀ (rs : RewardSchemeDoc) (dec : hexRewardScheme),
      RewardSchemeDoc.decodeWire (.obj kvs) = .ok dec →
      absentOrNull "total_reward" kvs → absentOrNull "reward_first_year" kvs →
      dec.TotalReward = none ∧ dec.RewardFirstYear = none
        ∧ RewardSchemeDoc.UnmarshalJSON rs (.obj kvs)
          = .err (.new "missing required field 'total_reward' for Genesis/reward_scheme")) := by
  constructor
  · intro gv dec hdec hbad ham
    obtain ⟨_, _, h3, _, _⟩ := hexValidator_run decodeString "" kvs dec hdec
    refine ⟨bigField_absentOrNull h3 ham, ?_⟩
    simp only [GenesisValidatorWrite.UnmarshalJSON, hdec, Res.bind, if_pos hbad]
  · intro rs dec hdec h1 h2
    obtain ⟨r1, r2, _, _⟩ := hexRewardScheme_run kvs dec hdec
    have e1 := bigField_absentOrNull r1 h1
    refine ⟨e1, bigField_absentOrNull r2 h2, ?_⟩
    simp only [RewardSchemeDoc.UnmarshalJSON, hdec, Res.bind, e1]

/-- C18, at a validator object with a key of two bytes and no amount, and at a reward scheme
without both rewards. -/
theorem validation_order_witness :
    GenesisValidatorWrite.UnmarshalJSON GenesisValidatorWrite.zero
        (.obj [("pub_key", .str "0x0F1C"), ("name", .str "v0")])
      = .err (.new "wrong format of required field 'pub_key' for Genesis/epoch/validators")
    ∧ RewardSchemeDoc.UnmarshalJSON RewardSchemeDoc.zero (.obj [("total_year", .str "0xa")])
      = .err (.new "missing required field 'total_reward' for Genesis/reward_scheme") :=
  ⟨((validation_order [("pub_key", .str "0x0F1C"), ("name", .str "v0")]).1
      GenesisValidatorWrite.zero ⟨"", "0x0F1C", none, "v0", 0⟩ (by decide)
      (Or.inr (by decide)) (Or.inl rfl)).2,
   ((validation_order [("total_year", .str "0xa")]).2 RewardSchemeDoc.zero ⟨none, none, 0, 10⟩
      (by decide) (Or.inl rfl) (Or.inl rfl)).2.2⟩

/-! ### The epoch status -/

theorem decodeMembers_inv {σ : Type} (member : σ → String → JSON → FieldRes σ) (P : σ → Prop)
    (hstep : ∀ d k v d1, P d → member d k v = .set d1 → P d1)
    (kvs : List (String × JSON)) :
    ∀ (d : σ) (s : Option Err) (d1 : σ) (s1 : Option Err), P d →
      decodeMembers member d s kvs = .ok (d1, s1) → P d1 := by
  induction kvs with
  | nil =>
    intro d s d1 s1 hp h
    simp only [decodeMembers, Res.ok.injEq, Prod.mk.injEq] at h
    rw [← h.1]
    exact hp
  | cons kv rest ih =>
    intro d s d1 s1 hp h
    obtain ⟨k, v⟩ := kv
    simp only [decodeMembers] at h
    split at h
    · rename_i d2 hm
      exact ih _ _ _ _ (hstep _ _ _ _ hp hm) h
    · exact ih _ _ _ _ hp h
    · cases h

theorem unmarshalStruct_inv {σ : Type} (member : σ → String → JSON → FieldRes σ) (P : σ → Prop)
    (hstep : ∀ d k v d1, P d → member d k v = .set d1 → P d1)
    (d : σ) (j : JSON) (d1 : σ) (hp : P d) (h : unmarshalStruct member d j = .ok d1) :
    P d1 := by
  cases j with
  | null =>
    simp only [unmarshalStruct, Res.ok.injEq] at h
    rw [← h]
    exact hp
  | obj kvs =>
    simp only [unmarshalStruct] at h
    split at h
    · rename_i d2 hd
      injection h with h
      subst h
      exact decodeMembers_inv member P hstep kvs _ _ _ _ hp hd
    · cases h
    · cases h
  | bool b => cases h
  | num n => cases h
  | str s => cases h
  | arr xs => cases h

theorem OneEpochDocWrite_status (ep ep1 : OneEpochDocWrite) (input : JSON)
    (h : OneEpochDocWrite.UnmarshalJSON ep input = .ok ep1) : ep1.Status = ep.Status := by
  unfold OneEpochDocWrite.UnmarshalJSON at h
  obtain ⟨dec, _, h1⟩ := Res_bind_eq_ok h
  simp only at h1
  split at h1
  · cases h1
  · injection h1 with h1
    subst h1
    rfl

theorem GenesisDocWrite_member_status {Address Time : Type} (c : Collab Address Time)
    (w : GenesisDocWrite Time) (k : String) (v : JSON) (w1 : GenesisDocWrite Time)
    (hp : w.CurrentEpoch.Status = 0) (h : GenesisDocWrite.member c w k v = .set w1) :
    w1.CurrentEpoch.Status = 0 := by
  unfold GenesisDocWrite.member at h
  split_ifs at h
  · obtain ⟨a, _, rfl⟩ := FieldRes.map_eq_set h
    exact hp
  · obtain ⟨a, _, rfl⟩ := FieldRes.map_eq_set h
    exact hp
  · obtain ⟨a, _, rfl⟩ := FieldRes.map_eq_set h
    exact hp
  · obtain ⟨a, _, rfl⟩ := FieldRes.map_eq_set h
    exact hp
  · obtain ⟨ep, hep, rfl⟩ := FieldRes.map_eq_set h
    cases hu : OneEpochDocWrite.UnmarshalJSON w.CurrentEpoch v with
    | ok ep2 =>
      rw [hu] at hep
      simp only [FieldRes.ofRes, FieldRes.set.injEq] at hep
      subst hep
      simp only
      rw [OneEpochDocWrite_status _ _ _ hu]
      exact hp
    | err e =>
      rw [hu] at hep
      simp [FieldRes.ofRes] at hep
  · injection h with h
    subst h
    exact hp

/-- C19. Every document `GenesisDocFromJSON` returns without error has epoch status 0,
whatever the input says under `status`; the epoch decoder leaves the status of its receiver as
it is; and the object the epoch encoder writes has the keys `number`, `reward_per_block`,
`start_block`, `end_block` and `validators`, and no `status` key. -/
theorem status_never_read {Address Time : Type} (c : Collab Address Time) :
    (∀ (jsonBlob : Blob) (genDoc : GenesisDoc Address Time),
      GenesisDocFromJSON c jsonBlob = .returned genDoc none → genDoc.CurrentEpoch.Status = 0)
    ∧ (∀ (ep ep1 : OneEpochDocWrite) (input : JSON),
      OneEpochDocWrite.UnmarshalJSON ep input = .ok ep1 → ep1.Status = ep.Status)
    ∧ (∀ (ep : OneEpochDocWrite) (j : JSON), OneEpochDocWrite.MarshalJSON ep = .ok j →
      ∃ kvs, j = .obj kvs
        ∧ kvs.map Prod.fst
          = ["number", "reward_per_block", "start_block", "end_block", "validators"]
        ∧ lastMember "status" kvs = none) := by
  refine ⟨?_, OneEpochDocWrite_status, ?_⟩
  · intro jsonBlob genDoc h
    unfold GenesisDocFromJSON at h
    split at h
    · cases h
    · cases h
    · rename_i w hw
      injection h with h1 _
      subst h1
      simp only [GenesisDocWrite.toDoc]
      cases jsonBlob with
      | invalid => cases hw
      | valid j =>
        cases j with
        | null => cases hw
        | obj kvs =>
          simp only [unmarshalGenesisDocWrite] at hw
          obtain ⟨w1, hw1, hw2⟩ := Res_bind_eq_ok hw
          simp only [Res.ok.injEq, Option.some.injEq] at hw2
          subst hw2
          exact unmarshalStruct_inv (GenesisDocWrite.member c) (fun w => w.CurrentEpoch.Status = 0)
            (fun d k v d1 hp hm => GenesisDocWrite_member_status c d k v d1 hp hm)
            (GenesisDocWrite.zero c) _ _ rfl hw1
        | bool b => cases hw
        | num n => cases hw
        | str s => cases hw
        | arr xs => cases hw
  · intro ep j h
    simp only [OneEpochDocWrite.MarshalJSON] at h
    obtain ⟨js, _, h1⟩ := Run_bind_eq_ok h
    simp only [Run.ok.injEq] at h1
    subst h1
    exact ⟨_, rfl, rfl, rfl⟩

/-- C19, at an input whose `current_epoch` gives 7 for `status`. -/
theorem status_never_read_witness :
    ∃ genDoc, GenesisDocFromJSON textCollab
        (.valid (.obj [("current_epoch", .obj [("status", .num "7"), ("validators", .arr [])])]))
          = .returned genDoc none
      ∧ genDoc.CurrentEpoch.Status = 0 :=
  ⟨emptyObjectDoc textCollab, by decide,
    (status_never_read textCollab).1
      (.valid (.obj [("current_epoch", .obj [("status", .num "7"), ("validators", .arr [])])]))
      (emptyObjectDoc textCollab) (by decide)⟩

/-! ### Agreement of two runs -/

theorem FieldRes_Rel_refl {α : Type} (R : α → α → Prop) (hR : ∀ a, R a a) (r : FieldRes α) :
    FieldRes.Rel R r r := by
  cases r with
  | set a => exact hR a
  | soft e => rfl
  | hard e => rfl

theorem FieldRes_Rel_map {α β γ δ : Type} {R : α → β → Prop} {S : γ → δ → Prop}
    {f : α → γ} {g : β → δ} {r1 : FieldRes α} {r2 : FieldRes β}
    (h : FieldRes.Rel R r1 r2) (hfg : ∀ a b, R a b → S (f a) (g b)) :
    FieldRes.Rel S (r1.map f) (r2.map g) := by
  cases r1 <;> cases r2 <;> simp only [FieldRes.Rel, FieldRes.map] at h ⊢
  · exact hfg _ _ h
  · exact h
  · exact h

theorem FieldRes_Rel_ofRes {α β : Type} {R : α → β → Prop} {r1 : Res α} {r2 : Res β}
    (h : Res.Rel R r1 r2) : FieldRes.Rel R (FieldRes.ofRes r1) (FieldRes.ofRes r2) := by
  cases r1 <;> cases r2 <;> simp only [Res.Rel, FieldRes.Rel, FieldRes.ofRes] at h ⊢
  · exact h
  · exact h

theorem decodeMembers_rel {σ τ : Type} (m1 : σ → String → JSON → FieldRes σ)
    (m2 : τ → String → JSON → FieldRes τ) (R : σ → τ → Prop)
    (M : String × JSON → String × JSON → Prop)
    (hstep : ∀ d1 d2 kv1 kv2, R d1 d2 → M kv1 kv2 →
      FieldRes.Rel R (m1 d1 kv1.1 kv1.2) (m2 d2 kv2.1 kv2.2))
    (kvs1 : List (String × JSON)) :
    ∀ (kvs2 : List (String × JSON)), List.Forall₂ M kvs1 kvs2 →
      ∀ (d1 : σ) (d2 : τ) (s : Option Err), R d1 d2 →
        Res.Rel (fun p q => R p.1 q.1 ∧ p.2 = q.2)
          (decodeMembers m1 d1 s kvs1) (decodeMembers m2 d2 s kvs2) := by
  induction kvs1 with
  | nil =>
    intro kvs2 hM d1 d2 s hR
    cases hM
    exact ⟨hR, rfl⟩
  | cons kv1 l1 ih =>
    intro kvs2 hM d1 d2 s hR
    cases hM with
    | cons hkv hrest =>
      rename_i kv2 l2
      have hs := hstep d1 d2 kv1 kv2 hR hkv
      obtain ⟨k1, v1⟩ := kv1
      obtain ⟨k2, v2⟩ := kv2
      simp only at hs
      simp only [decodeMembers]
      cases h1 : m1 d1 k1 v1 <;> cases h2 : m2 d2 k2 v2 <;> rw [h1, h2] at hs <;>
        simp only [FieldRes.Rel] at hs
      · exact ih _ hrest _ _ _ hs
      · subst hs
        exact ih _ hrest _ _ _ hR
      · subst hs
        rfl

theorem unmarshalStruct_rel {σ τ : Type} (m1 : σ → String → JSON → FieldRes σ)
    (m2 : τ → String → JSON → FieldRes τ) (R : σ → τ → Prop)
    (M : String × JSON → String × JSON → Prop)
    (hstep : ∀ d1 d2 kv1 kv2, R d1 d2 → M kv1 kv2 →
      FieldRes.Rel R (m1 d1 kv1.1 kv1.2) (m2 d2 kv2.1 kv2.2))
    (kvs1 kvs2 : List (String × JSON)) (hM : List.Forall₂ M kvs1 kvs2)
    (d1 : σ) (d2 : τ) (hR : R d1 d2) :
    Res.Rel R (unmarshalStruct m1 d1 (.obj kvs1)) (unmarshalStruct m2 d2 (.obj kvs2)) := by
  have h := decodeMembers_rel m1 m2 R M hstep kvs1 kvs2 hM d1 d2 none hR
  simp only [unmarshalStruct]
  cases h1 : decodeMembers m1 d1 none kvs1 with
  | ok p1 =>
    cases h2 : decodeMembers m2 d2 none kvs2 with
    | ok p2 =>
      rw [h1, h2] at h
      obtain ⟨a1, s1⟩ := p1
      obtain ⟨a2, s2⟩ := p2
      simp only [Res.Rel] at h
      obtain ⟨hr, hs⟩ := h
      subst hs
      cases s1 with
      | none => exact hr
      | some e => rfl
    | err e2 =>
      rw [h1, h2] at h
      exact h.elim
  | err e1 =>
    cases h2 : decodeMembers m2 d2 none kvs2 with
    | ok p2 =>
      rw [h1, h2] at h
      exact h.elim
    | err e2 =>
      rw [h1, h2] at h
      exact h

theorem sameKey_refl (p : String) : sameKey p p := ⟨rfl, Iff.rfl⟩

theorem decodeString_sameKey (p q : String) (v : JSON) (h : sameKey p q) :
    FieldRes.Rel sameKey (decodeString p v) (decodeString q v) := by
  cases v with
  | null => exact h
  | str s => exact sameKey_refl s
  | bool b => rfl
  | num n => rfl
  | arr xs => rfl
  | obj kvs => rfl

theorem hexValidator_member_rel {A B : Type} (addr1 : A → JSON → FieldRes A)
    (addr2 : B → JSON → FieldRes B) (RA : A → B → Prop)
    (d1 : hexValidator A) (d2 : hexValidator B) (k : String) (v1 v2 : JSON)
    (hR : hexValidator.Rel RA d1 d2)
    (haddr : fieldMatch "address" k = true →
      FieldRes.Rel RA (addr1 d1.Address v1) (addr2 d2.Address v2))
    (hkey : fieldMatch "pub_key" k = true →
      FieldRes.Rel sameKey (decodeString d1.PubKey v1) (decodeString d2.PubKey v2))
    (ham : fieldMatch "amount" k = true → decodeBigPtr v1 = decodeBigPtr v2)
    (hname : fieldMatch "name" k = true → v1 = v2)
    (hep : fieldMatch "epoch" k = true → decodeUint64 v1 = decodeUint64 v2) :
    FieldRes.Rel (hexValidator.Rel RA) (hexValidator.member addr1 d1 k v1)
      (hexValidator.member addr2 d2 k v2) := by
  obtain ⟨r1, r2, r3, r4, r5⟩ := hR
  unfold hexValidator.member
  split_ifs with h1 h2 h3 h4 h5
  · exact FieldRes_Rel_map (haddr h1) (fun a b hab => ⟨hab, r2, r3, r4, r5⟩)
  · exact FieldRes_Rel_map (hkey h2) (fun a b hab => ⟨r1, hab, r3, r4, r5⟩)
  · rw [ham h3]
    exact FieldRes_Rel_map (FieldRes_Rel_refl Eq (fun _ => rfl) _)
      (fun a b hab => ⟨r1, r2, hab, r4, r5⟩)
  · rw [hname h4, r4]
    exact FieldRes_Rel_map (FieldRes_Rel_refl Eq (fun _ => rfl) _)
      (fun a b hab => ⟨r1, r2, r3, hab, r5⟩)
  · rw [hep h5]
    exact FieldRes_Rel_map (FieldRes_Rel_refl Eq (fun _ => rfl) _)
      (fun a b hab => ⟨r1, r2, r3, r4, hab⟩)
  · exact ⟨r1, r2, r3, r4, r5⟩

theorem validator_finish_agree {Address Time : Type} (c : Collab Address Time)
    (gv : GenesisValidator Address) (gw : GenesisValidatorWrite) (j1 j2 : JSON)
    (h : Res.Rel (hexValidator.Rel fun _ _ => True) (GenesisValidator.decodeWire c j1)
      (GenesisValidatorWrite.decodeWire j2)) :
    Res.Rel sameValidator (GenesisValidator.UnmarshalJSON c gv j1)
      (GenesisValidatorWrite.UnmarshalJSON gw j2) := by
  unfold GenesisValidator.UnmarshalJSON GenesisValidatorWrite.UnmarshalJSON
  cases h1 : GenesisValidator.decodeWire c j1 with
  | err e1 =>
    cases h2 : GenesisValidatorWrite.decodeWire j2 with
    | err e2 => rw [h1, h2] at h; exact h
    | ok d2 => rw [h1, h2] at h; exact h.elim
  | ok d1 =>
    cases h2 : GenesisValidatorWrite.decodeWire j2 with
    | err e2 => rw [h1, h2] at h; exact h.elim
    | ok d2 =>
      rw [h1, h2] at h
      obtain ⟨_, ⟨hk1, hk2⟩, ham, hname, hep⟩ := h
      simp only [Res.bind]
      by_cases hb : d1.PubKey = "" ∨ (FromHex d1.PubKey).length ≠ 128
      · rw [if_pos hb, if_pos (hk2.mp hb)]
        rfl
      · rw [if_neg hb, if_neg (fun h => hb (hk2.mpr h))]
        rw [← ham]
        cases d1.Amount with
        | none => rfl
        | some a => exact ⟨by simp only [hk1], rfl, hname, hep⟩

theorem validatorWrite_finish_eq (gw : GenesisValidatorWrite) (j1 j2 : JSON)
    (h : Res.Rel (hexValidator.Rel Eq) (GenesisValidatorWrite.decodeWire j1)
      (GenesisValidatorWrite.decodeWire j2)) :
    GenesisValidatorWrite.UnmarshalJSON gw j1 = GenesisValidatorWrite.UnmarshalJSON gw j2 := by
  unfold GenesisValidatorWrite.UnmarshalJSON
  cases h1 : GenesisValidatorWrite.decodeWire j1 with
  | err e1 =>
    cases h2 : GenesisValidatorWrite.decodeWire j2 with
    | err e2 => rw [h1, h2] at h; simp only [Res.Rel] at h; rw [h]
    | ok d2 => rw [h1, h2] at h; exact h.elim
  | ok d1 =>
    cases h2 : GenesisValidatorWrite.decodeWire j2 with
    | err e2 => rw [h1, h2] at h; exact h.elim
    | ok d2 =>
      rw [h1, h2] at h
      obtain ⟨ha, ⟨hk1, hk2⟩, ham, hname, hep⟩ := h
      simp only [Res.bind]
      by_cases hb : d1.PubKey = "" ∨ (FromHex d1.PubKey).length ≠ 128
      · rw [if_pos hb, if_pos (hk2.mp hb)]
      · rw [if_neg hb, if_neg (fun h => hb (hk2.mpr h))]
        rw [← ham, ← hk1, ← hname, ← hep, ← ha]

theorem validator_decodeWire_agree {Address Time : Type} (c : Collab Address Time)
    (kvs : List (String × JSON)) (h : addressesParse c kvs) :
    Res.Rel (hexValidator.Rel fun _ _ => True) (GenesisValidator.decodeWire c (.obj kvs))
      (GenesisValidatorWrite.decodeWire (.obj kvs)) := by
  unfold GenesisValidator.decodeWire GenesisValidatorWrite.decodeWire
  refine unmarshalStruct_rel _ _ _
    (fun kv1 kv2 => kv1 = kv2 ∧ (fieldMatch "address" kv1.1 = true → addressParses c kv1.2))
    ?_ kvs kvs ?_ _ _ ⟨trivial, sameKey_refl _, rfl, rfl, rfl⟩
  · rintro d1 d2 ⟨k, v⟩ kv2 hR ⟨rfl, hp⟩
    simp only at hp
    refine hexValidator_member_rel _ _ _ d1 d2 k v v hR ?_ ?_ (fun _ => rfl) (fun _ => rfl)
      (fun _ => rfl)
    · intro hk
      obtain ⟨h1, h2⟩ := hp hk
      obtain ⟨a, ha⟩ := h1 d1.Address
      obtain ⟨s, hs⟩ := h2 d2.Address
      rw [ha, hs]
      trivial
    · intro _
      exact decodeString_sameKey _ _ _ hR.2.1
  · rw [List.forall₂_same]
    intro kv hkv
    exact ⟨rfl, h kv hkv⟩

theorem validator_codecs_agree_elem {Address Time : Type} (c : Collab Address Time)
    (gv : GenesisValidator Address) (gw : GenesisValidatorWrite) (x : JSON)
    (h : elementParses c x) :
    Res.Rel sameValidator (GenesisValidator.UnmarshalJSON c gv x)
      (GenesisValidatorWrite.UnmarshalJSON gw x) := by
  apply validator_finish_agree
  cases x with
  | obj kvs => exact validator_decodeWire_agree c kvs h
  | null => exact ⟨trivial, sameKey_refl _, rfl, rfl, rfl⟩
  | bool b => rfl
  | num n => rfl
  | str s => rfl
  | arr xs => rfl

theorem decodeElems_agree {α β : Type} (R : α → β → Prop) (e1 : JSON → Res α)
    (e2 : JSON → Res β) (xs : List JSON) (h : ∀ x ∈ xs, Res.Rel R (e1 x) (e2 x)) :
    Res.Rel (List.Forall₂ R) (decodeElems e1 xs) (decodeElems e2 xs) := by
  induction xs with
  | nil => exact List.Forall₂.nil
  | cons x rest ih =>
    have hx := h x (List.mem_cons_self _ _)
    have hr := ih (fun y hy => h y (List.mem_cons_of_mem _ hy))
    simp only [decodeElems]
    cases h1 : e1 x <;> cases h2 : e2 x <;> rw [h1, h2] at hx <;> simp only [Res.Rel] at hx
    · simp only [Res.bind]
      cases h3 : decodeElems e1 rest <;> cases h4 : decodeElems e2 rest <;>
        rw [h3, h4] at hr <;> simp only [Res.Rel] at hr
      · exact List.Forall₂.cons hx hr
      · exact hr
    · exact hx

theorem hexEpoch_member_rel {V W : Type} (e1 : JSON → Res V) (e2 : JSON → Res W)
    (RV : Option (List V) → Option (List W) → Prop)
    (d1 : hexEpoch V) (d2 : hexEpoch W) (k : String) (v1 v2 : JSON)
    (hR : hexEpoch.Rel RV d1 d2)
    (hnum : fieldMatch "number" k = true → decodeUint64 v1 = decodeUint64 v2)
    (hrpb : fieldMatch "reward_per_block" k = true → decodeBigPtr v1 = decodeBigPtr v2)
    (hsb : fieldMatch "start_block" k = true → decodeUint64 v1 = decodeUint64 v2)
    (heb : fieldMatch "end_block" k = true → decodeUint64 v1 = decodeUint64 v2)
    (hval : fieldMatch "validators" k = true →
      FieldRes.Rel RV (decodeSlice e1 v1) (decodeSlice e2 v2)) :
    FieldRes.Rel (hexEpoch.Rel RV) (hexEpoch.member e1 d1 k v1) (hexEpoch.member e2 d2 k v2) := by
  obtain ⟨r1, r2, r3, r4, r5⟩ := hR
  unfold hexEpoch.member
  split_ifs with h1 h2 h3 h4 h5
  · rw [hnum h1]
    exact FieldRes_Rel_map (FieldRes_Rel_refl Eq (fun _ => rfl) _)
      (fun a b hab => ⟨hab, r2, r3, r4, r5⟩)
  · rw [hrpb h2]
    exact FieldRes_Rel_map (FieldRes_Rel_refl Eq (fun _ => rfl) _)
      (fun a b hab => ⟨r1, hab, r3, r4, r5⟩)
  · rw [hsb h3]
    exact FieldRes_Rel_map (FieldRes_Rel_refl Eq (fun _ => rfl) _)
      (fun a b hab => ⟨r1, r2, hab, r4, r5⟩)
  · rw [heb h4]
    exact FieldRes_Rel_map (FieldRes_Rel_refl Eq (fun _ => rfl) _)
      (fun a b hab => ⟨r1, r2, r3, hab, r5⟩)
  · exact FieldRes_Rel_map (hval h5) (fun a b hab => ⟨r1, r2, r3, r4, hab⟩)
  · exact ⟨r1, r2, r3, r4, r5⟩

theorem decodeSlice_agree {α β : Type} (R : α → β → Prop) (e1 : JSON → Res α)
    (e2 : JSON → Res β) (RV : Option (List α) → Option (List β) → Prop)
    (hnone : RV none none) (hsome : ∀ l1 l2, List.Forall₂ R l1 l2 → RV (some l1) (some l2))
    (v : JSON) (h : ∀ xs, v = .arr xs → ∀ x ∈ xs, Res.Rel R (e1 x) (e2 x)) :
    FieldRes.Rel RV (decodeSlice e1 v) (decodeSlice e2 v) := by
  cases v with
  | null => exact hnone
  | arr xs =>
    have hr := decodeElems_agree R e1 e2 xs (h xs rfl)
    simp only [decodeSlice]
    cases h3 : decodeElems e1 xs <;> cases h4 : decodeElems e2 xs <;>
      rw [h3, h4] at hr <;> simp only [Res.Rel] at hr
    · exact hsome _ _ hr
    · exact hr
  | bool b => rfl
  | num n => rfl
  | str s => rfl
  | obj kvs => rfl

theorem epoch_decodeWire_agree {Address Time : Type} (c : Collab Address Time)
    (kvs : List (String × JSON)) (h : epochElementsParse c kvs) :
    Res.Rel (hexEpoch.Rel sameValidators) (OneEpochDoc.decodeWire c (.obj kvs))
      (OneEpochDocWrite.decodeWire (.obj kvs)) := by
  unfold OneEpochDoc.decodeWire OneEpochDocWrite.decodeWire
  refine unmarshalStruct_rel _ _ _
    (fun kv1 kv2 => kv1 = kv2 ∧ (fieldMatch "validators" kv1.1 = true →
      ∀ xs, kv1.2 = .arr xs → ∀ x ∈ xs, elementParses c x))
    ?_ kvs kvs ?_ _ _ ⟨rfl, rfl, rfl, rfl, trivial⟩
  · rintro d1 d2 ⟨k, v⟩ kv2 hR ⟨rfl, hp⟩
    simp only at hp
    refine hexEpoch_member_rel _ _ _ d1 d2 k v v hR (fun _ => rfl) (fun _ => rfl) (fun _ => rfl)
      (fun _ => rfl) ?_
    intro hk
    refine decodeSlice_agree sameValidator _ _ sameValidators trivial (fun _ _ hl => hl) v ?_
    intro xs hxs x hx
    exact validator_codecs_agree_elem c _ _ x (hp hk xs hxs x hx)
  · rw [List.forall₂_same]
    intro kv hkv
    exact ⟨rfl, h kv hkv⟩

/-- C20. The two parallel codecs agree. For every validator object whose `address` members
both decoders decode, `GenesisValidator.UnmarshalJSON` and `GenesisValidatorWrite.UnmarshalJSON`
both fail with the same error or both succeed with the same key, amount, name and counter. For
every epoch object whose validators have such addresses, `OneEpochDoc.UnmarshalJSON` and
`OneEpochDocWrite.UnmarshalJSON` both fail with the same error (so the check for missing
validators fires in both or in neither) or both succeed with the same number, reward per block,
start block and end block, and with validators that agree index by index. -/
theorem codecs_agree {Address Time : Type} (c : Collab Address Time) :
    (∀ (gv : GenesisValidator Address) (gw : GenesisValidatorWrite) (kvs : List (String × JSON)),
      addressesParse c kvs →
      Res.Rel sameValidator (GenesisValidator.UnmarshalJSON c gv (.obj kvs))
        (GenesisValidatorWrite.UnmarshalJSON gw (.obj kvs)))
    ∧ (∀ (ep : OneEpochDoc Address) (ew : OneEpochDocWrite) (kvs : List (String × JSON)),
      epochElementsParse c kvs →
      Res.Rel sameEpoch (OneEpochDoc.UnmarshalJSON c ep (.obj kvs))
        (OneEpochDocWrite.UnmarshalJSON ew (.obj kvs))) := by
  constructor
  · intro gv gw kvs h
    exact validator_codecs_agree_elem c gv gw (.obj kvs) h
  · intro ep ew kvs h
    have hr := epoch_decodeWire_agree c kvs h
    unfold OneEpochDoc.UnmarshalJSON OneEpochDocWrite.UnmarshalJSON
    cases h1 : OneEpochDoc.decodeWire c (.obj kvs) with
    | err e1 =>
      cases h2 : OneEpochDocWrite.decodeWire (.obj kvs) with
      | err e2 => rw [h1, h2] at hr; exact hr
      | ok d2 => rw [h1, h2] at hr; exact hr.elim
    | ok d1 =>
      cases h2 : OneEpochDocWrite.decodeWire (.obj kvs) with
      | err e2 => rw [h1, h2] at hr; exact hr.elim
      | ok d2 =>
        rw [h1, h2] at hr
        obtain ⟨r1, r2, r3, r4, r5⟩ := hr
        simp only [Res.bind]
        cases hv1 : d1.Validators with
        | none =>
          cases hv2 : d2.Validators with
          | none => rfl
          | some l2 => rw [hv1, hv2] at r5; exact r5.elim
        | some l1 =>
          cases hv2 : d2.Validators with
          | none => rw [hv1, hv2] at r5; exact r5.elim
          | some l2 =>
            rw [hv1, hv2] at r5
            exact ⟨r1, r2, r3, r4, r5⟩

/-! ### The `0x` prefix of a key -/

theorem goBytes_append (a b : String) : goBytes (a ++ b) = goBytes a ++ goBytes b := by
  simp [goBytes, String.data_append]

theorem FromHex_eq (s : String) : FromHex s = hexDecodePairs (padOdd (strip0x (goBytes s))) :=
  rfl

theorem strip0x_hexDigits (b : List Nat) (h : ∀ x ∈ b, (decodeNibble x).isSome = true) :
    strip0x b = b := by
  unfold strip0x
  split
  · rename_i rest
    exact absurd (h 120 (by simp)) (by decide)
  · rename_i rest
    exact absurd (h 88 (by simp)) (by decide)
  · rfl

theorem FromHex_0x (s : String) (hs : hexDigitString s) : FromHex ("0x" ++ s) = FromHex s := by
  have e : goBytes "0x" = [48, 120] := by decide
  rw [FromHex_eq, FromHex_eq, goBytes_append, e, strip0x_hexDigits _ hs]
  rfl

theorem sameKey_0x (s : String) (hs : hexDigitString s) : sameKey ("0x" ++ s) s := by
  refine ⟨FromHex_0x s hs, ?_⟩
  rw [FromHex_0x s hs]
  constructor
  · rintro (h | h)
    · have := congrArg String.length h
      simp only [String.length_append] at this
      have e : "0x".length = 2 := by decide
      rw [e] at this
      have e0 : "".length = 0 := by decide
      rw [e0] at this
      omega
    · exact Or.inr h
  · rintro (h | h)
    · subst h
      right
      decide
    · exact Or.inr h

theorem lastMember_append_of_none (name : String) (k : String) (v : JSON)
    (hk : fieldMatch name k = true) (post : List (String × JSON))
    (hpost : lastMember name post = none) (pre : List (String × JSON)) :
    lastMember name (pre ++ (k, v) :: post) = some v := by
  induction pre with
  | nil => simp only [List.nil_append, lastMember, hpost, hk, if_true]
  | cons kv rest ih =>
    obtain ⟨k1, v1⟩ := kv
    show (match lastMember name (rest ++ (k, v) :: post) with
      | some w => some w
      | none => if fieldMatch name k1 then some v1 else none) = some v
    rw [ih]

theorem validatorWrite_decodeWire_0x (s : String) (hs : hexDigitString s) (k : String)
    (hk : fieldMatch "pub_key" k = true) (pre post : List (String × JSON)) :
    Res.Rel (hexValidator.Rel Eq)
      (GenesisValidatorWrite.decodeWire (.obj (pre ++ (k, .str ("0x" ++ s)) :: post)))
      (GenesisValidatorWrite.decodeWire (.obj (pre ++ (k, .str s) :: post))) := by
  unfold GenesisValidatorWrite.decodeWire
  refine unmarshalStruct_rel _ _ _
    (fun kv1 kv2 => kv1 = kv2 ∨ (kv1 = (k, .str ("0x" ++ s)) ∧ kv2 = (k, .str s)))
    ?_ _ _ ?_ _ _ ⟨rfl, sameKey_refl _, rfl, rfl, rfl⟩
  · rintro d1 d2 ⟨k1, v1⟩ ⟨k2, v2⟩ hR (h | ⟨h1, h2⟩)
    · injection h with hk1 hv1
      subst hk1 hv1
      refine hexValidator_member_rel _ _ _ d1 d2 k1 v1 v1 hR ?_ ?_ (fun _ => rfl) (fun _ => rfl)
        (fun _ => rfl)
      · intro _
        rw [hR.1]
        exact FieldRes_Rel_refl Eq (fun _ => rfl) _
      · intro _
        exact decodeString_sameKey _ _ _ hR.2.1
    · injection h1 with hk1 hv1
      injection h2 with hk2 hv2
      subst hk1 hv1 hk2 hv2
      refine hexValidator_member_rel _ _ _ d1 d2 _ _ _ hR ?_ ?_ ?_ ?_ ?_
      · intro ha
        rw [fieldMatch_other (by decide) hk] at ha
        cases ha
      · intro _
        exact sameKey_0x s hs
      · intro ha
        rw [fieldMatch_other (by decide) hk] at ha
        cases ha
      · intro ha
        rw [fieldMatch_other (by decide) hk] at ha
        cases ha
      · intro ha
        rw [fieldMatch_other (by decide) hk] at ha
        cases ha
  · apply List.rel_append
    · rw [List.forall₂_same]
      intro kv _
      exact Or.inl rfl
    · refine List.Forall₂.cons (Or.inr ⟨rfl, rfl⟩) ?_
      rw [List.forall₂_same]
      intro kv _
      exact Or.inl rfl

/-- C14. For every string `s` of hexadecimal digits and every validator object,
`GenesisValidatorWrite.UnmarshalJSON` gives the same outcome (the same error, or the same
validator) when the object gives `0x` followed by `s` for `pub_key` as when it gives `s`; when
`s` is empty and no later member gives `pub_key`, that outcome is an error. -/
theorem prefix_tolerated (gv : GenesisValidatorWrite) (s : String) (hs : hexDigitString s)
    (k : String) (hk : fieldMatch "pub_key" k = true) (pre post : List (String × JSON)) :
    GenesisValidatorWrite.UnmarshalJSON gv (.obj (pre ++ (k, .str ("0x" ++ s)) :: post))
        = GenesisValidatorWrite.UnmarshalJSON gv (.obj (pre ++ (k, .str s) :: post))
      ∧ (s = "" → lastMember "pub_key" post = none →
          ∃ e, GenesisValidatorWrite.UnmarshalJSON gv (.obj (pre ++ (k, .str s) :: post))
            = .err e) := by
  refine ⟨validatorWrite_finish_eq gv _ _ (validatorWrite_decodeWire_0x s hs k hk pre post), ?_⟩
  intro hempty hpost
  subst hempty
  cases hdec : GenesisValidatorWrite.decodeWire (.obj (pre ++ (k, .str "") :: post)) with
  | err e => exact ⟨e, by simp only [GenesisValidatorWrite.UnmarshalJSON, hdec, Res.bind]⟩
  | ok dec =>
    obtain ⟨_, hpk, _, _, _⟩ := hexValidator_run decodeString "" _ dec hdec
    have hl := lastMember_append_of_none "pub_key" k (.str "") hk post hpost pre
    have hd := stringField_last hpk hl
    refine ⟨.new "wrong format of required field 'pub_key' for Genesis/epoch/validators", ?_⟩
    simp only [GenesisValidatorWrite.UnmarshalJSON, hdec, Res.bind, hd, true_or, if_true]

theorem sampleValidatorMembers_parse : addressesParse textCollab sampleValidatorMembers := by
  intro kv hkv hk
  simp only [sampleValidatorMembers, List.mem_cons, List.mem_singleton, List.not_mem_nil,
    or_false] at hkv
  rcases hkv with h | h | h
  · subst h
    exact ⟨fun _ => ⟨_, rfl⟩, fun _ => ⟨_, rfl⟩⟩
  · subst h
    exact absurd hk (by decide)
  · subst h
    exact absurd hk (by decide)

/-- C20, at a validator object and at an epoch object that holds it. -/
theorem codecs_agree_witness :
    Res.Rel sameValidator
        (GenesisValidator.UnmarshalJSON textCollab (GenesisValidator.zero textCollab)
          (.obj sampleValidatorMembers))
        (GenesisValidatorWrite.UnmarshalJSON GenesisValidatorWrite.zero
          (.obj sampleValidatorMembers))
      ∧ Res.Rel sameEpoch
        (OneEpochDoc.UnmarshalJSON textCollab OneEpochDoc.zero
          (.obj [("number", .str "0x1"), ("validators", .arr [.obj sampleValidatorMembers])]))
        (OneEpochDocWrite.UnmarshalJSON OneEpochDocWrite.zero
          (.obj [("number", .str "0x1"), ("validators", .arr [.obj sampleValidatorMembers])])) :=
  ⟨(codecs_agree textCollab).1 _ _ sampleValidatorMembers sampleValidatorMembers_parse,
   (codecs_agree textCollab).2 _ _ _ (by
    intro kv hkv hk xs hxs x hx
    simp only [List.mem_cons, List.mem_singleton, List.not_mem_nil, or_false] at hkv
    rcases hkv with h | h
    · subst h
      exact absurd hk (by decide)
    · subst h
      simp only [JSON.arr.injEq] at hxs
      subst hxs
      simp only [List.mem_singleton] at hx
      subst hx
      exact sampleValidatorMembers_parse)⟩

/-- C14, at the 256 digits of a key of 128 bytes. -/
theorem prefix_tolerated_witness :
    GenesisValidatorWrite.UnmarshalJSON GenesisValidatorWrite.zero
        (.obj ([("address", .str "INT3D5XkATYcApJ8xXqQe1z5K35jj2Tf")]
          ++ ("pub_key", .str ("0x" ++ sampleKeyDigits)) :: [("amount", .str "0x1")]))
      = GenesisValidatorWrite.UnmarshalJSON GenesisValidatorWrite.zero
        (.obj ([("address", .str "INT3D5XkATYcApJ8xXqQe1z5K35jj2Tf")]
          ++ ("pub_key", .str sampleKeyDigits) :: [("amount", .str "0x1")])) :=
  (prefix_tolerated GenesisValidatorWrite.zero sampleKeyDigits (by unfold hexDigitString; decide)
    "pub_key" (by decide)
    [("address", .str "INT3D5XkATYcApJ8xXqQe1z5K35jj2Tf")] [("amount", .str "0x1")]).1

/-! ### A key with characters that are no digits -/

/-- C15. A `pub_key` that has a character that is no hex digit is not always rejected. For the
key of 256 valid hex digits followed by `zz`, `GenesisValidatorWrite.UnmarshalJSON` and
`GenesisValidator.UnmarshalJSON` both return no error and store the first 128 bytes as the key:
`FromHex` gives the bytes decoded before the first bad pair and no error, and line 400 only
looks at the length. A bad digit in `amount` is a decode failure. -/
theorem garbage_suffix_key_accepted :
    GenesisValidatorWrite.UnmarshalJSON GenesisValidatorWrite.zero (.obj garbageKeyMembers)
        = .ok { EthAccount := "INT3D5XkATYcApJ8xXqQe1z5K35jj2Tf",
                PubKey := .bls (FromHex sampleKeyHex), Amount := some 1, Name := "",
                RemainingEpoch := 0 }
      ∧ (FromHex sampleKeyHex).length = 128
      ∧ GenesisValidator.UnmarshalJSON textCollab (GenesisValidator.zero textCollab)
          (.obj garbageKeyMembers)
        = .ok { EthAccount := "INT3D5XkATYcApJ8xXqQe1z5K35jj2Tf",
                PubKey := .bls (FromHex sampleKeyHex), Amount := some 1, Name := "",
                RemainingEpoch := 0 }
      ∧ GenesisValidatorWrite.UnmarshalJSON GenesisValidatorWrite.zero (.obj garbageAmountMembers)
        = .err .badDigit := by
  refine ⟨?_, ?_, ?_, ?_⟩ <;> decide

/-! ### The case of hexadecimal letters -/

theorem sameHexByte_cases {x y : Nat} (h : sameHexByte x y) :
    decodeNibble x = decodeNibble y ∧ (x = 48 ↔ y = 48) ∧ (x = 120 ↔ y = 120)
      ∧ (x = 88 ↔ y = 88) := by
  rcases h with h | h | h
  · subst h
    exact ⟨rfl, Iff.rfl, Iff.rfl, Iff.rfl⟩
  · simp only [hexLetterBytes, List.mem_cons, Prod.mk.injEq, List.mem_singleton,
      List.not_mem_nil, or_false] at h
    rcases h with ⟨rfl, rfl⟩ | ⟨rfl, rfl⟩ | ⟨rfl, rfl⟩ | ⟨rfl, rfl⟩ | ⟨rfl, rfl⟩ | ⟨rfl, rfl⟩ <;>
      decide
  · simp only [hexLetterBytes, List.mem_cons, Prod.mk.injEq, List.mem_singleton,
      List.not_mem_nil, or_false] at h
    rcases h with ⟨rfl, rfl⟩ | ⟨rfl, rfl⟩ | ⟨rfl, rfl⟩ | ⟨rfl, rfl⟩ | ⟨rfl, rfl⟩ | ⟨rfl, rfl⟩ <;>
      decide

theorem sameHexByte_refl (x : Nat) : sameHexByte x x := Or.inl rfl

theorem utf8Bytes_sameHexChar {a b : Char} (h : sameHexChar a b) :
    List.Forall₂ sameHexByte (utf8Bytes a) (utf8Bytes b) := by
  rcases h with h | h | h
  · subst h
    rw [List.forall₂_same]
    exact fun x _ => sameHexByte_refl x
  · simp only [hexLetterPairs, List.mem_cons, Prod.mk.injEq, List.mem_singleton,
      List.not_mem_nil, or_false] at h
    rcases h with ⟨rfl, rfl⟩ | ⟨rfl, rfl⟩ | ⟨rfl, rfl⟩ | ⟨rfl, rfl⟩ | ⟨rfl, rfl⟩ | ⟨rfl, rfl⟩ <;>
      exact List.Forall₂.cons (Or.inr (Or.inl (by decide))) List.Forall₂.nil
  · simp only [hexLetterPairs, List.mem_cons, Prod.mk.injEq, List.mem_singleton,
      List.not_mem_nil, or_false] at h
    rcases h with ⟨rfl, rfl⟩ | ⟨rfl, rfl⟩ | ⟨rfl, rfl⟩ | ⟨rfl, rfl⟩ | ⟨rfl, rfl⟩ | ⟨rfl, rfl⟩ <;>
      exact List.Forall₂.cons (Or.inr (Or.inr (by decide))) List.Forall₂.nil

theorem flatten_utf8_same {cs ds : List Char} (h : List.Forall₂ sameHexChar cs ds) :
    List.Forall₂ sameHexByte (cs.map utf8Bytes).flatten (ds.map utf8Bytes).flatten := by
  induction h with
  | nil => exact List.Forall₂.nil
  | cons hab _ ih =>
    simp only [List.map_cons, List.flatten_cons]
    exact List.rel_append (utf8Bytes_sameHexChar hab) ih

theorem goBytes_caseVariant {s t : String} (h : caseVariant s t) :
    List.Forall₂ sameHexByte (goBytes s) (goBytes t) :=
  flatten_utf8_same h

theorem decodeNibbles_same {xs ys : List Nat} (h : List.Forall₂ sameHexByte xs ys) :
    ∀ acc, decodeNibbles xs acc = decodeNibbles ys acc := by
  induction h with
  | nil => intro acc; rfl
  | cons hab _ ih =>
    intro acc
    simp only [decodeNibbles, (sameHexByte_cases hab).1]
    split
    · exact ih _
    · rfl

theorem hexDecodePairs_same (n : Nat) :
    ∀ xs ys : List Nat, xs.length ≤ n → List.Forall₂ sameHexByte xs ys →
      hexDecodePairs xs = hexDecodePairs ys := by
  induction n with
  | zero =>
    intro xs ys hn h
    cases h with
    | nil => rfl
    | cons _ _ => simp at hn
  | succ n ih =>
    intro xs ys hn h
    cases h with
    | nil => rfl
    | cons hab hrest =>
      cases hrest with
      | nil => rfl
      | cons hcd hrest2 =>
        simp only [hexDecodePairs, (sameHexByte_cases hab).1, (sameHexByte_cases hcd).1]
        simp only [List.length_cons] at hn
        rw [ih _ _ (by omega) hrest2]

theorem strip0x_cons_cons (a b : Nat) (rest : List Nat) :
    strip0x (a :: b :: rest)
      = if a = 48 ∧ (b = 120 ∨ b = 88) then rest else a :: b :: rest := by
  unfold strip0x
  split
  · rename_i h
    simp only [List.cons.injEq] at h
    obtain ⟨rfl, rfl, rfl⟩ := h
    simp
  · rename_i h
    simp only [List.cons.injEq] at h
    obtain ⟨rfl, rfl, rfl⟩ := h
    simp
  · rename_i h1 h2
    by_cases hc : a = 48 ∧ (b = 120 ∨ b = 88)
    · obtain ⟨rfl, rfl | rfl⟩ := hc
      · exact absurd rfl (h1 rest)
      · exact absurd rfl (h2 rest)
    · rw [if_neg hc]

theorem strip0x_single (a : Nat) : strip0x [a] = [a] := by
  unfold strip0x
  split
  · rename_i h
    simp at h
  · rename_i h
    simp at h
  · rfl

theorem same_0x_test {a b c d : Nat} (hab : sameHexByte a b) (hcd : sameHexByte c d) :
    (a = 48 ∧ (c = 120 ∨ c = 88)) ↔ (b = 48 ∧ (d = 120 ∨ d = 88)) := by
  obtain ⟨_, a48, _, _⟩ := sameHexByte_cases hab
  obtain ⟨_, _, c120, c88⟩ := sameHexByte_cases hcd
  rw [a48, c120, c88]

theorem strip0x_same {xs ys : List Nat} (h : List.Forall₂ sameHexByte xs ys) :
    List.Forall₂ sameHexByte (strip0x xs) (strip0x ys) := by
  cases h with
  | nil => exact List.Forall₂.nil
  | cons hab hrest =>
    cases hrest with
    | nil =>
      rw [strip0x_single, strip0x_single]
      exact List.Forall₂.cons hab List.Forall₂.nil
    | cons hcd hrest2 =>
      rw [strip0x_cons_cons, strip0x_cons_cons]
      have e := same_0x_test hab hcd
      split
      · rename_i hc
        rw [if_pos (e.mp hc)]
        exact hrest2
      · rename_i hc
        rw [if_neg (fun h => hc (e.mpr h))]
        exact List.Forall₂.cons hab (List.Forall₂.cons hcd hrest2)

theorem padOdd_same {xs ys : List Nat} (h : List.Forall₂ sameHexByte xs ys) :
    List.Forall₂ sameHexByte (padOdd xs) (padOdd ys) := by
  unfold padOdd
  rw [h.length_eq]
  split
  · exact List.Forall₂.cons (sameHexByte_refl 48) h
  · exact h

theorem FromHex_caseVariant {s t : String} (h : caseVariant s t) : FromHex s = FromHex t := by
  rw [FromHex_eq, FromHex_eq]
  exact hexDecodePairs_same _ _ _ (Nat.le_refl _)
    (padOdd_same (strip0x_same (goBytes_caseVariant h)))

theorem caseVariant_empty {s t : String} (h : caseVariant s t) : s = "" ↔ t = "" := by
  unfold caseVariant at h
  constructor
  · intro hs
    subst hs
    have := h.length_eq
    apply String.ext
    exact List.eq_nil_of_length_eq_zero (by rw [← this]; rfl)
  · intro ht
    subst ht
    have := h.length_eq
    apply String.ext
    exact List.eq_nil_of_length_eq_zero (by rw [this]; rfl)

theorem sameKey_caseVariant {s t : String} (h : caseVariant s t) : sameKey s t := by
  refine ⟨FromHex_caseVariant h, ?_⟩
  rw [FromHex_caseVariant h, caseVariant_empty h]

theorem checkNumberText_cons_cons (a b : Nat) (raw : List Nat) :
    checkNumberText (a :: b :: raw)
      = if a = 48 ∧ (b = 120 ∨ b = 88) then checkDigits raw else .err .missing0x := by
  unfold checkNumberText
  split
  · rename_i h
    cases h
  · rename_i raw1 h
    simp only [List.cons.injEq] at h
    obtain ⟨rfl, rfl, rfl⟩ := h
    simp only [true_and, true_or, if_true]
    rfl
  · rename_i raw1 h
    simp only [List.cons.injEq] at h
    obtain ⟨rfl, rfl, rfl⟩ := h
    simp only [true_and, or_true, if_true]
    rfl
  · rename_i h1 h2 h3
    by_cases hc : a = 48 ∧ (b = 120 ∨ b = 88)
    · obtain ⟨rfl, rfl | rfl⟩ := hc
      · exact absurd rfl (h2 raw)
      · exact absurd rfl (h3 raw)
    · rw [if_neg hc]

theorem checkDigits_same {xs ys : List Nat} (h : List.Forall₂ sameHexByte xs ys) :
    Res.Rel (List.Forall₂ sameHexByte) (checkDigits xs) (checkDigits ys) := by
  cases h with
  | nil => rfl
  | cons hab hrest =>
    cases hrest with
    | nil => exact List.Forall₂.cons hab List.Forall₂.nil
    | cons hcd hrest2 =>
      simp only [checkDigits]
      have e := (sameHexByte_cases hab).2.1
      split
      · rename_i hc
        rw [if_pos (e.mp hc)]
        rfl
      · rename_i hc
        rw [if_neg (fun h => hc (e.mpr h))]
        exact List.Forall₂.cons hab (List.Forall₂.cons hcd hrest2)

theorem checkNumberText_single (a : Nat) : checkNumberText [a] = .err .missing0x := by
  unfold checkNumberText
  split
  · rename_i h
    simp at h
  · rename_i h
    simp at h
  · rename_i h
    simp at h
  · rfl

theorem checkNumberText_same {xs ys : List Nat} (h : List.Forall₂ sameHexByte xs ys) :
    Res.Rel (List.Forall₂ sameHexByte) (checkNumberText xs) (checkNumberText ys) := by
  cases h with
  | nil => exact List.Forall₂.nil
  | cons hab hrest =>
    cases hrest with
    | nil =>
      rw [checkNumberText_single, checkNumberText_single]
      rfl
    | cons hcd hrest2 =>
      rw [checkNumberText_cons_cons, checkNumberText_cons_cons]
      have e := same_0x_test hab hcd
      split
      · rename_i hc
        rw [if_pos (e.mp hc)]
        exact checkDigits_same hrest2
      · rename_i hc
        rw [if_neg (fun h => hc (e.mpr h))]
        rfl

theorem decodeBigText_caseVariant {s t : String} (h : caseVariant s t) :
    decodeBigText s = decodeBigText t := by
  have hc := checkNumberText_same (goBytes_caseVariant h)
  unfold decodeBigText
  cases h1 : checkNumberText (goBytes s) <;> cases h2 : checkNumberText (goBytes t) <;>
    rw [h1, h2] at hc <;> simp only [Res.Rel] at hc
  · simp only [Res.bind, decodeNibbles_same hc]
  · rw [hc]

theorem decodeUint64Text_caseVariant {s t : String} (h : caseVariant s t) :
    decodeUint64Text s = decodeUint64Text t := by
  have hc := checkNumberText_same (goBytes_caseVariant h)
  unfold decodeUint64Text
  cases h1 : checkNumberText (goBytes s) <;> cases h2 : checkNumberText (goBytes t) <;>
    rw [h1, h2] at hc <;> simp only [Res.Rel] at hc
  · simp only [Res.bind, decodeNibbles_same hc, hc.length_eq]
  · rw [hc]

theorem decodeBigPtr_variant {v1 v2 : JSON} (h : HexVariant v1 v2) :
    decodeBigPtr v1 = decodeBigPtr v2 := by
  cases h with
  | same => rfl
  | str s t hc => simp only [decodeBigPtr, decodeBigText_caseVariant hc]

theorem decodeUint64_variant {v1 v2 : JSON} (h : HexVariant v1 v2) :
    decodeUint64 v1 = decodeUint64 v2 := by
  cases h with
  | same => rfl
  | str s t hc => simp only [decodeUint64, decodeUint64Text_caseVariant hc]

theorem decodeString_variant {v1 v2 : JSON} (h : HexVariant v1 v2) (p q : String)
    (hpq : sameKey p q) : FieldRes.Rel sameKey (decodeString p v1) (decodeString q v2) := by
  cases h with
  | same => exact decodeString_sameKey p q _ hpq
  | str s t hc => exact sameKey_caseVariant hc

theorem decodeMembers_congr {σ : Type} (m : σ → String → JSON → FieldRes σ)
    (M : String × JSON → String × JSON → Prop)
    (hstep : ∀ d kv1 kv2, M kv1 kv2 → m d kv1.1 kv1.2 = m d kv2.1 kv2.2)
    {kvs1 kvs2 : List (String × JSON)} (hM : List.Forall₂ M kvs1 kvs2) :
    ∀ (d : σ) (s : Option Err), decodeMembers m d s kvs1 = decodeMembers m d s kvs2 := by
  induction kvs1 generalizing kvs2 with
  | nil => cases hM; intro d s; rfl
  | cons kv1 l1 ih =>
    cases hM with
    | cons hkv hl =>
      rename_i kv2 l2
      intro d s
      obtain ⟨k1, v1⟩ := kv1
      obtain ⟨k2, v2⟩ := kv2
      have := hstep d _ _ hkv
      simp only at this
      simp only [decodeMembers, this]
      split
      · exact ih hl _ _
      · exact ih hl _ _
      · rfl

theorem unmarshalStruct_congr {σ : Type} (m : σ → String → JSON → FieldRes σ)
    (M : String × JSON → String × JSON → Prop)
    (hstep : ∀ d kv1 kv2, M kv1 kv2 → m d kv1.1 kv1.2 = m d kv2.1 kv2.2)
    {kvs1 kvs2 : List (String × JSON)} (hM : List.Forall₂ M kvs1 kvs2) (d : σ) :
    unmarshalStruct m d (.obj kvs1) = unmarshalStruct m d (.obj kvs2) := by
  simp only [unmarshalStruct, decodeMembers_congr m M hstep hM d none]

theorem decodeSlice_variant {α : Type} (e : JSON → Res α) {v1 v2 : JSON}
    (h : HexVariant v1 v2) : decodeSlice e v1 = decodeSlice e v2 := by
  cases h with
  | same => rfl
  | str s t hc => rfl

theorem validatorWrite_variant (gw : GenesisValidatorWrite) {x y : JSON}
    (h : ValidatorVariant x y) :
    GenesisValidatorWrite.UnmarshalJSON gw x = GenesisValidatorWrite.UnmarshalJSON gw y := by
  cases h with
  | same => rfl
  | obj kvs1 kvs2 hM =>
    apply validatorWrite_finish_eq
    unfold GenesisValidatorWrite.decodeWire
    refine unmarshalStruct_rel _ _ (hexValidator.Rel Eq) ValidatorMemberVariant ?_ kvs1 kvs2 hM
      _ _ ⟨rfl, sameKey_refl _, rfl, rfl, rfl⟩
    intro d1 d2 kv1 kv2 hR hkv
    cases hkv with
    | same =>
      refine hexValidator_member_rel _ _ _ d1 d2 kv1.1 kv1.2 kv1.2 hR ?_ ?_ (fun _ => rfl)
        (fun _ => rfl) (fun _ => rfl)
      · intro _
        rw [hR.1]
        exact FieldRes_Rel_refl Eq (fun _ => rfl) _
      · intro _
        exact decodeString_sameKey _ _ _ hR.2.1
    | hex k v1 v2 hk hv =>
      refine hexValidator_member_rel _ _ _ d1 d2 k v1 v2 hR ?_ ?_ ?_ ?_ ?_
      · intro ha
        have h1 : fieldMatch "pub_key" k = false := fieldMatch_other (by decide) ha
        have h2 : fieldMatch "amount" k = false := fieldMatch_other (by decide) ha
        have h3 : fieldMatch "epoch" k = false := fieldMatch_other (by decide) ha
        rw [h1, h2, h3] at hk
        simp at hk
      · intro _
        exact decodeString_variant hv _ _ hR.2.1
      · intro _
        exact decodeBigPtr_variant hv
      · intro ha
        have h1 : fieldMatch "pub_key" k = false := fieldMatch_other (by decide) ha
        have h2 : fieldMatch "amount" k = false := fieldMatch_other (by decide) ha
        have h3 : fieldMatch "epoch" k = false := fieldMatch_other (by decide) ha
        rw [h1, h2, h3] at hk
        simp at hk
      · intro _
        exact decodeUint64_variant hv

theorem decodeElems_variant {xs ys : List JSON} (h : List.Forall₂ ValidatorVariant xs ys) :
    decodeElems (GenesisValidatorWrite.UnmarshalJSON GenesisValidatorWrite.zero) xs
      = decodeElems (GenesisValidatorWrite.UnmarshalJSON GenesisValidatorWrite.zero) ys := by
  induction xs generalizing ys with
  | nil => cases h; rfl
  | cons x l ih =>
    cases h with
    | cons hx hl =>
      simp only [decodeElems, validatorWrite_variant _ hx, ih hl]

theorem hexEpoch_member_variant (d : hexEpoch GenesisValidatorWrite) (kv1 kv2 : String × JSON)
    (h : EpochMemberVariant kv1 kv2) :
    hexEpoch.member (GenesisValidatorWrite.UnmarshalJSON GenesisValidatorWrite.zero) d kv1.1 kv1.2
      = hexEpoch.member (GenesisValidatorWrite.UnmarshalJSON GenesisValidatorWrite.zero) d
          kv2.1 kv2.2 := by
  cases h with
  | same => rfl
  | hex k v1 v2 hk hv =>
    simp only [hexEpoch.member, decodeUint64_variant hv, decodeBigPtr_variant hv,
      decodeSlice_variant _ hv]
  | validators k xs ys hk h =>
    simp only [hexEpoch.member, decodeSlice, decodeUint64, decodeBigPtr, decodeElems_variant h]

theorem epochWrite_variant (ew : OneEpochDocWrite) {x y : JSON} (h : EpochVariant x y) :
    OneEpochDocWrite.UnmarshalJSON ew x = OneEpochDocWrite.UnmarshalJSON ew y := by
  cases h with
  | same => rfl
  | obj kvs1 kvs2 hM =>
    simp only [OneEpochDocWrite.UnmarshalJSON, OneEpochDocWrite.decodeWire,
      unmarshalStruct_congr _ EpochMemberVariant hexEpoch_member_variant hM]

theorem hexRewardScheme_member_variant (d : hexRewardScheme) (kv1 kv2 : String × JSON)
    (h : RewardMemberVariant kv1 kv2) :
    hexRewardScheme.member d kv1.1 kv1.2 = hexRewardScheme.member d kv2.1 kv2.2 := by
  cases h with
  | same => rfl
  | hex k v1 v2 hk hv =>
    simp only [hexRewardScheme.member, decodeUint64_variant hv, decodeBigPtr_variant hv]

theorem rewardScheme_variant (rs : RewardSchemeDoc) {x y : JSON} (h : RewardVariant x y) :
    RewardSchemeDoc.UnmarshalJSON rs x = RewardSchemeDoc.UnmarshalJSON rs y := by
  cases h with
  | same => rfl
  | obj kvs1 kvs2 hM =>
    simp only [RewardSchemeDoc.UnmarshalJSON, RewardSchemeDoc.decodeWire,
      unmarshalStruct_congr _ RewardMemberVariant hexRewardScheme_member_variant hM]

theorem GenesisDocWrite_member_variant {Address Time : Type} (c : Collab Address Time)
    (w : GenesisDocWrite Time) (kv1 kv2 : String × JSON) (h : GenesisMemberVariant kv1 kv2) :
    GenesisDocWrite.member c w kv1.1 kv1.2 = GenesisDocWrite.member c w kv2.1 kv2.2 := by
  cases h with
  | same => rfl
  | reward k v1 v2 hk hv =>
    have h1 : fieldMatch "chain_id" k = false := fieldMatch_other (by decide) hk
    have h2 : fieldMatch "consensus" k = false := fieldMatch_other (by decide) hk
    have h3 : fieldMatch "genesis_time" k = false := fieldMatch_other (by decide) hk
    simp only [GenesisDocWrite.member, h1, h2, h3, hk, rewardScheme_variant _ hv,
      Bool.false_eq_true, if_false, if_true]
  | epoch k v1 v2 hk hv =>
    have h1 : fieldMatch "chain_id" k = false := fieldMatch_other (by decide) hk
    have h2 : fieldMatch "consensus" k = false := fieldMatch_other (by decide) hk
    have h3 : fieldMatch "genesis_time" k = false := fieldMatch_other (by decide) hk
    have h4 : fieldMatch "reward_scheme" k = false := fieldMatch_other (by decide) hk
    simp only [GenesisDocWrite.member, h1, h2, h3, h4, hk, epochWrite_variant _ hv,
      Bool.false_eq_true, if_false, if_true]

/-- C16. Hex input is case-insensitive. When the genesis value `j2` is `j1` with the case of
hexadecimal letters changed in hex-encoded fields (`pub_key`, `amount`, `epoch` of a validator;
`number`, `reward_per_block`, `start_block`, `end_block` of the epoch; the four fields of the
reward scheme), `GenesisDocFromJSON` has the same outcome on both: the same error, or the same
document. -/
theorem hex_case_insensitive {Address Time : Type} (c : Collab Address Time) (j1 j2 : JSON)
    (h : GenesisVariant j1 j2) :
    GenesisDocFromJSON c (.valid j1) = GenesisDocFromJSON c (.valid j2) := by
  cases h with
  | same => rfl
  | obj kvs1 kvs2 hM =>
    simp only [GenesisDocFromJSON, unmarshalGenesisDocWrite,
      unmarshalStruct_congr _ GenesisMemberVariant (GenesisDocWrite_member_variant c) hM]

theorem caseVariant_of_zip (s t : String) (hl : s.data.length = t.data.length)
    (h : ∀ p ∈ s.data.zip t.data, sameHexChar p.1 p.2) : caseVariant s t := by
  unfold caseVariant
  rw [List.forall₂_iff_zip]
  exact ⟨hl, fun {a b} hab => h (a, b) hab⟩

theorem otherCase_variant : GenesisVariant MainnetGenesisJSON otherCaseGenesisJSON := by
  unfold MainnetGenesisJSON otherCaseGenesisJSON
  refine .obj _ _ (.cons (.same _) (.cons (.same _) (.cons (.same _) (.cons ?_ (.cons ?_ .nil)))))
  · refine .reward _ _ _ (by decide) (.obj _ _ ?_)
    refine .cons ?_ (.cons ?_ (.cons ?_ (.cons ?_ .nil))) <;>
      exact .hex _ _ _ (by decide) (.str _ _ (caseVariant_of_zip _ _ (by decide) (by decide)))
  · refine .epoch _ _ _ (by decide) (.obj _ _ ?_)
    refine .cons ?_ (.cons ?_ (.cons ?_ (.cons ?_ (.cons ?_ .nil))))
    · exact .hex _ _ _ (by decide) (.str _ _ (caseVariant_of_zip _ _ (by decide) (by decide)))
    · exact .hex _ _ _ (by decide) (.str _ _ (caseVariant_of_zip _ _ (by decide) (by decide)))
    · exact .hex _ _ _ (by decide) (.str _ _ (caseVariant_of_zip _ _ (by decide) (by decide)))
    · exact .hex _ _ _ (by decide) (.str _ _ (caseVariant_of_zip _ _ (by decide) (by decide)))
    · refine .validators _ _ _ (by decide) (.cons (.obj _ _ ?_) .nil)
      refine .cons (.same _) (.cons ?_ (.cons ?_ (.cons (.same _) (.cons ?_ .nil))))
      · exact .hex _ _ _ (by decide) (.str _ _ (caseVariant_of_zip _ _ (by decide) (by decide)))
      · exact .hex _ _ _ (by decide) (.str _ _ (caseVariant_of_zip _ _ (by decide) (by decide)))
      · exact .hex _ _ _ (by decide) (.str _ _ (caseVariant_of_zip _ _ (by decide) (by decide)))

theorem hex_case_insensitive_witness :
    GenesisVariant MainnetGenesisJSON otherCaseGenesisJSON
      ∧ GenesisDocFromJSON textCollab (.valid MainnetGenesisJSON)
        = GenesisDocFromJSON textCollab (.valid otherCaseGenesisJSON) :=
  ⟨otherCase_variant,
    hex_case_insensitive textCollab _ _ otherCase_variant⟩

end Genesis
